import Mathlib

/-!
Verification development for the CS-25 document-graph engine and its
streaming batch evaluation pipeline.

The definitions below are a shallow embedding of the Python sources
(backend/src/graphs/cs25_graph/agent.py and utils.py).  Pure functions are
translated into Lean functions; the event-generating coroutines are
translated into functions producing explicit event lists, with the
scheduler's completion order and the random jitter passed in as parameters;
fallible file-system operations return Option.  Rational numbers stand in
for the Python float arithmetic on delays and costs.
-/

/- ------------------------------------------------------------------ -/
/- Part 1: retry wrapper (agent.py, _call_with_retry)                  -/
/- ------------------------------------------------------------------ -/

/-- Token usage block of the stable envelope returned by AsyncAgent.run. -/
structure Usage where
  input_tokens : Nat
  output_tokens : Nat
  total_tokens : Nat
deriving DecidableEq, Repr

/-- Response payload of an envelope: either the schema-shaped verdict of the
reasoning capability, or an error marker dict such as
the uniform failed-item payload. -/
inductive Response where
  | parsed (relevant : Bool) (rationale : Option String)
  | err (msg : String)
deriving DecidableEq, Repr

/-- Stable envelope shape returned by AsyncAgent.run and _call_with_retry. -/
structure Envelope where
  run_id : String
  response : Response
  usage : Usage
deriving DecidableEq, Repr

/-- Outcome of a single attempt of agent.run, as observed by the
try/except blocks of _call_with_retry.  statusError is an
openai.APIStatusError carrying an HTTP status code; timeoutFailure and
otherFailure are both caught by the broad second handler
(the code cannot tell them apart), but only timeoutFailure belongs to the
transient class named by the specification. -/
inductive CallOutcome where
  | success (env : Envelope)
  | statusError (code : Nat)
  | timeoutFailure
  | otherFailure
deriving DecidableEq, Repr

/-- Status codes treated as retryable by _call_with_retry:
code in (429, 500, 502, 503, 504). -/
def transientStatusCodes : List Nat := [429, 500, 502, 503, 504]

/-- Does the code take the retry branch for this outcome (assuming attempts
remain)?  An APIStatusError is retried only for the codes above; every
other exception falls into the broad `except Exception` handler, which
always retries. -/
def codeRetryable : CallOutcome → Bool
  | CallOutcome.success _ => false
  | CallOutcome.statusError c => transientStatusCodes.contains c
  | CallOutcome.timeoutFailure => true
  | CallOutcome.otherFailure => true

/-- The transient-failure class as delimited by the specification:
rate-limit (429), server error (500/502/503/504), timeout-class. -/
def specTransient : CallOutcome → Bool
  | CallOutcome.success _ => false
  | CallOutcome.statusError c => transientStatusCodes.contains c
  | CallOutcome.timeoutFailure => true
  | CallOutcome.otherFailure => false

/-- Is the outcome a successful call. -/
def isSuccess : CallOutcome → Bool
  | CallOutcome.success _ => true
  | _ => false

/-- The unified error envelope returned by _call_with_retry when the loop
ends without a successful call: response is the error dict, usage all zero.
The random run id is a parameter. -/
def errorEnvelope (rid : String) : Envelope :=
  { run_id := rid, response := Response.err "agent_call_failed",
    usage := { input_tokens := 0, output_tokens := 0, total_tokens := 0 } }

/-- Result of the retry wrapper: the envelope finally returned, the list of
sleep durations performed (base delay plus jitter, in order), and the
number of attempts actually made. -/
structure RetryResult where
  env : Envelope
  sleeps : List ℚ
  attempts : Nat
deriving DecidableEq, Repr

/-- Loop body of _call_with_retry.  fuel is the number of remaining
iterations of `for attempt in range(max_retries)`; attempt is the current
attempt index; delay the current base delay.  The retry branch is taken
when the outcome is code-retryable and `attempt < max_retries - 1`,
which is exactly fuel > 1 here. -/
def callWithRetryLoop (outcomes : Nat → CallOutcome) (jitter : Nat → ℚ)
    (errId : String) : Nat → Nat → ℚ → RetryResult
  | _, 0, _ => { env := errorEnvelope errId, sleeps := [], attempts := 0 }
  | attempt, fuel + 1, delay =>
    match outcomes attempt with
    | CallOutcome.success e => { env := e, sleeps := [], attempts := 1 }
    | o =>
      if codeRetryable o = true ∧ fuel ≠ 0 then
        let r := callWithRetryLoop outcomes jitter errId (attempt + 1) fuel (min (delay * 2) 6)
        { env := r.env, sleeps := (delay + jitter attempt) :: r.sleeps,
          attempts := r.attempts + 1 }
      else { env := errorEnvelope errId, sleeps := [], attempts := 1 }

/-- Shallow embedding of _call_with_retry (agent.py).  outcomes gives the
result of the k-th call to agent.run, jitter the value drawn by
random.uniform(0, 0.4) before the k-th retry sleep, errId the random id of
the unified error envelope. -/
def _call_with_retry (outcomes : Nat → CallOutcome) (jitter : Nat → ℚ)
    (errId : String) (max_retries : Nat) : RetryResult :=
  callWithRetryLoop outcomes jitter errId 0 max_retries (6 / 10)

/-- Concrete outcome sequence: the first call fails with an exception that
is neither an API status error nor a timeout (for example a client-side
validation error), the second call succeeds. -/
def c1ExampleEnvelope : Envelope :=
  { run_id := "filter-ok", response := Response.parsed true (some "Yes; fits."),
    usage := { input_tokens := 10, output_tokens := 5, total_tokens := 15 } }

def c1ExampleOutcomes : Nat → CallOutcome
  | 0 => CallOutcome.otherFailure
  | _ => CallOutcome.success c1ExampleEnvelope

def c1ZeroJitter : Nat → ℚ := fun _ => 0


/- ------------------------------------------------------------------ -/
/- Part 2: in-memory document graph (utils.py)                         -/
/- ------------------------------------------------------------------ -/

/-- A node record of the multigraph, holding the attribute dictionary
written by ManifestGraph._build_graph (absent attributes are none).
Bundle node ids are globally unique; lookups below take the first record
with a matching uuid. -/
structure GNode where
  uuid : String
  ntype : Option String := none
  label : Option String := none
  title : Option String := none
  number : Option String := none
  code : Option String := none
  section_type : Option String := none
  guidance_type : Option String := none
  paragraph_id : Option String := none
  text : Option String := none
  classification : Option String := none
  classification_reason : Option String := none
  issuer : Option String := none
  current_amendment : Option String := none
  effective_date : Option String := none
  bottom_uuid : Option String := none
  bottom : Option String := none
  intent : Option String := none
  summary : Option String := none
  events : Option String := none
deriving DecidableEq, Repr

/-- An edge record of the multigraph (parallel edges permitted). -/
structure GEdge where
  source : String
  target : String
  relation : Option String := none
  ref : Option String := none
deriving DecidableEq, Repr

/-- The in-memory multigraph: node records in insertion order, edge records
in insertion order (per-source order equals record order, which is what the
traversal helpers below rely on). -/
structure Graph where
  nodes : List GNode
  edges : List GEdge
deriving DecidableEq, Repr

/-- Python truthy-or on optional strings: a or b. -/
def pyOr (a b : Option String) : Option String :=
  match a with
  | some s => if s = "" then b else some s
  | none => b

/-- Node ids of the graph (membership test `x in G`). -/
def nodeIds (G : Graph) : List String := G.nodes.map (fun n => n.uuid)

/-- First node record carrying this uuid, if any. -/
def findNode (G : Graph) (id : String) : Option GNode :=
  G.nodes.find? (fun n => n.uuid = id)

/-- Attribute dictionary of a node: G.nodes.get(id, \x7b\x7d).  A missing node
yields the empty dictionary (every attribute none). -/
def nodeAttrs (G : Graph) (id : String) : GNode :=
  (findNode G id).getD { uuid := id }

/-- Sources of incoming CONTAINS edges of a node, in edge-record order
(mirrors the in_edges filter of _build_trace). -/
def containsParents (G : Graph) (id : String) : List String :=
  (G.edges.filter (fun e => e.target = id ∧ e.relation = some "CONTAINS")).map
    (fun e => e.source)

/-- parents[0] if parents else None. -/
def parentOf (G : Graph) (id : String) : Option String :=
  (containsParents G id).head?

/-- Iterated parent step: parentIter G k id walks k CONTAINS steps up. -/
def parentIter (G : Graph) : Nat → String → Option String
  | 0, id => some id
  | k + 1, id => (parentIter G k id).bind (fun p => parentOf G p)

/-- Normalized node record as produced by _build_trace for one node of the
upward path (the LL-facing key normalization of utils.py). -/
structure TraceRec where
  uuid : String
  ntype : Option String := none
  label : Option String := none
  title : Option String := none
  issuer : Option String := none
  amendment : Option String := none
  effective_date : Option String := none
  code : Option String := none
  number : Option String := none
  section_type : Option String := none
  guidance_type : Option String := none
  paragraph_id : Option String := none
  text : Option String := none
  classification : Option String := none
  classification_reason : Option String := none
deriving DecidableEq, Repr

/-- Normalization of one node attribute record into a trace record, by node
type (helper for mkTraceRec). -/
def mkTraceRecOf (cur : String) (n : GNode) : TraceRec :=
  match n.ntype with
  | some "Document" =>
    { uuid := cur, ntype := n.ntype, label := n.label, title := n.title,
      issuer := n.issuer, amendment := n.current_amendment,
      effective_date := n.effective_date }
  | some "Subpart" =>
    { uuid := cur, ntype := n.ntype, label := n.label, code := n.code, title := n.title }
  | some "Heading" =>
    { uuid := cur, ntype := n.ntype, label := n.label }
  | some "Section" =>
    { uuid := cur, ntype := n.ntype, label := n.label, number := n.number,
      title := n.title, section_type := n.section_type }
  | some "Guidance" =>
    { uuid := cur, ntype := n.ntype, label := n.label, number := n.number,
      title := n.title, guidance_type := n.guidance_type }
  | some "Paragraph" =>
    { uuid := cur, ntype := n.ntype, paragraph_id := n.paragraph_id, text := n.text,
      classification := n.classification,
      classification_reason := n.classification_reason }
  | _ =>
    { uuid := cur, ntype := n.ntype, label := pyOr n.label n.number }

/-- Normalization of one node into a trace record, as in _build_trace. -/
def mkTraceRec (G : Graph) (cur : String) : TraceRec :=
  mkTraceRecOf cur (nodeAttrs G cur)

/-- All strings that can ever stand in the cur variable of the walk:
node ids plus edge endpoints, deduplicated. -/
def allIdsD (G : Graph) : List String :=
  ((G.nodes.map (fun n => n.uuid)) ++ (G.edges.map (fun e => e.source)) ++
    (G.edges.map (fun e => e.target))).dedup

/-- Fuel that certainly lets the visited-set walk run to completion. -/
def traceFuel (G : Graph) : Nat := (allIdsD G).length + 1

/-- The while loop of _build_trace: walk upward via incoming CONTAINS
edges, stopping on None or on a visited node.  The fuel argument only
bounds the iteration count for totality; traceFuel is always enough
(theorem C7_trace_terminates). -/
def traceLoop (G : Graph) : Nat → Option String → List String → List TraceRec
  | 0, _, _ => []
  | _, none, _ => []
  | fuel + 1, some cur, visited =>
    if cur ∈ visited then []
    else mkTraceRec G cur :: traceLoop G fuel (parentOf G cur) (cur :: visited)

/-- Shallow embedding of GraphOps._build_trace: returns the path
Document to bottom paragraph (reversed walk), or the empty list when the
id is absent from the graph. -/
def _build_trace (G : Graph) (bottom_uuid : String) : List TraceRec :=
  if bottom_uuid ∈ nodeIds G then
    (traceLoop G (traceFuel G) (some bottom_uuid) []).reverse
  else []

/-- Concrete 3-node corpus: Document contains Section contains Paragraph. -/
def g3 : Graph :=
  { nodes :=
      [{ uuid := "d1", ntype := some "Document", label := some "CS-25",
         title := some "Large Aeroplanes" },
       { uuid := "s1", ntype := some "Section", label := some "CS 25.20",
         number := some "CS 25.20", title := some "Scope" },
       { uuid := "p1", ntype := some "Paragraph", paragraph_id := some "25.20(a)",
         classification := some "scope_setter" }],
    edges :=
      [{ source := "d1", target := "s1", relation := some "CONTAINS" },
       { source := "s1", target := "p1", relation := some "CONTAINS" }] }

/-- Malformed 2-node corpus whose CONTAINS edges form a cycle. -/
def gCyc : Graph :=
  { nodes :=
      [{ uuid := "a", ntype := some "Paragraph", paragraph_id := some "1.1(a)" },
       { uuid := "b", ntype := some "Section", number := some "CS 1.1" }],
    edges :=
      [{ source := "b", target := "a", relation := some "CONTAINS" },
       { source := "a", target := "b", relation := some "CONTAINS" }] }



/- ------------------------------------------------------------------ -/
/- Part 3: intent collection (utils.py, _collect_intents)              -/
/- ------------------------------------------------------------------ -/

/-- Normalized intent entry appended to a bucket by _collect_intents. -/
structure IntentRec where
  uuid_intent : String
  intent : Option String := none
  summary : Option String := none
  events : Option String := none
deriving DecidableEq, Repr

/-- Per-node intent bucket: uuid_node, ntype, intents. -/
structure IntentBucket where
  uuid_node : String
  ntype : Option String := none
  intents : List IntentRec
deriving DecidableEq, Repr

/-- Normalize an Intent node into the appended entry (the uuid attribute of
a loaded node record always equals its id, which setdefault also
guarantees for the fallback). -/
def mkIntentRec (G : Graph) (tgt : String) : IntentRec :=
  { uuid_intent := tgt, intent := (nodeAttrs G tgt).intent,
    summary := (nodeAttrs G tgt).summary, events := (nodeAttrs G tgt).events }

/-- The add closure of _collect_intents: append the entry to the bucket of
uuid_node, creating the bucket at the end on first use (dict insertion
order and setdefault semantics). -/
def addIntent (buckets : List IntentBucket) (uuid_node : String) (ntype : Option String)
    (entry : IntentRec) : List IntentBucket :=
  if buckets.any (fun b => b.uuid_node = uuid_node) then
    buckets.map (fun b =>
      if b.uuid_node = uuid_node then
        { uuid_node := b.uuid_node, ntype := b.ntype, intents := b.intents ++ [entry] }
      else b)
  else buckets ++ [{ uuid_node := uuid_node, ntype := ntype, intents := [entry] }]

/-- Targets of outgoing HAS_INTENT edges of a node whose target node is an
Intent, in edge-record order. -/
def intentTargets (G : Graph) (nid : String) : List String :=
  ((G.edges.filter (fun e => e.source = nid ∧ e.relation = some "HAS_INTENT")).filter
    (fun e => (nodeAttrs G e.target).ntype = some "Intent")).map (fun e => e.target)

/-- Add all intents of one node under the key uuid_node. -/
def addAll (G : Graph) (uuid_node : String) (ntype : Option String)
    (tgts : List String) (acc : List IntentBucket) : List IntentBucket :=
  tgts.foldl (fun a tgt => addIntent a uuid_node ntype (mkIntentRec G tgt)) acc

/-- Phase 1 of _collect_intents: HAS_INTENT from any node of the trace. -/
def collectTraceIntents (G : Graph) (trace : List TraceRec) : List IntentBucket :=
  trace.foldl (fun acc rec =>
    if rec.uuid = "" then acc
    else addAll G rec.uuid rec.ntype (intentTargets G rec.uuid) acc) []

/-- Trace nodes anchored (HAS_ANCHOR) to the bottom paragraph, in
edge-record order. -/
def anchorTraces (G : Graph) (bottom : String) : List String :=
  ((G.edges.filter (fun e => e.target = bottom ∧ e.relation = some "HAS_ANCHOR")).map
    (fun e => e.source)).filter (fun t => (nodeAttrs G t).ntype = some "Trace")

/-- Shallow embedding of GraphOps._collect_intents: merge intents attached
to any trace node with intents attached to the Trace anchoring the bottom
paragraph, bucketed by node id. -/
def _collect_intents (G : Graph) (trace : List TraceRec) (bottom : String) :
    List IntentBucket :=
  (anchorTraces G bottom).foldl (fun acc trc =>
    addAll G bottom (some "Paragraph") (intentTargets G trc) acc)
    (collectTraceIntents G trace)



/-- A bucket list carries the entry under the key u. -/
def hasIntentUnder (bs : List IntentBucket) (u : String) (entry : IntentRec) : Prop :=
  ∃ b, b ∈ bs ∧ b.uuid_node = u ∧ entry ∈ b.intents

/-- Concrete corpus with intents on both provenance paths: a Section-level
intent i1 and a Trace-anchored intent i2. -/
def gIntents : Graph :=
  { nodes :=
      [{ uuid := "d1", ntype := some "Document" },
       { uuid := "s1", ntype := some "Section", number := some "CS 25.10" },
       { uuid := "p1", ntype := some "Paragraph", paragraph_id := some "25.10(a)" },
       { uuid := "t1", ntype := some "Trace", bottom_uuid := some "p1" },
       { uuid := "i1", ntype := some "Intent", summary := some "sec intent" },
       { uuid := "i2", ntype := some "Intent", summary := some "trace intent" }],
    edges :=
      [{ source := "d1", target := "s1", relation := some "CONTAINS" },
       { source := "s1", target := "p1", relation := some "CONTAINS" },
       { source := "s1", target := "i1", relation := some "HAS_INTENT" },
       { source := "t1", target := "p1", relation := some "HAS_ANCHOR" },
       { source := "t1", target := "i2", relation := some "HAS_INTENT" }] }



/- ------------------------------------------------------------------ -/
/- Part 4: bundle integrity and loading (utils.py, ManifestGraph)      -/
/- ------------------------------------------------------------------ -/

/-- On-disk file system: association list path to byte content. -/
abbrev Fsys : Type := List (String × List Nat)

/-- Read a file; none models the file-not-found exception. -/
def readFile (fs : Fsys) (p : String) : Option (List Nat) :=
  (fs.find? (fun e => e.1 = p)).map (fun e => e.2)

/-- Overwrite or create a file. -/
def writeFile (fs : Fsys) (p : String) (b : List Nat) : Fsys :=
  if fs.any (fun e => e.1 = p) then
    fs.map (fun e => if e.1 = p then (p, b) else e)
  else fs ++ [(p, b)]

/-- The integrity block of the manifest. -/
structure IntegrityBlock where
  checksum : Option String := none
  content_rev : Option String := none
deriving DecidableEq, Repr

/-- The bundle block of the manifest: declared node files, edge files and
optional index file. -/
structure BundleDecl where
  nodes : List String
  edges : List String
  index : Option String := none
deriving DecidableEq, Repr

/-- The manifest descriptor (metadata fields are not modelled; no claim
touches them). -/
structure Manifest where
  bundle : BundleDecl
  integrity : Option IntegrityBlock := none
deriving DecidableEq, Repr

/-- Resolved state after ManifestGraph.__init__ plus _resolve_bundle_paths:
paths are resolved against the corpus dir, the index path only kept when
the file exists at init time. -/
structure MGState where
  corpus_dir : String
  manifest : Manifest
  nodes_files : List String
  edges_files : List String
  index_path : Option String
deriving DecidableEq, Repr

def resolvePath (dir p : String) : String := dir ++ "/" ++ p

/-- ManifestGraph.__init__ given an already parsed manifest. -/
def mgInit (dir : String) (m : Manifest) (fs : Fsys) : MGState :=
  { corpus_dir := dir, manifest := m,
    nodes_files := m.bundle.nodes.map (resolvePath dir),
    edges_files := m.bundle.edges.map (resolvePath dir),
    index_path :=
      match m.bundle.index with
      | some idx =>
        if (readFile fs (resolvePath dir idx)).isSome then some (resolvePath dir idx)
        else none
      | none => none }

def manifestPath (mg : MGState) : String := resolvePath mg.corpus_dir "manifest.json"

/-- Code-point lexicographic comparison of character lists, the order
Python uses for str. -/
def charListLt : List Char → List Char → Bool
  | [], [] => false
  | [], _ :: _ => true
  | _ :: _, [] => false
  | a :: as, b :: bs => if a < b then true else if b < a then false else charListLt as bs

def strLt (a b : String) : Bool := charListLt a.data b.data

def strLe (a b : String) : Bool := !(strLt b a)

/-- Stable insertion step: a goes after every element not greater than it,
which is exactly where a stable sort keeps it. -/
def insertS {α : Type} (le : α → α → Bool) (a : α) : List α → List α
  | [] => [a]
  | b :: t => if le b a then b :: insertS le a t else a :: b :: t

/-- Stable sort by a boolean total preorder.  A stable sort's output is
uniquely determined by the comparator and the input order, so this
insertion sort computes exactly what list.sort / sorted produce. -/
def pySort {α : Type} (le : α → α → Bool) (l : List α) : List α :=
  l.foldl (fun acc x => insertS le x acc) []

/-- Declared bundle files, path-sorted (ManifestGraph._bundle_files). -/
def _bundle_files (mg : MGState) : List String :=
  pySort strLe
    ((mg.nodes_files ++ mg.edges_files) ++
      (match mg.index_path with | some i => [i] | none => []))

/-- Hash of the files concatenated in the given order; sha models
hashlib.sha256 hexdigest over the concatenated bytes; none models the
missing-file exception of open(). -/
def readAll (fs : Fsys) : List String → Option (List (List Nat))
  | [] => some []
  | p :: ps => (readFile fs p).bind (fun b => (readAll fs ps).map (fun rest => b :: rest))

def _hash_files (sha : List Nat → String) (fs : Fsys) (files : List String) :
    Option String :=
  (readAll fs files).map (fun chunks => sha chunks.flatten)

/-- ManifestGraph.compute_checksum. -/
def compute_checksum (sha : List Nat → String) (fs : Fsys) (mg : MGState) :
    Option String :=
  (_hash_files sha fs (_bundle_files mg)).map (fun h => "sha256:" ++ h)

/-- Split at the first colon, as str.partition does (before, after); a
missing separator yields (s, empty). -/
def partitionCharsColon : List Char → Option (List Char × List Char)
  | [] => none
  | c :: rest =>
    if c = ':' then some ([], rest)
    else (partitionCharsColon rest).map (fun pr => (c :: pr.1, pr.2))

def partitionColon (s : String) : String × String :=
  match partitionCharsColon s.data with
  | some pr => (String.mk pr.1, String.mk pr.2)
  | none => (s, "")

def lowerChar (c : Char) : Char :=
  if 'A' ≤ c ∧ c ≤ 'Z' then Char.ofNat (c.toNat + 32) else c

/-- ASCII lowering of str.lower (the algorithm tag is ASCII). -/
def strLower (s : String) : String := String.mk (s.data.map lowerChar)

/-- Status record returned by checksum_status. -/
structure IntegrityStatus where
  status : String
  checksum_passed : Bool
  declared : Option String := none
  computed : Option String := none
  checksum : Option String := none
  content_rev : Option String := none
deriving DecidableEq, Repr

/-- ManifestGraph.checksum_status: missing, unsupported, invalid or valid;
none models the exception raised when a declared bundle file is absent. -/
def checksum_status (sha : List Nat → String) (fs : Fsys) (mg : MGState) :
    Option IntegrityStatus :=
  let integrity := mg.manifest.integrity.getD { checksum := none, content_rev := none }
  match integrity.checksum with
  | none => some { status := "missing", checksum_passed := false }
  | some declared =>
    if declared = "" then some { status := "missing", checksum_passed := false }
    else
      let pr := partitionColon declared
      if strLower pr.1 ≠ "sha256" ∨ pr.2 = "" then
        some { status := "unsupported", checksum_passed := false,
               declared := some declared }
      else
        (_hash_files sha fs (_bundle_files mg)).map (fun computed =>
          if computed ≠ pr.2 then
            { status := "invalid", checksum_passed := false,
              declared := some pr.2, computed := some computed }
          else
            { status := "valid", checksum_passed := true,
              checksum := some declared, content_rev := integrity.content_rev })

/-- Consistent load payload of ManifestGraph.load (manifest_meta elided). -/
structure LoadResult where
  graph_loaded : Bool
  checksum_passed : Bool
  integrity : IntegrityStatus
  nodes : Nat
  edges : Nat
  errors : List String
deriving DecidableEq, Repr

/-- Read and decode the newline-delimited record files; decode stands for
the per-file json.loads loop and returns none on a parse error. -/
def loadJsonl {α : Type} (decode : List Nat → Option (List α)) (fs : Fsys) :
    List String → Option (List α)
  | [] => some []
  | p :: ps =>
    ((readFile fs p).bind decode).bind (fun recs =>
      (loadJsonl decode fs ps).map (fun rest => recs ++ rest))

/-- Node ids actually added by _build_graph: truthy uuid, first insertion
wins for the node set. -/
def addedNodeIds (nodes : List GNode) : List String :=
  ((nodes.filter (fun n => n.uuid ≠ "")).map (fun n => n.uuid)).dedup

/-- Edge records kept by _build_graph: both endpoints present. -/
def keptEdges (nodes : List GNode) (edges : List GEdge) : List GEdge :=
  edges.filter (fun e =>
    e.source ∈ addedNodeIds nodes ∧ e.target ∈ addedNodeIds nodes)

/-- ManifestGraph.load: integrity is computed first and attached alongside;
the graph is then parsed and built, and parse failures only flip
graph_loaded with an error entry.  none models the exception when
checksum_status itself cannot read a bundle file. -/
def mgLoad (sha : List Nat → String) (nodeDecode : List Nat → Option (List GNode))
    (edgeDecode : List Nat → Option (List GEdge)) (fs : Fsys) (mg : MGState) :
    Option LoadResult :=
  (checksum_status sha fs mg).map (fun integ =>
    match loadJsonl nodeDecode fs mg.nodes_files, loadJsonl edgeDecode fs mg.edges_files with
    | some nodes, some edges =>
      { graph_loaded := true, checksum_passed := integ.checksum_passed,
        integrity := integ, nodes := (addedNodeIds nodes).length,
        edges := (keptEdges nodes edges).length, errors := [] }
    | _, _ =>
      { graph_loaded := false, checksum_passed := integ.checksum_passed,
        integrity := integ, nodes := 0, edges := 0,
        errors := ["load_jsonl_failed"] })

/-- ManifestGraph.update_manifest: recompute the checksum, store it in the
manifest (bumping content_rev to the current timestamp when asked), write
the manifest file back, and return the round-trip checksum_status of the
new state.  encodeManifest models json.dumps; now models utcnow. -/
def update_manifest (sha : List Nat → String) (encodeManifest : Manifest → List Nat)
    (now : String) (bump_rev : Bool) (fs : Fsys) (mg : MGState) :
    Option (MGState × Fsys × Option IntegrityStatus) :=
  (compute_checksum sha fs mg).map (fun checksum =>
    let integrity0 := mg.manifest.integrity.getD { checksum := none, content_rev := none }
    let integrity1 : IntegrityBlock :=
      { checksum := some checksum,
        content_rev := if bump_rev then some now else integrity0.content_rev }
    let m2 : Manifest := { bundle := mg.manifest.bundle, integrity := some integrity1 }
    let mg2 : MGState :=
      { corpus_dir := mg.corpus_dir, manifest := m2,
        nodes_files := mg.nodes_files, edges_files := mg.edges_files,
        index_path := mg.index_path }
    let fs2 := writeFile fs (manifestPath mg2) (encodeManifest m2)
    (mg2, fs2, checksum_status sha fs2 mg2))



/-- Concrete bundle for the integrity scenarios: one node file, one edge
file, a manifest declaring the digest sha256:deadbeef. -/
def c8Fs : Fsys :=
  [("/c/manifest.json", [9, 9]), ("/c/nodes.jsonl", [1, 2]), ("/c/edges.jsonl", [3])]

def c8Manifest : Manifest :=
  { bundle := { nodes := ["nodes.jsonl"], edges := ["edges.jsonl"], index := none },
    integrity := some { checksum := some "sha256:deadbeef" } }

def c8MG : MGState := mgInit "/c" c8Manifest c8Fs

/-- Toy stand-in digest function (constant, hence unequal to deadbeef). -/
def c8Sha : List Nat → String := fun _ => "aaaa"

def c8NodeDecode : List Nat → Option (List GNode) :=
  fun _ => some [{ uuid := "n1", ntype := some "Document" },
    { uuid := "n2", ntype := some "Section" }]

def c8EdgeDecode : List Nat → Option (List GEdge) :=
  fun _ => some [{ source := "n1", target := "n2", relation := some "CONTAINS" },
    { source := "n1", target := "zz", relation := some "CITES" }]

def c8Encode : Manifest → List Nat := fun _ => [7]



/- ------------------------------------------------------------------ -/
/- Part 5: streaming batch evaluation pipeline (agent.py)              -/
/- ------------------------------------------------------------------ -/

/-- One work item of the pipeline, as produced by iter_trace_nodes. -/
structure TraceItem where
  trace_uuid : String
  bottom_uuid : Option String := none
  bottom_clause : Option String := none
deriving DecidableEq, Repr

/-- iter_trace_nodes: all Trace-typed nodes in node order, with their
bottom_uuid and bottom clause attributes. -/
def iter_trace_nodes (G : Graph) : List TraceItem :=
  (G.nodes.filter (fun n => n.ntype = some "Trace")).map (fun n =>
    { trace_uuid := n.uuid, bottom_uuid := n.bottom_uuid, bottom_clause := n.bottom })

/-- chunked(items, size): fixed-size batches (size 0, which raises in
Python, yields no batches here; every claim assumes size > 0). -/
def chunked {α : Type} (l : List α) (size : Nat) : List (List α) :=
  match l with
  | [] => []
  | x :: xs =>
    if size = 0 then []
    else (x :: xs).take size :: chunked ((x :: xs).drop size) size
termination_by l.length
decreasing_by
  rename_i hsize
  simp only [List.length_drop, List.length_cons]
  omega

/-- Usage enriched with costs at the caller-supplied per-million rates
(_enrich_usage_with_costs). -/
structure EnrichedUsage where
  input_tokens : Nat
  output_tokens : Nat
  total_tokens : Nat
  input_cost : ℚ
  output_cost : ℚ
  total_cost : ℚ
deriving DecidableEq, Repr

def _enrich_usage_with_costs (u : Usage) (pin pout : ℚ) : EnrichedUsage :=
  let in_cost := (u.input_tokens : ℚ) / 1000000 * pin
  let out_cost := (u.output_tokens : ℚ) / 1000000 * pout
  { input_tokens := u.input_tokens, output_tokens := u.output_tokens,
    total_tokens := if u.total_tokens ≠ 0 then u.total_tokens
      else u.input_tokens + u.output_tokens,
    input_cost := in_cost, output_cost := out_cost,
    total_cost := in_cost + out_cost }

/-- The item object carried by an item_done event. -/
structure ItemObj where
  run_id : String
  trace_uuid : String
  bottom_uuid : Option String
  bottom_clause : Option String
  response : Response
  usage : EnrichedUsage
deriving DecidableEq, Repr

/-- The per-item task `one` of _stream_batch_parallel: items without a
bottom_uuid get the fabricated missing-bottom envelope; all others call
the capability through _call_with_retry — capability models that call and
therefore always returns an envelope (success or the uniform error
envelope), never raises.  errId supplies the random id of the fabricated
envelope. -/
def oneItem (capability : TraceItem → Envelope) (errId : TraceItem → String)
    (pin pout : ℚ) (it : TraceItem) : ItemObj :=
  if it.bottom_uuid = none ∨ it.bottom_uuid = some "" then
    { run_id := errId it, trace_uuid := it.trace_uuid, bottom_uuid := it.bottom_uuid,
      bottom_clause := it.bottom_clause, response := Response.err "missing bottom_uuid",
      usage := _enrich_usage_with_costs
        { input_tokens := 0, output_tokens := 0, total_tokens := 0 } pin pout }
  else
    let res := capability it
    { run_id := res.run_id, trace_uuid := it.trace_uuid, bottom_uuid := it.bottom_uuid,
      bottom_clause := it.bottom_clause, response := res.response,
      usage := _enrich_usage_with_costs res.usage pin pout }

/-- Events of the ordered streaming protocol (wall-clock ts fields are
not modelled). -/
inductive Event where
  | run_start (model query : String) (total_traces batch_size num_batches : Nat)
      (pin pout : ℚ)
  | batch_header (index ofN size : Nat)
  | batch_start (size : Nat)
  | item_done (done total : Nat) (item : ItemObj)
  | batch_progress (done total tokens_in tokens_out : Nat) (batch_cost : ℚ)
  | batch_end (tokens_in tokens_out : Nat) (batch_cost : ℚ) (size : Nat)
  | run_end (total_traces batch_size num_batches tokens_in tokens_out : Nat)
      (estimated_cost : ℚ)
deriving DecidableEq, Repr

/-- The as_completed consumption loop of _stream_batch_parallel: one
item_done then one batch_progress per resolved item, accumulating batch
token counters.  Returns the events plus the final counters. -/
def batchLoop (total : Nat) (pin pout : ℚ) :
    List ItemObj → Nat → Nat → Nat → (List Event × Nat × Nat)
  | [], _, tin, tout => ([], tin, tout)
  | it :: rest, done, tin, tout =>
    let tin2 := tin + it.usage.input_tokens
    let tout2 := tout + it.usage.output_tokens
    let r := batchLoop total pin pout rest (done + 1) tin2 tout2
    (Event.item_done (done + 1) total it ::
      Event.batch_progress (done + 1) total tin2 tout2
        ((tin2 : ℚ) / 1000000 * pin + (tout2 : ℚ) / 1000000 * pout) :: r.1,
     r.2)

/-- One batch as an event stream (_stream_batch_parallel).  comp is the
batch's items in completion order of the concurrent tasks — the scheduling
outcome, a permutation of batch_items. -/
def _stream_batch_parallel (capability : TraceItem → Envelope)
    (errId : TraceItem → String) (pin pout : ℚ)
    (batch_items comp : List TraceItem) : List Event :=
  let total := batch_items.length
  let objs := comp.map (oneItem capability errId pin pout)
  let r := batchLoop total pin pout objs 0 0 0
  Event.batch_start total ::
    (r.1 ++ [Event.batch_end r.2.1 r.2.2
      ((r.2.1 : ℚ) / 1000000 * pin + (r.2.2 : ℚ) / 1000000 * pout) total])

/-- Selection and limiting of the trace list in stream_all_traces (an
empty selection list and a zero limit are falsy and ignored, as in the
Python truthiness tests). -/
def selectTraces (G : Graph) (selected : Option (List String)) (limit : Option Nat) :
    List TraceItem :=
  let all0 := iter_trace_nodes G
  let all1 :=
    match selected with
    | some sel => if sel ≠ [] then all0.filter (fun t => t.trace_uuid ∈ sel) else all0
    | none => all0
  match limit with
  | some l => if l ≠ 0 then all1.take l else all1
  | none => all1

def sumIn (objs : List ItemObj) : Nat :=
  (objs.map (fun o => o.usage.input_tokens)).sum

def sumOut (objs : List ItemObj) : Nat :=
  (objs.map (fun o => o.usage.output_tokens)).sum

/-- The per-batch loop of stream_all_traces: batch_header then the batch
stream, accumulating the run token totals from the consumed item_done
events (their sum over a batch equals the sum over its item objects).
sched gives each batch's completion order; i is the 1-based batch index. -/
def runBatches (capability : TraceItem → Envelope) (errId : TraceItem → String)
    (pin pout : ℚ) (num_batches : Nat) (sched : Nat → List TraceItem → List TraceItem) :
    Nat → List (List TraceItem) → (List Event × Nat × Nat)
  | _, [] => ([], 0, 0)
  | i, b :: rest =>
    let comp := sched i b
    let objs := comp.map (oneItem capability errId pin pout)
    let bev := _stream_batch_parallel capability errId pin pout b comp
    let r := runBatches capability errId pin pout num_batches sched (i + 1) rest
    (Event.batch_header i num_batches b.length :: (bev ++ r.1),
     sumIn objs + r.2.1, sumOut objs + r.2.2)

/-- Shallow embedding of stream_all_traces (agent.py): the whole run as an
ordered event list. -/
def stream_all_traces (G : Graph) (capability : TraceItem → Envelope)
    (errId : TraceItem → String) (query model : String) (batch_size : Nat)
    (limit : Option Nat) (pin pout : ℚ) (selected : Option (List String))
    (sched : Nat → List TraceItem → List TraceItem) : List Event :=
  let all := selectTraces G selected limit
  let batches := chunked all batch_size
  let nb := batches.length
  let r := runBatches capability errId pin pout nb sched 1 batches
  Event.run_start model query all.length batch_size nb pin pout ::
    (r.1 ++ [Event.run_end all.length batch_size nb r.2.1 r.2.2
      ((r.2.1 : ℚ) / 1000000 * pin + (r.2.2 : ℚ) / 1000000 * pout)])

/-- Claim-side protocol checker.  State 0: expect a batch_header or the
final run_end; state 1: expect batch_start; state 2: inside a batch,
item_done and batch_progress may interleave until batch_end. -/
def eventsOkAux : List Event → Nat → Bool
  | [], _ => false
  | Event.run_end _ _ _ _ _ _ :: rest, 0 => rest.isEmpty
  | Event.batch_header _ _ _ :: rest, 0 => eventsOkAux rest 1
  | Event.batch_start _ :: rest, 1 => eventsOkAux rest 2
  | Event.item_done _ _ _ :: rest, 2 => eventsOkAux rest 2
  | Event.batch_progress _ _ _ _ _ :: rest, 2 => eventsOkAux rest 2
  | Event.batch_end _ _ _ _ :: rest, 2 => eventsOkAux rest 0
  | _, _ => false

def protocolOk : List Event → Bool
  | Event.run_start _ _ _ _ _ _ _ :: rest => eventsOkAux rest 0
  | _ => false

/-- The item payloads of a stream, in emission order. -/
def itemPayloads (evs : List Event) : List ItemObj :=
  evs.filterMap (fun e =>
    match e with
    | Event.item_done _ _ it => some it
    | _ => none)

def isHeader : Event → Bool
  | Event.batch_header _ _ _ => true
  | _ => false

/-- Split a stream into its per-batch segments, each starting at a
batch_header (events before the first header are dropped; the run_end
trailing the last batch falls into the last segment). -/
def splitAux : List Event → Option (List Event) → List (List Event)
  | [], cur =>
    (match cur with
     | some s => [s.reverse]
     | none => [])
  | e :: rest, cur =>
    if isHeader e then
      (match cur with
       | some s => [s.reverse]
       | none => []) ++ splitAux rest (some [e])
    else
      match cur with
      | some s => splitAux rest (some (e :: s))
      | none => splitAux rest none

def splitAtHeaders (evs : List Event) : List (List Event) := splitAux evs none

/-- Expected per-batch completion payloads: batch i's items in completion
order, mapped through the per-item task. -/
def compObjs (capability : TraceItem → Envelope) (errId : TraceItem → String)
    (pin pout : ℚ) (sched : Nat → List TraceItem → List TraceItem) :
    Nat → List (List TraceItem) → List (List ItemObj)
  | _, [] => []
  | i, b :: rest =>
    (sched i b).map (oneItem capability errId pin pout) ::
      compObjs capability errId pin pout sched (i + 1) rest

def countEvents (p : Event → Bool) (evs : List Event) : Nat :=
  (evs.filter p).length

def isItemDone : Event → Bool
  | Event.item_done _ _ _ => true
  | _ => false

def isRunEnd : Event → Bool
  | Event.run_end _ _ _ _ _ _ => true
  | _ => false

/-- Concrete corpus for the batch scenarios: seven Trace leaves with
bottom anchors, no edges. -/
def c23Node (k : Nat) : GNode :=
  { uuid := "t" ++ toString k, ntype := some "Trace",
    bottom_uuid := some ("p" ++ toString k), bottom := some ("cl" ++ toString k) }

def c23Graph : Graph :=
  { nodes := [c23Node 1, c23Node 2, c23Node 3, c23Node 4, c23Node 5, c23Node 6,
      c23Node 7],
    edges := [] }

/-- A capability that always succeeds instantly with a fixed usage. -/
def c23Cap : TraceItem → Envelope := fun it =>
  { run_id := "r-" ++ it.trace_uuid, response := Response.parsed true none,
    usage := { input_tokens := 100, output_tokens := 20, total_tokens := 120 } }

/-- A capability on which every item evaluation fails: each call returns
the uniform failed-item envelope that _call_with_retry produces after
exhausted retries. -/
def c3FailCap : TraceItem → Envelope := fun it => errorEnvelope ("x-" ++ it.trace_uuid)

def c23ErrId : TraceItem → String := fun it => "err-" ++ it.trace_uuid

/-- Identity scheduling: tasks complete in submission order. -/
def c23Sched : Nat → List TraceItem → List TraceItem := fun _ b => b


/- ------------------------------------------------------------------ -/
/- Part 6: frontend outline and section-trace builders (utils.py)      -/
/- ------------------------------------------------------------------ -/

/-- Children of a node along CONTAINS edges, in edge-record order
(contains_children of build_outline_for_frontend and _children_map). -/
def containsChildren (G : Graph) (id : String) : List String :=
  (G.edges.filter (fun e => e.source = id ∧ e.relation = some "CONTAINS")).map
    (fun e => e.target)

/-- child-to-parent map of _parent_map: dict assignment along the edge
list, so the LAST CONTAINS edge into a node wins. -/
def parentMapOf (G : Graph) (c : String) : Option String :=
  ((G.edges.filter (fun e => e.target = c ∧ e.relation = some "CONTAINS")).map
    (fun e => e.source)).getLast?

/-- Python attribute-or-empty: d.get(k) or treated as the empty string. -/
def strD (a : Option String) : String := a.getD ""

/-- Python truthy-or of an optional attribute against a string fallback. -/
def pyOrS (a : Option String) (b : String) : String :=
  match a with
  | some s => if s = "" then b else s
  | none => b

/-- The bucket tag used by _ordered_children:
G.nodes.get(k, dict()).get(ntype, Other). -/
def bucketTag (G : Graph) (id : String) : String := ((nodeAttrs G id).ntype).getD "Other"

def knownTypes : List String := ["Subpart", "Heading", "Section", "Guidance", "Paragraph"]

/-- INF = 10 ** 9 of the outline builder. -/
def INF : Nat := 1000000000

/-- Decimal value of a digit list. -/
def digitsToNat (l : List Char) : Nat := l.foldl (fun a c => a * 10 + (c.toNat - 48)) 0

/-- Maximal leading digit run of a character list, with the remainder. -/
def digitRun : List Char → List Char × List Char
  | [] => ([], [])
  | c :: cs =>
    if c.isDigit then
      let r := digitRun cs
      (c :: r.1, r.2)
    else ([], c :: cs)

/-- One anchored attempt of the regex digits-dot-digits at the head of the
list: maximal digit run, a literal dot, a second nonempty digit run
(greedy plus backtracking collapses to exactly this check). -/
def pairHere (l : List Char) : Option (Nat × Nat) :=
  match digitRun l with
  | ([], _) => none
  | (d1, rest) =>
    match rest with
    | '.' :: r2 =>
      match digitRun r2 with
      | ([], _) => none
      | (d2, _) => some (digitsToNat d1, digitsToNat d2)
    | _ => none

/-- re.search of the digits-dot-digits pattern: the leftmost position
where it matches. -/
def searchSectionPair : List Char → Option (Nat × Nat)
  | [] => none
  | c :: cs =>
    match pairHere (c :: cs) with
    | some p => some p
    | none => searchSectionPair cs

/-- _parse_first_section_pair: (25, 20) out of CS 25.20 Scope, (INF, INF)
when nothing matches (the empty string included). -/
def parseFirstSectionPair (s : String) : Nat × Nat :=
  match searchSectionPair s.data with
  | some p => p
  | none => (INF, INF)

/-- A Section node's own numeric key, as precomputed into section_key:
parse of number-or-label. -/
def sectionKeyOf (G : Graph) (id : String) : Nat × Nat :=
  parseFirstSectionPair (pyOrS (nodeAttrs G id).number (pyOrS (nodeAttrs G id).label ""))

/-- Boolean strict order on Nat. -/
def natLtB (a b : Nat) : Bool := decide (a < b)

/-- Lexicographic strict order on a product, from strict orders on the
components: the Python tuple order. -/
def lexLt {α β : Type} (la : α → α → Bool) (lb : β → β → Bool) (x y : α × β) : Bool :=
  if la x.1 y.1 then true else if la y.1 x.1 then false else lb x.2 y.2

/-- Lexicographic strict order on lists (a proper prefix is smaller): the
Python tuple order on variable-length tuples. -/
def listLt {α : Type} (la : α → α → Bool) : List α → List α → Bool
  | [], [] => false
  | [], _ :: _ => true
  | _ :: _, [] => false
  | a :: as, b :: bs => if la a b then true else if la b a then false else listLt la as bs

/-- Non-strict comparison derived from a strict one, the form list.sort
key functions need. -/
def leOf {α : Type} (lt : α → α → Bool) (a b : α) : Bool := !(lt b a)

def pairLt : Nat × Nat → Nat × Nat → Bool := lexLt natLtB natLtB

/-- min_section_key (memoized in Python; a pure recursion here): a
Section's own key, otherwise the pairwise minimum over the CONTAINS
children - the walk does NOT look below a Section.  fuel bounds the
recursion depth (the Python recursion has no cycle guard). -/
def minSectionKey (G : Graph) : Nat → String → Nat × Nat
  | 0, _ => (INF, INF)
  | fuel + 1, nid =>
    if (nodeAttrs G nid).ntype = some "Section" then sectionKeyOf G nid
    else
      ((containsChildren G nid).map (fun c => minSectionKey G fuel c)).foldl
        (fun best ck => if pairLt ck best then ck else best) (INF, INF)

/-- The minimum numeric section-key found ANYWHERE in the subtree, the
reading the specification describes (recursing below Sections too).
This definition follows the words of the specification, for comparison
with minSectionKey above. -/
def specMinSectionKeyAnywhere (G : Graph) : Nat → String → Nat × Nat
  | 0, _ => (INF, INF)
  | fuel + 1, nid =>
    let own := if (nodeAttrs G nid).ntype = some "Section" then sectionKeyOf G nid
      else (INF, INF)
    ((containsChildren G nid).map (fun c => specMinSectionKeyAnywhere G fuel c)).foldl
      (fun best ck => if pairLt ck best then ck else best) own

/-- The roman-numeral table of the outline builder (i through xx). -/
def romanTable : List (String × Nat) :=
  [("i", 1), ("ii", 2), ("iii", 3), ("iv", 4), ("v", 5), ("vi", 6), ("vii", 7),
   ("viii", 8), ("ix", 9), ("x", 10), ("xi", 11), ("xii", 12), ("xiii", 13),
   ("xiv", 14), ("xv", 15), ("xvi", 16), ("xvii", 17), ("xviii", 18), ("xix", 19),
   ("xx", 20)]

def romanVal (s : String) : Option Nat :=
  (romanTable.find? (fun p => p.1 = s)).map (fun p => p.2)

/-- str.strip of the ASCII whitespace of these tokens. -/
def stripWs (l : List Char) : List Char :=
  ((l.dropWhile Char.isWhitespace).reverse.dropWhile Char.isWhitespace).reverse

/-- A paragraph-identifier sub-token key of tok_key, encoded as
(category, numeric value, string value): digits are (0, n, empty), roman
numerals (1, v, empty), single letters (2, letter index, empty), anything
else (3, 0, the token); the padding components never separate two keys of
the same category, so the lexicographic order on the triple is the Python
tuple order. -/
abbrev TokKey := Nat × Nat × String

def tokKey (t0 : List Char) : TokKey :=
  let t := stripWs t0
  if t ≠ [] ∧ t.all Char.isDigit then (0, digitsToNat t, "")
  else
    match romanVal (String.mk (t.map lowerChar)) with
    | some v => (1, v, "")
    | none =>
      if t.length = 1 ∧ t.all Char.isAlpha then
        (2, (lowerChar (t.headD 'a')).toNat - 97, "")
      else (3, 0, String.mk t)

/-- re.findall of parenthesised token groups: scanning state machine; a
capture is the run up to the first closing paren, must be nonempty, and
scanning resumes after the closing paren (matches are non-overlapping). -/
def parenToksAux : List Char → Option (List Char) → List (List Char)
  | [], _ => []
  | c :: cs, none =>
    if c = '(' then parenToksAux cs (some []) else parenToksAux cs none
  | c :: cs, some acc =>
    if c = ')' then
      if acc = [] then parenToksAux cs none
      else acc.reverse :: parenToksAux cs none
    else parenToksAux cs (some (c :: acc))

def parenToks (l : List Char) : List (List Char) := parenToksAux l none

/-- re.match of whitespace, digits, dot, digits, then the rest of the
identifier (identifiers are assumed newline-free). -/
def pidMatch (l : List Char) : Option (Nat × Nat × List Char) :=
  match digitRun (l.dropWhile Char.isWhitespace) with
  | ([], _) => none
  | (d1, rest) =>
    match rest with
    | '.' :: r2 =>
      match digitRun r2 with
      | ([], _) => none
      | (d2, rest2) => some (digitsToNat d1, digitsToNat d2, rest2)
    | _ => none

/-- _paragraph_key_from_pid: (major, minor) plus the parenthesised token
keys; ((INF, INF), empty) when the identifier does not match. -/
def paragraphKeyFromPid (pid : String) : (Nat × Nat) × List TokKey :=
  match pidMatch pid.data with
  | none => ((INF, INF), [])
  | some (mj, mn, rest) => ((mj, mn), (parenToks rest).map tokKey)

/-- _subpart_sort_key: earliest contained section, then code, then label. -/
def subpartSortKey (G : Graph) (fuel : Nat) (id : String) : (Nat × Nat) × String × String :=
  (minSectionKey G fuel id, strD (nodeAttrs G id).code, strD (nodeAttrs G id).label)

/-- _heading_sort_key: earliest contained section, then label. -/
def headingSortKey (G : Graph) (fuel : Nat) (id : String) : (Nat × Nat) × String :=
  (minSectionKey G fuel id, strD (nodeAttrs G id).label)

/-- _section_sort_key: own numeric key, then label, then title. -/
def sectionSortKey (G : Graph) (id : String) : (Nat × Nat) × String × String :=
  (sectionKeyOf G id, strD (nodeAttrs G id).label, strD (nodeAttrs G id).title)

/-- _paragraph_sort_key. -/
def paragraphSortKey (G : Graph) (id : String) : (Nat × Nat) × List TokKey :=
  paragraphKeyFromPid (strD (nodeAttrs G id).paragraph_id)

def tokKeyLt : TokKey → TokKey → Bool := lexLt natLtB (lexLt natLtB strLt)

def pssLt : ((Nat × Nat) × String × String) → ((Nat × Nat) × String × String) → Bool :=
  lexLt pairLt (lexLt strLt strLt)

def psLt : ((Nat × Nat) × String) → ((Nat × Nat) × String) → Bool := lexLt pairLt strLt

def parKeyLt : ((Nat × Nat) × List TokKey) → ((Nat × Nat) × List TokKey) → Bool :=
  lexLt pairLt (listLt tokKeyLt)

def subLe (G : Graph) (fuel : Nat) (a b : String) : Bool :=
  leOf pssLt (subpartSortKey G fuel a) (subpartSortKey G fuel b)

def headLe (G : Graph) (fuel : Nat) (a b : String) : Bool :=
  leOf psLt (headingSortKey G fuel a) (headingSortKey G fuel b)

def secLe (G : Graph) (a b : String) : Bool :=
  leOf pssLt (sectionSortKey G a) (sectionSortKey G b)

def parLe (G : Graph) (a b : String) : Bool :=
  leOf parKeyLt (paragraphSortKey G a) (paragraphSortKey G b)

/-- Bucket tags beyond the five known types, in first-occurrence order:
the iteration order of the Python buckets dict in the trailing loop. -/
def firstOccurrence (l : List String) : List String :=
  l.foldl (fun acc t => if t ∈ acc then acc else acc ++ [t]) []

def otherTags (G : Graph) (kids : List String) : List String :=
  firstOccurrence ((kids.map (fun k => bucketTag G k)).filter (fun t => t ∉ knownTypes))

/-- _ordered_children of build_outline_for_frontend: the five known type
buckets in fixed order, each stably sorted by its key, then the remaining
buckets in first-occurrence order, each sorted by node id. -/
def orderedChildren (G : Graph) (fuel : Nat) (p : String) : List String :=
  let kids := containsChildren G p
  pySort (subLe G fuel) (kids.filter (fun k => bucketTag G k = "Subpart")) ++
  pySort (headLe G fuel) (kids.filter (fun k => bucketTag G k = "Heading")) ++
  pySort (secLe G) (kids.filter (fun k => bucketTag G k = "Section")) ++
  pySort strLe (kids.filter (fun k => bucketTag G k = "Guidance")) ++
  pySort (parLe G) (kids.filter (fun k => bucketTag G k = "Paragraph")) ++
  (otherTags G kids).flatMap (fun t => pySort strLe (kids.filter (fun k => bucketTag G k = t)))

/-- The per-type sort key of _child_sort_key, padded to a fixed arity with
empty strings (padding never separates two keys of the same rank, so the
lexicographic order on the quadruple is the Python tuple order).  Note the
string components are the RAW attribute strings: no numeric tokenization. -/
def childSortKey (G : Graph) (id : String) : Nat × String × String × String :=
  let d := nodeAttrs G id
  match d.ntype with
  | some "Subpart" => (0, strD d.code, strD d.label, "")
  | some "Heading" => (1, strD d.label, "", "")
  | some "Section" => (2, strD d.number, strD d.title, strD d.label)
  | some "Guidance" => (3, strD d.number, strD d.title, strD d.label)
  | some "Paragraph" => (4, strD d.paragraph_id, "", "")
  | _ => (9, pyOrS d.label (pyOrS d.number (strD d.title)), "", "")

def childKeyLt : (Nat × String × String × String) → (Nat × String × String × String) → Bool :=
  lexLt natLtB (lexLt strLt (lexLt strLt strLt))

def childLe (G : Graph) (a b : String) : Bool :=
  leOf childKeyLt (childSortKey G a) (childSortKey G b)

/-- _ordered_children_ids: all CONTAINS children sorted by _child_sort_key. -/
def orderedChildrenIds (G : Graph) (p : String) : List String :=
  pySort (childLe G) (containsChildren G p)

/-- The climb of build_section_traces_for_frontend from a bottom paragraph
to the first Section ancestor along _parent_map; fuel bounds the walk (the
Python while loop has no cycle guard). -/
def findOwningSection (G : Graph) : Nat → String → Option String
  | 0, _ => none
  | fuel + 1, cur =>
    match parentMapOf G cur with
    | none => none
    | some pa =>
      if (nodeAttrs G pa).ntype = some "Section" then some pa
      else findOwningSection G fuel pa

/-- The chain bottom-to-section of _rank_tuple_along_path, accumulated
root-first (the Python list is built bottom-up and reversed). -/
def climbChain (G : Graph) (sec : String) : Nat → String → List String → List String
  | 0, _, acc => acc
  | fuel + 1, cur, acc =>
    match parentMapOf G cur with
    | none => acc
    | some pa => if pa = sec then pa :: acc else climbChain G sec fuel pa (pa :: acc)

/-- ordered.index(child) with the 10 ** 6 ValueError fallback. -/
def idxOrBig (l : List String) (x : String) : Nat :=
  match l.findIdx? (fun a => a = x) with
  | some i => i
  | none => 1000000

/-- The rank components along consecutive chain links. -/
def ranksAlong (G : Graph) : List String → List Nat
  | [] => []
  | [_] => []
  | a :: b :: rest => idxOrBig (orderedChildrenIds G a) b :: ranksAlong G (b :: rest)

/-- _rank_tuple_along_path: index-of-child within the _child_sort_key
ordered siblings at every level from the owning Section down to the
bottom paragraph. -/
def rankTupleAlongPath (G : Graph) (fuel : Nat) (sec bottom : String) : List Nat :=
  ranksAlong G (climbChain G sec fuel bottom [bottom])

def rankLt : List Nat → List Nat → Bool := listLt natLtB

/-- The label climb of _labels_section_to_bottom (stops at the first
Section; an exhausted or absent parent ends the walk). -/
def labelsSTB (G : Graph) : Nat → Option String → List String → List String
  | _, none, acc => acc
  | 0, some _, acc => acc
  | fuel + 1, some cur, acc =>
    if cur = "" then acc
    else
      let d := nodeAttrs G cur
      if d.ntype = some "Paragraph" then
        labelsSTB G fuel (parentMapOf G cur) (pyOrS d.paragraph_id (pyOrS d.label cur) :: acc)
      else if d.ntype = some "Section" then
        pyOrS d.number (pyOrS d.label (pyOrS d.title cur)) :: acc
      else if d.ntype = some "Heading" then
        labelsSTB G fuel (parentMapOf G cur) (pyOrS d.label cur :: acc)
      else
        labelsSTB G fuel (parentMapOf G cur)
          (pyOrS d.label (pyOrS d.number (pyOrS d.title cur)) :: acc)

def _labels_section_to_bottom (G : Graph) (fuel : Nat) (bottom : String) : List String :=
  labelsSTB G fuel (some bottom) []

/-- One bucketed row of build_section_traces_for_frontend, before the
cleanup that drops the temporary rank. -/
structure TraceRow where
  section_uuid : String
  trace_uuid : String
  bottom_uuid : String
  bottom_paragraph_id : Option String
  path_labels : List String
  rank : List Nat
deriving DecidableEq, Repr

/-- A cleaned row (rank removed; the empty results list elided). -/
structure CleanRow where
  trace_uuid : String
  bottom_uuid : String
  bottom_paragraph_id : Option String
  path_labels : List String
deriving DecidableEq, Repr

def cleanRow (r : TraceRow) : CleanRow :=
  { trace_uuid := r.trace_uuid, bottom_uuid := r.bottom_uuid,
    bottom_paragraph_id := r.bottom_paragraph_id, path_labels := r.path_labels }

/-- The row a Trace node contributes: skipped when the node is not a
Trace, the bottom anchor is falsy or absent from the graph, or no Section
ancestor is found. -/
def rowOfTrace (G : Graph) (fuel : Nat) (n : GNode) : Option TraceRow :=
  if n.ntype = some "Trace" then
    match n.bottom_uuid with
    | none => none
    | some b =>
      if b = "" then none
      else if (findNode G b).isNone then none
      else
        match findOwningSection G fuel b with
        | none => none
        | some sid =>
          if sid = "" then none
          else
            some
              { section_uuid := sid, trace_uuid := n.uuid, bottom_uuid := b,
                bottom_paragraph_id := (nodeAttrs G b).paragraph_id,
                path_labels := _labels_section_to_bottom G fuel b,
                rank := rankTupleAlongPath G fuel sid b }
  else none

def allTraceRows (G : Graph) (fuel : Nat) : List TraceRow :=
  G.nodes.filterMap (rowOfTrace G fuel)

def rowLe (a b : TraceRow) : Bool := leOf rankLt a.rank b.rank

/-- One Section's bucket, sorted by rank: rows.sort(key=rank). -/
def sortedRowsFor (G : Graph) (fuel : Nat) (sid : String) : List TraceRow :=
  pySort rowLe ((allTraceRows G fuel).filter (fun r => r.section_uuid = sid))

/-- build_section_traces_for_frontend, as the map from a Section id to its
cleaned, rank-sorted rows. -/
def build_section_traces_for_frontend (G : Graph) (fuel : Nat) (sid : String) :
    List CleanRow :=
  (sortedRowsFor G fuel sid).map cleanRow

/-- C4 counterexample corpus: one Section holding paragraphs (b)(2) and
(b)(10), each carrying a Trace. -/
def gC4 : Graph :=
  { nodes := [
      { uuid := "D", ntype := some "Document" },
      { uuid := "S", ntype := some "Section", number := some "25.20" },
      { uuid := "P2", ntype := some "Paragraph", paragraph_id := some "25.20(b)(2)" },
      { uuid := "P10", ntype := some "Paragraph", paragraph_id := some "25.20(b)(10)" },
      { uuid := "T2", ntype := some "Trace", bottom_uuid := some "P2" },
      { uuid := "T10", ntype := some "Trace", bottom_uuid := some "P10" }],
    edges := [
      { source := "D", target := "S", relation := some "CONTAINS" },
      { source := "S", target := "P2", relation := some "CONTAINS" },
      { source := "S", target := "P10", relation := some "CONTAINS" }] }

/-- C5 counterexample corpus: a Heading whose Section contains a nested
Section with an earlier number, a second Heading with a plain Section,
and an unparsable Section next to a parsable one. -/
def gC5 : Graph :=
  { nodes := [
      { uuid := "D", ntype := some "Document" },
      { uuid := "H1", ntype := some "Heading", label := some "General" },
      { uuid := "S1", ntype := some "Section", number := some "25.50" },
      { uuid := "S1b", ntype := some "Section", number := some "25.5" },
      { uuid := "H2", ntype := some "Heading", label := some "Ops" },
      { uuid := "S2", ntype := some "Section", number := some "25.10" },
      { uuid := "S3", ntype := some "Section", number := some "General Requirements" },
      { uuid := "S4", ntype := some "Section", number := some "25.7" }],
    edges := [
      { source := "D", target := "H1", relation := some "CONTAINS" },
      { source := "D", target := "H2", relation := some "CONTAINS" },
      { source := "D", target := "S3", relation := some "CONTAINS" },
      { source := "D", target := "S4", relation := some "CONTAINS" },
      { source := "H1", target := "S1", relation := some "CONTAINS" },
      { source := "S1", target := "S1b", relation := some "CONTAINS" },
      { source := "H2", target := "S2", relation := some "CONTAINS" }] }

/-- gC5 with the same node records but the edge file order reversed. -/
def gC5b : Graph :=
  { nodes := gC5.nodes, edges := gC5.edges.reverse }

/-- Combined per-type sibling key (the respective sort key padded to a
common shape; Guidance and unknown types sort by node id).  Two children
of the same bucket share their outline order exactly when their combined
keys compare equal. -/
structure OKey where
  pair : Nat × Nat
  s1 : String
  s2 : String
  toks : List TokKey
deriving DecidableEq, Repr

def outlineKeyOf (G : Graph) (fuel : Nat) (id : String) : OKey :=
  match bucketTag G id with
  | "Subpart" =>
    { pair := (subpartSortKey G fuel id).1, s1 := (subpartSortKey G fuel id).2.1,
      s2 := (subpartSortKey G fuel id).2.2, toks := [] }
  | "Heading" =>
    { pair := (headingSortKey G fuel id).1, s1 := (headingSortKey G fuel id).2,
      s2 := "", toks := [] }
  | "Section" =>
    { pair := (sectionSortKey G id).1, s1 := (sectionSortKey G id).2.1,
      s2 := (sectionSortKey G id).2.2, toks := [] }
  | "Paragraph" =>
    { pair := (paragraphSortKey G id).1, s1 := "", s2 := "",
      toks := (paragraphSortKey G id).2 }
  | _ => { pair := (0, 0), s1 := id, s2 := "", toks := [] }

/-- Asymmetry of a boolean strict order. -/
def IsLtAsymm {α : Type} (lt : α → α → Bool) : Prop :=
  ∀ a b, lt a b = true → lt b a = false

/-- Transitivity of a boolean strict order. -/
def IsLtTrans {α : Type} (lt : α → α → Bool) : Prop :=
  ∀ a b c, lt a b = true → lt b c = true → lt a c = true

/-- Incomparability is equality (the orders here are strict total orders
on their key spaces). -/
def IsLtEqv {α : Type} (lt : α → α → Bool) : Prop :=
  ∀ a b, lt a b = false → lt b a = false → a = b


/- END-OF-DEFINITIONS (theorems below) -/

/- Helper lemmas about the retry loop. -/

theorem callWithRetryLoop_attempts_le (outcomes : Nat → CallOutcome) (jitter : Nat → ℚ)
    (errId : String) (attempt fuel : Nat) (delay : ℚ) :
    (callWithRetryLoop outcomes jitter errId attempt fuel delay).attempts ≤ fuel := by
  induction fuel generalizing attempt delay with
  | zero => simp [callWithRetryLoop]
  | succ n ih =>
    simp only [callWithRetryLoop]
    cases h : outcomes attempt with
    | success e => simp
    | statusError c =>
      by_cases hr : codeRetryable (CallOutcome.statusError c) = true ∧ n ≠ 0
      · simp only [if_pos hr]
        have := ih (attempt + 1) (min (delay * 2) 6)
        omega
      · simp only [if_neg hr]; omega
    | timeoutFailure =>
      by_cases hr : codeRetryable CallOutcome.timeoutFailure = true ∧ n ≠ 0
      · simp only [if_pos hr]
        have := ih (attempt + 1) (min (delay * 2) 6)
        omega
      · simp only [if_neg hr]; omega
    | otherFailure =>
      by_cases hr : codeRetryable CallOutcome.otherFailure = true ∧ n ≠ 0
      · simp only [if_pos hr]
        have := ih (attempt + 1) (min (delay * 2) 6)
        omega
      · simp only [if_neg hr]; omega

theorem callWithRetryLoop_success (outcomes : Nat → CallOutcome) (jitter : Nat → ℚ)
    (errId : String) (attempt fuel : Nat) (delay : ℚ) (e : Envelope)
    (h : outcomes attempt = CallOutcome.success e) :
    callWithRetryLoop outcomes jitter errId attempt (fuel + 1) delay =
      { env := e, sleeps := [], attempts := 1 } := by
  simp only [callWithRetryLoop, h]

theorem callWithRetryLoop_fail (outcomes : Nat → CallOutcome) (jitter : Nat → ℚ)
    (errId : String) (attempt fuel : Nat) (delay : ℚ)
    (h : isSuccess (outcomes attempt) = false) :
    callWithRetryLoop outcomes jitter errId attempt (fuel + 1) delay =
      (if codeRetryable (outcomes attempt) = true ∧ fuel ≠ 0 then
        let r := callWithRetryLoop outcomes jitter errId (attempt + 1) fuel (min (delay * 2) 6)
        { env := r.env, sleeps := (delay + jitter attempt) :: r.sleeps,
          attempts := r.attempts + 1 }
      else { env := errorEnvelope errId, sleeps := [], attempts := 1 }) := by
  cases ho : outcomes attempt with
  | success e => rw [ho] at h; simp [isSuccess] at h
  | statusError c => simp only [callWithRetryLoop, ho]
  | timeoutFailure => simp only [callWithRetryLoop, ho]
  | otherFailure => simp only [callWithRetryLoop, ho]

theorem callWithRetryLoop_attempts_pos (outcomes : Nat → CallOutcome) (jitter : Nat → ℚ)
    (errId : String) (attempt fuel : Nat) (delay : ℚ) :
    1 ≤ (callWithRetryLoop outcomes jitter errId attempt (fuel + 1) delay).attempts := by
  cases ho : outcomes attempt with
  | success e => rw [callWithRetryLoop_success outcomes jitter errId attempt fuel delay e ho]
  | statusError c =>
    rw [callWithRetryLoop_fail outcomes jitter errId attempt fuel delay (by rw [ho]; rfl)]
    split <;> simp
  | timeoutFailure =>
    rw [callWithRetryLoop_fail outcomes jitter errId attempt fuel delay (by rw [ho]; rfl)]
    split <;> simp
  | otherFailure =>
    rw [callWithRetryLoop_fail outcomes jitter errId attempt fuel delay (by rw [ho]; rfl)]
    split <;> simp

theorem callWithRetryLoop_sleeps_len (outcomes : Nat → CallOutcome) (jitter : Nat → ℚ)
    (errId : String) (fuel : Nat) : ∀ (attempt : Nat) (delay : ℚ),
    (callWithRetryLoop outcomes jitter errId attempt fuel delay).sleeps.length =
      (callWithRetryLoop outcomes jitter errId attempt fuel delay).attempts - 1 := by
  induction fuel with
  | zero => intro attempt delay; simp [callWithRetryLoop]
  | succ n ih =>
    intro attempt delay
    cases ho : outcomes attempt with
    | success e =>
      rw [callWithRetryLoop_success outcomes jitter errId attempt n delay e ho]
      rfl
    | statusError c =>
      rw [callWithRetryLoop_fail outcomes jitter errId attempt n delay (by rw [ho]; rfl)]
      split
      · next hcond =>
        simp only [List.length_cons, ih (attempt + 1) (min (delay * 2) 6)]
        have h1 : 1 ≤ (callWithRetryLoop outcomes jitter errId (attempt + 1) n
            (min (delay * 2) 6)).attempts := by
          obtain ⟨-, hn⟩ := hcond
          obtain ⟨m, rfl⟩ := Nat.exists_eq_succ_of_ne_zero hn
          exact callWithRetryLoop_attempts_pos outcomes jitter errId (attempt + 1) m _
        omega
      · rfl
    | timeoutFailure =>
      rw [callWithRetryLoop_fail outcomes jitter errId attempt n delay (by rw [ho]; rfl)]
      split
      · next hcond =>
        simp only [List.length_cons, ih (attempt + 1) (min (delay * 2) 6)]
        have h1 : 1 ≤ (callWithRetryLoop outcomes jitter errId (attempt + 1) n
            (min (delay * 2) 6)).attempts := by
          obtain ⟨-, hn⟩ := hcond
          obtain ⟨m, rfl⟩ := Nat.exists_eq_succ_of_ne_zero hn
          exact callWithRetryLoop_attempts_pos outcomes jitter errId (attempt + 1) m _
        omega
      · rfl
    | otherFailure =>
      rw [callWithRetryLoop_fail outcomes jitter errId attempt n delay (by rw [ho]; rfl)]
      split
      · next hcond =>
        simp only [List.length_cons, ih (attempt + 1) (min (delay * 2) 6)]
        have h1 : 1 ≤ (callWithRetryLoop outcomes jitter errId (attempt + 1) n
            (min (delay * 2) 6)).attempts := by
          obtain ⟨-, hn⟩ := hcond
          obtain ⟨m, rfl⟩ := Nat.exists_eq_succ_of_ne_zero hn
          exact callWithRetryLoop_attempts_pos outcomes jitter errId (attempt + 1) m _
        omega
      · rfl

theorem callWithRetryLoop_retry_only_retryable (outcomes : Nat → CallOutcome)
    (jitter : Nat → ℚ) (errId : String) (fuel : Nat) : ∀ (attempt : Nat) (delay : ℚ) (k : Nat),
    k + 1 < (callWithRetryLoop outcomes jitter errId attempt fuel delay).attempts →
    codeRetryable (outcomes (attempt + k)) = true := by
  induction fuel with
  | zero => intro attempt delay k hk; simp [callWithRetryLoop] at hk
  | succ n ih =>
    intro attempt delay k hk
    by_cases hs : isSuccess (outcomes attempt) = true
    · obtain ⟨e, he⟩ : ∃ e, outcomes attempt = CallOutcome.success e := by
        cases houtc : outcomes attempt <;> simp [houtc, isSuccess] at hs ⊢
      rw [callWithRetryLoop_success outcomes jitter errId attempt n delay e he] at hk
      change k + 1 < 1 at hk
      omega
    · rw [callWithRetryLoop_fail outcomes jitter errId attempt n delay
        (by simpa using hs)] at hk
      by_cases hcond : codeRetryable (outcomes attempt) = true ∧ n ≠ 0
      · rw [if_pos hcond] at hk
        simp only at hk
        cases k with
        | zero => simpa using hcond.1
        | succ j =>
          have hj : j + 1 < (callWithRetryLoop outcomes jitter errId (attempt + 1) n
              (min (delay * 2) 6)).attempts := by
            change j + 1 + 1 <
              (callWithRetryLoop outcomes jitter errId (attempt + 1) n
                (min (delay * 2) 6)).attempts + 1 at hk
            omega
          have := ih (attempt + 1) (min (delay * 2) 6) j hj
          rwa [show attempt + 1 + j = attempt + (j + 1) by omega] at this
      · rw [if_neg hcond] at hk
        change k + 1 < 1 at hk
        omega

theorem qRatOneLePow (j : Nat) : (1 : ℚ) ≤ 2 ^ j := by
  induction j with
  | zero => norm_num
  | succ m ih =>
    have h2 : (2 : ℚ) ^ (m + 1) = 2 ^ m * 2 := by ring
    rw [h2]; nlinarith

theorem qMinDoubleStep (d : ℚ) (j : Nat) :
    min (min (d * 2) 6 * 2 ^ j) 6 = min (d * 2 ^ (j + 1)) 6 := by
  rcases le_total (d * 2) 6 with h | h
  · rw [min_eq_left h]
    congr 1
    ring
  · rw [min_eq_right h]
    have h1 : (1 : ℚ) ≤ 2 ^ j := qRatOneLePow j
    have h6 : (6 : ℚ) ≤ 6 * 2 ^ j := by nlinarith
    rw [min_eq_right h6]
    have h2 : (6 : ℚ) ≤ d * 2 ^ (j + 1) := by
      have hrw : d * 2 ^ (j + 1) = (d * 2) * 2 ^ j := by ring
      rw [hrw]; nlinarith
    rw [min_eq_right h2]

theorem callWithRetryLoop_sleeps_val (outcomes : Nat → CallOutcome)
    (jitter : Nat → ℚ) (errId : String) (fuel : Nat) : ∀ (attempt : Nat) (delay : ℚ),
    delay ≤ 6 → ∀ (i : Nat),
    i < (callWithRetryLoop outcomes jitter errId attempt fuel delay).sleeps.length →
    (callWithRetryLoop outcomes jitter errId attempt fuel delay).sleeps.get? i =
      some (min (delay * 2 ^ i) 6 + jitter (attempt + i)) := by
  induction fuel with
  | zero => intro attempt delay hd i hi; simp [callWithRetryLoop] at hi
  | succ n ih =>
    intro attempt delay hd i hi
    by_cases hs : isSuccess (outcomes attempt) = true
    · obtain ⟨e, he⟩ : ∃ e, outcomes attempt = CallOutcome.success e := by
        cases houtc : outcomes attempt <;> simp [houtc, isSuccess] at hs ⊢
      rw [callWithRetryLoop_success outcomes jitter errId attempt n delay e he] at hi
      simp at hi
    · have hfail := callWithRetryLoop_fail outcomes jitter errId attempt n delay
        (by simpa using hs)
      by_cases hcond : codeRetryable (outcomes attempt) = true ∧ n ≠ 0
      · rw [hfail, if_pos hcond] at hi ⊢
        simp only at hi ⊢
        cases i with
        | zero =>
          simp only [List.get?]
          rw [pow_zero, mul_one, min_eq_left hd, Nat.add_zero]
        | succ j =>
          simp only [List.get?]
          have hj : j < (callWithRetryLoop outcomes jitter errId (attempt + 1) n
              (min (delay * 2) 6)).sleeps.length := by
            simpa using hi
          have hdle : min (delay * 2) 6 ≤ 6 := min_le_right _ _
          have hih := ih (attempt + 1) (min (delay * 2) 6) hdle j hj
          rw [hih, qMinDoubleStep delay j,
            show attempt + 1 + j = attempt + (j + 1) by omega]
      · rw [hfail, if_neg hcond] at hi
        simp at hi

theorem callWithRetryLoop_env_of_success (outcomes : Nat → CallOutcome)
    (jitter : Nat → ℚ) (errId : String) (fuel : Nat) : ∀ (attempt : Nat) (delay : ℚ),
    1 ≤ fuel → ∀ (e : Envelope),
    outcomes (attempt + ((callWithRetryLoop outcomes jitter errId attempt fuel delay).attempts - 1)) =
      CallOutcome.success e →
    (callWithRetryLoop outcomes jitter errId attempt fuel delay).env = e := by
  induction fuel with
  | zero => intro attempt delay h; omega
  | succ n ih =>
    intro attempt delay _ e he
    by_cases hs : isSuccess (outcomes attempt) = true
    · obtain ⟨e0, he0⟩ : ∃ e0, outcomes attempt = CallOutcome.success e0 := by
        cases houtc : outcomes attempt <;> simp [houtc, isSuccess] at hs ⊢
      rw [callWithRetryLoop_success outcomes jitter errId attempt n delay e0 he0] at he ⊢
      change outcomes (attempt + (1 - 1)) = CallOutcome.success e at he
      rw [Nat.sub_self, Nat.add_zero, he0] at he
      injection he with h
    · have hfail := callWithRetryLoop_fail outcomes jitter errId attempt n delay
        (by simpa using hs)
      by_cases hcond : codeRetryable (outcomes attempt) = true ∧ n ≠ 0
      · rw [hfail, if_pos hcond] at he ⊢
        simp only at he ⊢
        have hn1 : 1 ≤ n := Nat.one_le_iff_ne_zero.mpr hcond.2
        have hpos : 1 ≤ (callWithRetryLoop outcomes jitter errId (attempt + 1) n
            (min (delay * 2) 6)).attempts := by
          obtain ⟨m, rfl⟩ := Nat.exists_eq_succ_of_ne_zero hcond.2
          exact callWithRetryLoop_attempts_pos outcomes jitter errId (attempt + 1) m _
        apply ih (attempt + 1) (min (delay * 2) 6) hn1 e
        rwa [show attempt + 1 +
            ((callWithRetryLoop outcomes jitter errId (attempt + 1) n (min (delay * 2) 6)).attempts - 1) =
          attempt +
            ((callWithRetryLoop outcomes jitter errId (attempt + 1) n (min (delay * 2) 6)).attempts + 1 - 1)
          by omega]
      · rw [hfail, if_neg hcond] at he ⊢
        change outcomes (attempt + (1 - 1)) = CallOutcome.success e at he
        rw [Nat.sub_self, Nat.add_zero] at he
        rw [he] at hs
        simp [isSuccess] at hs

theorem callWithRetryLoop_env_of_fail (outcomes : Nat → CallOutcome)
    (jitter : Nat → ℚ) (errId : String) (fuel : Nat) : ∀ (attempt : Nat) (delay : ℚ),
    1 ≤ fuel →
    isSuccess (outcomes (attempt +
      ((callWithRetryLoop outcomes jitter errId attempt fuel delay).attempts - 1))) = false →
    (callWithRetryLoop outcomes jitter errId attempt fuel delay).env = errorEnvelope errId := by
  induction fuel with
  | zero => intro attempt delay h; omega
  | succ n ih =>
    intro attempt delay _ he
    by_cases hs : isSuccess (outcomes attempt) = true
    · obtain ⟨e0, he0⟩ : ∃ e0, outcomes attempt = CallOutcome.success e0 := by
        cases houtc : outcomes attempt <;> simp [houtc, isSuccess] at hs ⊢
      rw [callWithRetryLoop_success outcomes jitter errId attempt n delay e0 he0] at he ⊢
      change isSuccess (outcomes (attempt + (1 - 1))) = false at he
      rw [Nat.sub_self, Nat.add_zero, he0] at he
      simp [isSuccess] at he
    · have hfail := callWithRetryLoop_fail outcomes jitter errId attempt n delay
        (by simpa using hs)
      by_cases hcond : codeRetryable (outcomes attempt) = true ∧ n ≠ 0
      · rw [hfail, if_pos hcond] at he ⊢
        simp only at he ⊢
        have hn1 : 1 ≤ n := Nat.one_le_iff_ne_zero.mpr hcond.2
        have hpos : 1 ≤ (callWithRetryLoop outcomes jitter errId (attempt + 1) n
            (min (delay * 2) 6)).attempts := by
          obtain ⟨m, rfl⟩ := Nat.exists_eq_succ_of_ne_zero hcond.2
          exact callWithRetryLoop_attempts_pos outcomes jitter errId (attempt + 1) m _
        apply ih (attempt + 1) (min (delay * 2) 6) hn1
        rwa [show attempt + 1 +
            ((callWithRetryLoop outcomes jitter errId (attempt + 1) n (min (delay * 2) 6)).attempts - 1) =
          attempt +
            ((callWithRetryLoop outcomes jitter errId (attempt + 1) n (min (delay * 2) 6)).attempts + 1 - 1)
          by omega]
      · rw [hfail, if_neg hcond]

/-- C1 (corrected claim, counterexample part).  The claim states that a
failure outside the defined transient class (rate-limit, server error,
timeout-class) is not retried.  On the outcome sequence c1ExampleOutcomes,
whose first attempt fails with an exception outside that class
(specTransient is false for it), _call_with_retry nevertheless makes a
second attempt and returns its successful envelope: the broad
`except Exception` handler retries every non-APIStatusError failure. -/
theorem C1_counterexample :
    specTransient (c1ExampleOutcomes 0) = false ∧
    (_call_with_retry c1ExampleOutcomes c1ZeroJitter "filter-err" 5).attempts = 2 ∧
    (_call_with_retry c1ExampleOutcomes c1ZeroJitter "filter-err" 5).env = c1ExampleEnvelope := by
  refine ⟨rfl, ?_, ?_⟩ <;> decide

/-- C1 (amended).  For every item evaluation, _call_with_retry makes at most
5 attempts; a failed attempt is followed by another attempt only when it is
code-retryable, i.e. an APIStatusError with status in
(429, 500, 502, 503, 504) or any exception outside the APIStatusError
class (this includes the timeout-class, but also every other exception);
an APIStatusError with any other status is never retried.  There is one
sleep per retry, and the i-th sleep equals the exponential backoff base
min(0.6 * 2^i, 6) plus the i-th jitter value (drawn uniformly from
[0, 0.4] by the code).  If the final attempt succeeded, its envelope is
returned; otherwise the uniform error envelope is returned. -/
theorem C1_retry_policy (outcomes : Nat → CallOutcome) (jitter : Nat → ℚ) (errId : String) :
    (1 ≤ (_call_with_retry outcomes jitter errId 5).attempts ∧
      (_call_with_retry outcomes jitter errId 5).attempts ≤ 5) ∧
    (∀ k, k + 1 < (_call_with_retry outcomes jitter errId 5).attempts →
      codeRetryable (outcomes k) = true) ∧
    (_call_with_retry outcomes jitter errId 5).sleeps.length =
      (_call_with_retry outcomes jitter errId 5).attempts - 1 ∧
    (∀ i, i < (_call_with_retry outcomes jitter errId 5).sleeps.length →
      (_call_with_retry outcomes jitter errId 5).sleeps.get? i =
        some (min ((6 / 10) * 2 ^ i) 6 + jitter i)) ∧
    (∀ e, outcomes ((_call_with_retry outcomes jitter errId 5).attempts - 1) =
        CallOutcome.success e →
      (_call_with_retry outcomes jitter errId 5).env = e) ∧
    (isSuccess (outcomes ((_call_with_retry outcomes jitter errId 5).attempts - 1)) = false →
      (_call_with_retry outcomes jitter errId 5).env = errorEnvelope errId) := by
  unfold _call_with_retry
  refine ⟨⟨?_, ?_⟩, ?_, ?_, ?_, ?_, ?_⟩
  · exact callWithRetryLoop_attempts_pos outcomes jitter errId 0 4 (6 / 10)
  · exact callWithRetryLoop_attempts_le outcomes jitter errId 0 5 (6 / 10)
  · intro k hk
    have := callWithRetryLoop_retry_only_retryable outcomes jitter errId 5 0 (6 / 10) k hk
    rwa [Nat.zero_add] at this
  · exact callWithRetryLoop_sleeps_len outcomes jitter errId 5 0 (6 / 10)
  · intro i hi
    have := callWithRetryLoop_sleeps_val outcomes jitter errId 5 0 (6 / 10)
      (by norm_num) i hi
    rwa [Nat.zero_add] at this
  · intro e he
    apply callWithRetryLoop_env_of_success outcomes jitter errId 5 0 (6 / 10) (by omega) e
    rwa [Nat.zero_add]
  · intro hf
    apply callWithRetryLoop_env_of_fail outcomes jitter errId 5 0 (6 / 10) (by omega)
    rwa [Nat.zero_add]

/-- C1 witness: the amended theorem applied at the concrete input
c1ExampleOutcomes with zero jitter, discharging each hypothesis there. -/
theorem C1_retry_policy_witness :
    codeRetryable (c1ExampleOutcomes 0) = true ∧
    (_call_with_retry c1ExampleOutcomes c1ZeroJitter "filter-err" 5).sleeps.get? 0 =
      some (min ((6 / 10 : ℚ) * 2 ^ 0) 6 + c1ZeroJitter 0) ∧
    (_call_with_retry c1ExampleOutcomes c1ZeroJitter "filter-err" 5).env = c1ExampleEnvelope := by
  obtain ⟨-, h2, -, h4, h5, -⟩ := C1_retry_policy c1ExampleOutcomes c1ZeroJitter "filter-err"
  exact ⟨h2 0 (by decide), h4 0 (by decide), h5 c1ExampleEnvelope (by decide)⟩

/- Helper lemmas about the upward trace walk. -/

theorem nodupSubsetLength (l1 l2 : List String) (h1 : l1.Nodup) (h2 : l1 ⊆ l2) :
    l1.length ≤ l2.length := by
  classical
  calc l1.length = l1.toFinset.card := (List.toFinset_card_of_nodup h1).symm
    _ ≤ l2.toFinset.card := Finset.card_le_card (by
        intro x hx
        rw [List.mem_toFinset] at hx ⊢
        exact h2 hx)
    _ ≤ l2.length := l2.toFinset_card_le

theorem mkTraceRecOf_uuid (cur : String) (n : GNode) : (mkTraceRecOf cur n).uuid = cur := by
  unfold mkTraceRecOf
  split <;> rfl

theorem mkTraceRec_uuid (G : Graph) (cur : String) : (mkTraceRec G cur).uuid = cur :=
  mkTraceRecOf_uuid cur (nodeAttrs G cur)

theorem mkTraceRecOf_ntype (cur : String) (n : GNode) :
    (mkTraceRecOf cur n).ntype = n.ntype := by
  unfold mkTraceRecOf
  split <;> rfl

theorem mkTraceRec_ntype (G : Graph) (cur : String) :
    (mkTraceRec G cur).ntype = (nodeAttrs G cur).ntype :=
  mkTraceRecOf_ntype cur (nodeAttrs G cur)

theorem parentOf_mem_allIds (G : Graph) (c p : String) (h : parentOf G c = some p) :
    p ∈ allIdsD G := by
  unfold parentOf containsParents at h
  rw [List.head?_eq_some_iff] at h
  obtain ⟨t, ht⟩ := h
  have hp : p ∈ (G.edges.filter (fun e => e.target = c ∧ e.relation = some "CONTAINS")).map
      (fun e => e.source) := by rw [ht]; exact List.mem_cons_self p t
  rw [List.mem_map] at hp
  obtain ⟨e, he, rfl⟩ := hp
  have hmem : e ∈ G.edges := List.mem_of_mem_filter he
  unfold allIdsD
  rw [List.mem_dedup, List.mem_append, List.mem_append]
  exact Or.inl (Or.inr (List.mem_map_of_mem (fun e => e.source) hmem))

theorem traceLoop_none (G : Graph) (fuel : Nat) (visited : List String) :
    traceLoop G fuel none visited = [] := by
  cases fuel <;> rfl

theorem traceLoop_uuid_fresh (G : Graph) (fuel : Nat) : ∀ (cur : Option String)
    (visited : List String),
    (((traceLoop G fuel cur visited).map (fun r => r.uuid)).Nodup) ∧
    (∀ x, x ∈ (traceLoop G fuel cur visited).map (fun r => r.uuid) → x ∉ visited) := by
  induction fuel with
  | zero => intro cur visited; constructor
            · cases cur <;> exact List.nodup_nil
            · cases cur <;> (intro x hx; simp [traceLoop] at hx)
  | succ n ih =>
    intro cur visited
    cases cur with
    | none => exact ⟨List.nodup_nil, by intro x hx; simp [traceLoop] at hx⟩
    | some c =>
      by_cases hv : c ∈ visited
      · simp only [traceLoop, if_pos hv]
        exact ⟨List.nodup_nil, by intro x hx; simp at hx⟩
      · simp only [traceLoop, if_neg hv, List.map_cons, mkTraceRec_uuid]
        obtain ⟨hnd, hfr⟩ := ih (parentOf G c) (c :: visited)
        constructor
        · rw [List.nodup_cons]
          exact ⟨fun hc => (hfr c hc) (List.mem_cons_self c visited), hnd⟩
        · intro x hx
          rw [List.mem_cons] at hx
          cases hx with
          | inl h => rw [h]; exact hv
          | inr h =>
            intro hxv
            exact (hfr x h) (List.mem_cons_of_mem c hxv)

theorem filterNotMemConsLt (l : List String) (v : List String) (c : String)
    (hc : c ∈ l) (hcv : c ∉ v) :
    (l.filter (fun x => decide (x ∉ c :: v))).length <
      (l.filter (fun x => decide (x ∉ v))).length := by
  induction l with
  | nil => cases hc
  | cons a t ih =>
    rw [List.mem_cons] at hc
    have hmono : ∀ (u : List String), (u.filter (fun x => decide (x ∉ c :: v))).length ≤
        (u.filter (fun x => decide (x ∉ v))).length := by
      intro u
      apply List.Sublist.length_le
      apply List.monotone_filter_right
      intro x hx
      simp only [decide_eq_true_eq, List.mem_cons] at hx ⊢
      intro hv2; exact hx (Or.inr hv2)
    by_cases hac : a = c
    · subst hac
      have h1 : (decide (a ∉ a :: v)) = false := by simp
      have h2 : (decide (a ∉ v)) = true := by simp [hcv]
      simp only [List.filter_cons, h1, h2]
      simp only [Bool.false_eq_true, if_false, if_true, List.length_cons]
      have := hmono t
      omega
    · rcases hc with hc | hct
      · exact absurd hc.symm hac
      · have ht := ih hct
        by_cases hav : a ∈ v
        · have h1 : (decide (a ∉ c :: v)) = false := by
            simp only [decide_eq_true_eq, List.mem_cons, not_or, decide_not]
            simp [hav]
          have h2 : (decide (a ∉ v)) = false := by simp [hav]
          simp only [List.filter_cons, h1, h2]
          simp only [Bool.false_eq_true, if_false]
          omega
        · have h1 : (decide (a ∉ c :: v)) = true := by
            simp only [decide_eq_true_eq, List.mem_cons, not_or]
            exact ⟨hac, hav⟩
          have h2 : (decide (a ∉ v)) = true := by simp [hav]
          simp only [List.filter_cons, h1, h2]
          simp only [if_true, List.length_cons]
          omega

theorem traceLoop_stable (G : Graph) : ∀ (k : Nat) (visited : List String) (cur : Option String),
    ((allIdsD G).filter (fun x => decide (x ∉ visited))).length ≤ k →
    (cur = none ∨ ∃ c, cur = some c ∧ c ∈ allIdsD G) →
    ∀ f₁ f₂, k + 1 ≤ f₁ → k + 1 ≤ f₂ →
    traceLoop G f₁ cur visited = traceLoop G f₂ cur visited := by
  intro k
  induction k with
  | zero =>
    intro visited cur hlen hcur f₁ f₂ h₁ h₂
    cases hcur with
    | inl h => rw [h, traceLoop_none, traceLoop_none]
    | inr h =>
      obtain ⟨c, rfl, hcall⟩ := h
      obtain ⟨a, rfl⟩ := Nat.exists_eq_succ_of_ne_zero (by omega : f₁ ≠ 0)
      obtain ⟨b, rfl⟩ := Nat.exists_eq_succ_of_ne_zero (by omega : f₂ ≠ 0)
      by_cases hv : c ∈ visited
      · simp only [traceLoop, if_pos hv]
      · exfalso
        have hcmem : c ∈ (allIdsD G).filter (fun x => decide (x ∉ visited)) := by
          rw [List.mem_filter]
          exact ⟨hcall, by simpa using hv⟩
        have := List.length_pos_of_mem hcmem
        omega
  | succ m ih =>
    intro visited cur hlen hcur f₁ f₂ h₁ h₂
    cases hcur with
    | inl h => rw [h, traceLoop_none, traceLoop_none]
    | inr h =>
      obtain ⟨c, rfl, hcall⟩ := h
      obtain ⟨a, rfl⟩ := Nat.exists_eq_succ_of_ne_zero (by omega : f₁ ≠ 0)
      obtain ⟨b, rfl⟩ := Nat.exists_eq_succ_of_ne_zero (by omega : f₂ ≠ 0)
      by_cases hv : c ∈ visited
      · simp only [traceLoop, if_pos hv]
      · simp only [traceLoop, if_neg hv]
        congr 1
        apply ih (c :: visited) (parentOf G c)
        · have hlt := filterNotMemConsLt (allIdsD G) visited c hcall hv
          omega
        · cases hp : parentOf G c with
          | none => exact Or.inl rfl
          | some p => exact Or.inr ⟨p, rfl, parentOf_mem_allIds G c p hp⟩
        · omega
        · omega

theorem nodeIds_sub_allIds (G : Graph) (x : String) (h : x ∈ nodeIds G) : x ∈ allIdsD G := by
  unfold allIdsD
  rw [List.mem_dedup, List.mem_append, List.mem_append]
  exact Or.inl (Or.inl h)

/-- C7.  UpwardTrace terminates on every input graph, including malformed
cyclic CONTAINS input: the result never repeats a node (the visited set
admits each node at most once), and any fuel of at least traceFuel G
(one more than the number of distinct ids) gives the same, already
converged walk, so the bounded model coincides with the unbounded Python
loop. -/
theorem C7_trace_terminates (G : Graph) (bottom : String) :
    (((_build_trace G bottom).map (fun r => r.uuid)).Nodup) ∧
    (∀ fuel, traceFuel G ≤ fuel → bottom ∈ nodeIds G →
      (traceLoop G fuel (some bottom) []).reverse = _build_trace G bottom) := by
  constructor
  · unfold _build_trace
    split
    · rw [List.map_reverse, List.nodup_reverse]
      exact (traceLoop_uuid_fresh G (traceFuel G) (some bottom) []).1
    · exact List.nodup_nil
  · intro fuel hfuel hmem
    unfold _build_trace
    rw [if_pos hmem]
    congr 1
    apply traceLoop_stable G ((allIdsD G).length) [] (some bottom)
    · have : (allIdsD G).filter (fun x => decide (x ∉ ([] : List String))) = allIdsD G := by
        apply List.filter_eq_self.mpr
        intro a _
        simp
      rw [this]
    · exact Or.inr ⟨bottom, rfl, nodeIds_sub_allIds G bottom hmem⟩
    · unfold traceFuel at hfuel; omega
    · unfold traceFuel; omega

/-- C7 witness: on the concrete cyclic corpus gCyc the walk from node a
stops after visiting each node once, returning the partial trace b, a
with no repeated node, and any fuel beyond traceFuel gives the same
result. -/
theorem C7_trace_terminates_witness :
    (traceLoop gCyc (traceFuel gCyc + 7) (some "a") []).reverse = _build_trace gCyc "a" ∧
    ((_build_trace gCyc "a").map (fun r => r.uuid)).Nodup ∧
    (_build_trace gCyc "a").map (fun r => r.uuid) = ["b", "a"] := by
  obtain ⟨h1, h2⟩ := C7_trace_terminates gCyc "a"
  exact ⟨h2 (traceFuel gCyc + 7) (by omega) (by decide), h1, by decide⟩

theorem parentIter_none_mono (G : Graph) (id : String) :
    ∀ (m k : Nat), k ≤ m → parentIter G k id = none → parentIter G m id = none := by
  intro m
  induction m with
  | zero => intro k hk h; rw [Nat.le_zero.mp hk] at h; exact h
  | succ n ih =>
    intro k hk h
    rcases Nat.lt_or_ge k (n + 1) with hlt | hge
    · have hkn : k ≤ n := by omega
      show (parentIter G n id).bind (fun p => parentOf G p) = none
      rw [ih k hkn h]
      rfl
    · have : k = n + 1 := by omega
      rw [this] at h; exact h

theorem parentIter_isSome_of_le (G : Graph) (id r : String) (d : Nat)
    (hd : parentIter G d id = some r) (m : Nat) (hm : m ≤ d) :
    ∃ y, parentIter G m id = some y := by
  cases h : parentIter G m id with
  | some y => exact ⟨y, rfl⟩
  | none =>
    have := parentIter_none_mono G id d m hm h
    rw [this] at hd
    cases hd

theorem parentIter_add (G : Graph) (a b : Nat) (id : String) :
    parentIter G (a + b) id = (parentIter G b id).bind (fun x => parentIter G a x) := by
  induction a with
  | zero =>
    rw [Nat.zero_add]
    cases parentIter G b id <;> rfl
  | succ n ih =>
    have h1 : n + 1 + b = (n + b) + 1 := by omega
    rw [h1]
    show (parentIter G (n + b) id).bind (fun p => parentOf G p) = _
    rw [ih, Option.bind_assoc]
    rfl

theorem chain_inj (G : Graph) (leaf root : String) (d : Nat)
    (hroot : parentIter G d leaf = some root) (hnone : parentOf G root = none) :
    ∀ i j, i < j → j ≤ d → parentIter G i leaf ≠ parentIter G j leaf := by
  intro i j hij hjd heq
  have ht : parentIter G ((d - j) + j) leaf = some root := by
    rw [Nat.sub_add_cancel hjd]; exact hroot
  rw [parentIter_add] at ht
  rw [← heq] at ht
  rw [← parentIter_add] at ht
  have hstep : parentIter G ((d - j + i) + 1) leaf = none := by
    show (parentIter G (d - j + i) leaf).bind (fun p => parentOf G p) = none
    rw [ht]
    show parentOf G root = none
    exact hnone
  have hle : (d - j + i) + 1 ≤ d := by omega
  obtain ⟨y, hy⟩ := parentIter_isSome_of_le G leaf root d hroot ((d - j + i) + 1) hle
  rw [hy] at hstep
  cases hstep

theorem chainEl_mem_allIds (G : Graph) (leaf : String) (hleaf : leaf ∈ nodeIds G) :
    ∀ (i : Nat) (y : String), parentIter G i leaf = some y → y ∈ allIdsD G := by
  intro i
  induction i with
  | zero =>
    intro y hy
    have : y = leaf := by
      have : some leaf = some y := hy
      injection this with h
      exact h.symm
    rw [this]
    exact nodeIds_sub_allIds G leaf hleaf
  | succ n ih =>
    intro y hy
    have hy2 : (parentIter G n leaf).bind (fun p => parentOf G p) = some y := hy
    cases hn : parentIter G n leaf with
    | none => rw [hn] at hy2; cases hy2
    | some x =>
      rw [hn] at hy2
      exact parentOf_mem_allIds G x y hy2

theorem chain_le_allIds (G : Graph) (leaf root : String) (d : Nat)
    (hleaf : leaf ∈ nodeIds G)
    (hroot : parentIter G d leaf = some root) (hnone : parentOf G root = none) :
    d + 1 ≤ (allIdsD G).length := by
  classical
  have hf : ∀ i : Fin (d + 1), ∃ y, parentIter G i.val leaf = some y := by
    intro i
    exact parentIter_isSome_of_le G leaf root d hroot i.val (by omega)
  let f : Fin (d + 1) → String := fun i => (parentIter G i.val leaf).getD ""
  have hmem : ∀ i : Fin (d + 1), f i ∈ (allIdsD G).toFinset := by
    intro i
    obtain ⟨y, hy⟩ := hf i
    have : f i = y := by simp [f, hy]
    rw [this, List.mem_toFinset]
    exact chainEl_mem_allIds G leaf hleaf i.val y hy
  have hinj : Function.Injective f := by
    intro i j hij
    by_contra hne
    rcases Nat.lt_or_ge i.val j.val with hlt | hge
    · obtain ⟨y, hy⟩ := hf i
      obtain ⟨z, hz⟩ := hf j
      have : y = z := by
        have h1 : f i = y := by simp [f, hy]
        have h2 : f j = z := by simp [f, hz]
        rw [h1, h2] at hij; exact hij
      exact chain_inj G leaf root d hroot hnone i.val j.val hlt (by omega)
        (by rw [hy, hz, this])
    · have hlt2 : j.val < i.val := by
        have : i.val ≠ j.val := fun h => hne (Fin.ext h)
        omega
      obtain ⟨y, hy⟩ := hf i
      obtain ⟨z, hz⟩ := hf j
      have : y = z := by
        have h1 : f i = y := by simp [f, hy]
        have h2 : f j = z := by simp [f, hz]
        rw [h1, h2] at hij; exact hij
      exact chain_inj G leaf root d hroot hnone j.val i.val hlt2 (by omega)
        (by rw [hy, hz, this])
  calc d + 1 = (Finset.univ : Finset (Fin (d + 1))).card := by simp
    _ ≤ (allIdsD G).toFinset.card :=
        Finset.card_le_card_of_injOn f (fun i _ => hmem i) (fun i _ j _ h => hinj h)
    _ ≤ (allIdsD G).length := (allIdsD G).toFinset_card_le

theorem traceLoop_chain (G : Graph) (leaf root : String) (d : Nat)
    (hroot : parentIter G d leaf = some root) (hnone : parentOf G root = none) :
    ∀ (rem k : Nat) (c : String) (visited : List String) (fuel : Nat),
    k + rem = d → parentIter G k leaf = some c →
    (∀ x, x ∈ visited → ∃ i, i < k ∧ parentIter G i leaf = some x) →
    rem + 1 ≤ fuel →
    (traceLoop G fuel (some c) visited).length = rem + 1 ∧
    (traceLoop G fuel (some c) visited).head? = some (mkTraceRec G c) ∧
    (traceLoop G fuel (some c) visited).getLast? = some (mkTraceRec G root) := by
  intro rem
  induction rem with
  | zero =>
    intro k c visited fuel hkd hc hvis hfuel
    have hkd2 : k = d := by omega
    subst hkd2
    have hcr : c = root := by
      rw [hroot] at hc; injection hc with h; exact h.symm
    subst hcr
    obtain ⟨f, rfl⟩ := Nat.exists_eq_succ_of_ne_zero (by omega : fuel ≠ 0)
    have hcv : c ∉ visited := by
      intro hin
      obtain ⟨i, hik, hi⟩ := hvis c hin
      exact chain_inj G leaf c k hroot hnone i k hik (Nat.le_refl k)
        (by rw [hi, hc])
    simp only [traceLoop, if_neg hcv, hnone, traceLoop_none]
    exact ⟨rfl, rfl, rfl⟩
  | succ r ih =>
    intro k c visited fuel hkd hc hvis hfuel
    obtain ⟨f, rfl⟩ := Nat.exists_eq_succ_of_ne_zero (by omega : fuel ≠ 0)
    have hkd1 : k + 1 ≤ d := by omega
    have hcv : c ∉ visited := by
      intro hin
      obtain ⟨i, hik, hi⟩ := hvis c hin
      exact chain_inj G leaf root d hroot hnone i k hik (by omega)
        (by rw [hi, hc])
    obtain ⟨c2, hc2⟩ := parentIter_isSome_of_le G leaf root d hroot (k + 1) hkd1
    have hpc : parentOf G c = some c2 := by
      have hstep : (parentIter G k leaf).bind (fun p => parentOf G p) = some c2 := hc2
      rw [hc] at hstep
      exact hstep
    simp only [traceLoop, if_neg hcv, hpc]
    have hrec := ih (k + 1) c2 (c :: visited) f (by omega) hc2
      (by
        intro x hx
        rw [List.mem_cons] at hx
        cases hx with
        | inl h => exact ⟨k, by omega, by rw [h]; exact hc⟩
        | inr h =>
          obtain ⟨i, hik, hi⟩ := hvis x h
          exact ⟨i, by omega, hi⟩)
      (by omega)
    obtain ⟨hlen, hhead, hlast⟩ := hrec
    refine ⟨by rw [List.length_cons, hlen], rfl, ?_⟩
    cases htail : traceLoop G f (some c2) (c :: visited) with
    | nil => rw [htail] at hlen; simp at hlen
    | cons y t =>
      rw [htail] at hlast
      rw [← hlast]
      rfl

/-- C6.  UpwardTrace behavior: (a) an id absent from the graph yields the
empty trace without raising; (b) in a well-formed graph where the CONTAINS
parent chain from a present leaf reaches, after d steps, a parentless
Document node, the trace is the root-to-leaf path: length d + 1, first
record a Document, last record the leaf itself; (c) on the concrete 3-node
corpus g3 the trace of the paragraph is exactly Document, Section,
Paragraph. -/
theorem C6_upward_trace :
    (∀ (G : Graph) (id : String), id ∉ nodeIds G → _build_trace G id = []) ∧
    (∀ (G : Graph) (leaf root : String) (d : Nat),
      leaf ∈ nodeIds G →
      parentIter G d leaf = some root →
      parentOf G root = none →
      (nodeAttrs G root).ntype = some "Document" →
      ((_build_trace G leaf).length = d + 1 ∧
       ((_build_trace G leaf).head?.map (fun r => r.ntype)) = some (some "Document") ∧
       (_build_trace G leaf).getLast? = some (mkTraceRec G leaf))) ∧
    ((_build_trace g3 "p1").map (fun r => r.ntype) =
       [some "Document", some "Section", some "Paragraph"] ∧
     (_build_trace g3 "p1").map (fun r => r.uuid) = ["d1", "s1", "p1"]) := by
  refine ⟨?_, ?_, by decide, by decide⟩
  · intro G id h
    unfold _build_trace
    rw [if_neg h]
  · intro G leaf root d hleaf hroot hnone hdoc
    have hcount := chain_le_allIds G leaf root d hleaf hroot hnone
    have hfuel : d + 1 ≤ traceFuel G := by unfold traceFuel; omega
    obtain ⟨hlen, hhead, hlast⟩ := traceLoop_chain G leaf root d hroot hnone d 0 leaf []
      (traceFuel G) (by omega) rfl (by intro x hx; cases hx) hfuel
    unfold _build_trace
    rw [if_pos hleaf]
    refine ⟨?_, ?_, ?_⟩
    · rw [List.length_reverse, hlen]
    · rw [List.head?_reverse, hlast]
      show some (mkTraceRec G root).ntype = some (some "Document")
      rw [mkTraceRec_ntype, hdoc]
    · rw [List.getLast?_reverse, hhead]

/-- C6 witness: the theorem applied to the concrete 3-node corpus g3 (for
the present paragraph p1 at depth 2) and to an absent id. -/
theorem C6_upward_trace_witness :
    _build_trace g3 "zz" = [] ∧
    (_build_trace g3 "p1").length = 2 + 1 ∧
    ((_build_trace g3 "p1").head?.map (fun r => r.ntype)) = some (some "Document") := by
  obtain ⟨h1, h2, -⟩ := C6_upward_trace
  refine ⟨h1 g3 "zz" (by decide), ?_, ?_⟩
  · exact (h2 g3 "p1" "d1" 2 (by decide) (by decide) (by decide) (by decide)).1
  · exact (h2 g3 "p1" "d1" 2 (by decide) (by decide) (by decide) (by decide)).2.1

/- Helper lemmas about the intent bucket structure. -/

theorem addIntent_preserves (bs : List IntentBucket) (u : String) (t : Option String)
    (entry : IntentRec) (u' : String) (r' : IntentRec)
    (h : hasIntentUnder bs u' r') :
    hasIntentUnder (addIntent bs u t entry) u' r' := by
  obtain ⟨b0, hb0, hu, hr⟩ := h
  unfold addIntent
  split
  · refine ⟨(fun b => if b.uuid_node = u then
        { uuid_node := b.uuid_node, ntype := b.ntype, intents := b.intents ++ [entry] }
      else b) b0, List.mem_map_of_mem _ hb0, ?_, ?_⟩
    · simp only
      split <;> simpa using hu
    · simp only
      split
      · exact List.mem_append_left _ hr
      · exact hr
  · exact ⟨b0, List.mem_append_left _ hb0, hu, hr⟩

theorem addIntent_adds (bs : List IntentBucket) (u : String) (t : Option String)
    (entry : IntentRec) :
    hasIntentUnder (addIntent bs u t entry) u entry := by
  unfold addIntent
  split
  · next hany =>
    rw [List.any_eq_true] at hany
    obtain ⟨b0, hb0, hbu⟩ := hany
    rw [decide_eq_true_eq] at hbu
    refine ⟨{ uuid_node := b0.uuid_node, ntype := b0.ntype, intents := b0.intents ++ [entry] }, ?_, by simpa using hbu, List.mem_append_right _ (List.mem_singleton_self entry)⟩
    have heq : (fun b => if b.uuid_node = u then
        { uuid_node := b.uuid_node, ntype := b.ntype, intents := b.intents ++ [entry] }
      else b) b0 =
        { uuid_node := b0.uuid_node, ntype := b0.ntype, intents := b0.intents ++ [entry] } := by
      simp only
      rw [if_pos hbu]
    rw [← heq]
    exact List.mem_map_of_mem _ hb0
  · exact ⟨{ uuid_node := u, ntype := t, intents := [entry] },
      List.mem_append_right _ (List.mem_singleton_self _), rfl,
      List.mem_singleton_self _⟩

theorem addIntent_keys (bs : List IntentBucket) (u : String) (t : Option String)
    (entry : IntentRec) (b : IntentBucket) (hb : b ∈ addIntent bs u t entry) :
    b.uuid_node = u ∨ ∃ b0, b0 ∈ bs ∧ b.uuid_node = b0.uuid_node := by
  unfold addIntent at hb
  split at hb
  · rw [List.mem_map] at hb
    obtain ⟨b0, hb0, heq⟩ := hb
    right
    refine ⟨b0, hb0, ?_⟩
    rw [← heq]
    split <;> rfl
  · rw [List.mem_append] at hb
    cases hb with
    | inl h => exact Or.inr ⟨b, h, rfl⟩
    | inr h =>
      rw [List.mem_singleton] at h
      left; rw [h]

theorem addAll_preserves (G : Graph) (u : String) (t : Option String) :
    ∀ (tgts : List String) (acc : List IntentBucket) (u' : String) (r' : IntentRec),
    hasIntentUnder acc u' r' → hasIntentUnder (addAll G u t tgts acc) u' r' := by
  intro tgts
  induction tgts with
  | nil => intro acc u' r' h; exact h
  | cons a rest ih =>
    intro acc u' r' h
    exact ih (addIntent acc u t (mkIntentRec G a)) u' r'
      (addIntent_preserves acc u t (mkIntentRec G a) u' r' h)

theorem addAll_adds (G : Graph) (u : String) (t : Option String) :
    ∀ (tgts : List String) (acc : List IntentBucket) (tgt : String), tgt ∈ tgts →
    hasIntentUnder (addAll G u t tgts acc) u (mkIntentRec G tgt) := by
  intro tgts
  induction tgts with
  | nil => intro acc tgt h; cases h
  | cons a rest ih =>
    intro acc tgt h
    rw [List.mem_cons] at h
    cases h with
    | inl h =>
      subst h
      exact addAll_preserves G u t rest (addIntent acc u t (mkIntentRec G tgt)) u
        (mkIntentRec G tgt) (addIntent_adds acc u t (mkIntentRec G tgt))
    | inr h => exact ih (addIntent acc u t (mkIntentRec G a)) tgt h

theorem addAll_keys (G : Graph) (u : String) (t : Option String) :
    ∀ (tgts : List String) (acc : List IntentBucket) (b : IntentBucket),
    b ∈ addAll G u t tgts acc →
    b.uuid_node = u ∨ ∃ b0, b0 ∈ acc ∧ b.uuid_node = b0.uuid_node := by
  intro tgts
  induction tgts with
  | nil => intro acc b h; exact Or.inr ⟨b, h, rfl⟩
  | cons a rest ih =>
    intro acc b h
    rcases ih (addIntent acc u t (mkIntentRec G a)) b h with h1 | ⟨b0, hb0, heq⟩
    · exact Or.inl h1
    · rcases addIntent_keys acc u t (mkIntentRec G a) b0 hb0 with h2 | ⟨b1, hb1, heq2⟩
      · exact Or.inl (heq.trans h2)
      · exact Or.inr ⟨b1, hb1, heq.trans heq2⟩

theorem traceFold_preserves (G : Graph) : ∀ (recs : List TraceRec)
    (acc : List IntentBucket) (u' : String) (r' : IntentRec),
    hasIntentUnder acc u' r' →
    hasIntentUnder (recs.foldl (fun acc rec =>
      if rec.uuid = "" then acc
      else addAll G rec.uuid rec.ntype (intentTargets G rec.uuid) acc) acc) u' r' := by
  intro recs
  induction recs with
  | nil => intro acc u' r' h; exact h
  | cons a rest ih =>
    intro acc u' r' h
    rw [List.foldl_cons]
    apply ih
    by_cases ha : a.uuid = ""
    · rw [if_pos ha]; exact h
    · rw [if_neg ha]
      exact addAll_preserves G a.uuid a.ntype (intentTargets G a.uuid) acc u' r' h

theorem traceFold_adds (G : Graph) : ∀ (recs : List TraceRec)
    (acc : List IntentBucket) (rec : TraceRec), rec ∈ recs → rec.uuid ≠ "" →
    ∀ tgt, tgt ∈ intentTargets G rec.uuid →
    hasIntentUnder (recs.foldl (fun acc rec =>
      if rec.uuid = "" then acc
      else addAll G rec.uuid rec.ntype (intentTargets G rec.uuid) acc) acc)
      rec.uuid (mkIntentRec G tgt) := by
  intro recs
  induction recs with
  | nil => intro acc rec h; cases h
  | cons a rest ih =>
    intro acc rec h hne tgt htgt
    rw [List.mem_cons] at h
    rw [List.foldl_cons]
    cases h with
    | inl h =>
      subst h
      apply traceFold_preserves
      rw [if_neg hne]
      exact addAll_adds G rec.uuid rec.ntype (intentTargets G rec.uuid) acc tgt htgt
    | inr h => exact ih _ rec h hne tgt htgt

theorem traceFold_keys (G : Graph) : ∀ (recs : List TraceRec)
    (acc : List IntentBucket) (b : IntentBucket),
    b ∈ recs.foldl (fun acc rec =>
      if rec.uuid = "" then acc
      else addAll G rec.uuid rec.ntype (intentTargets G rec.uuid) acc) acc →
    (∃ rec, rec ∈ recs ∧ b.uuid_node = rec.uuid) ∨
      ∃ b0, b0 ∈ acc ∧ b.uuid_node = b0.uuid_node := by
  intro recs
  induction recs with
  | nil => intro acc b h; exact Or.inr ⟨b, h, rfl⟩
  | cons a rest ih =>
    intro acc b h
    rw [List.foldl_cons] at h
    rcases ih _ b h with ⟨rec, hrec, heq⟩ | ⟨b0, hb0, heq⟩
    · exact Or.inl ⟨rec, List.mem_cons_of_mem a hrec, heq⟩
    · by_cases ha : a.uuid = ""
      · rw [if_pos ha] at hb0
        exact Or.inr ⟨b0, hb0, heq⟩
      · rw [if_neg ha] at hb0
        rcases addAll_keys G a.uuid a.ntype (intentTargets G a.uuid) acc b0 hb0 with
          h1 | ⟨b1, hb1, heq2⟩
        · exact Or.inl ⟨a, List.mem_cons_self a rest, heq.trans h1⟩
        · exact Or.inr ⟨b1, hb1, heq.trans heq2⟩

theorem anchorFold_preserves (G : Graph) (bottom : String) : ∀ (trcs : List String)
    (acc : List IntentBucket) (u' : String) (r' : IntentRec),
    hasIntentUnder acc u' r' →
    hasIntentUnder (trcs.foldl (fun acc trc =>
      addAll G bottom (some "Paragraph") (intentTargets G trc) acc) acc) u' r' := by
  intro trcs
  induction trcs with
  | nil => intro acc u' r' h; exact h
  | cons a rest ih =>
    intro acc u' r' h
    rw [List.foldl_cons]
    exact ih _ u' r' (addAll_preserves G bottom (some "Paragraph") (intentTargets G a) acc u' r' h)

theorem anchorFold_adds (G : Graph) (bottom : String) : ∀ (trcs : List String)
    (acc : List IntentBucket) (trc : String), trc ∈ trcs →
    ∀ tgt, tgt ∈ intentTargets G trc →
    hasIntentUnder (trcs.foldl (fun acc trc =>
      addAll G bottom (some "Paragraph") (intentTargets G trc) acc) acc)
      bottom (mkIntentRec G tgt) := by
  intro trcs
  induction trcs with
  | nil => intro acc trc h; cases h
  | cons a rest ih =>
    intro acc trc h tgt htgt
    rw [List.mem_cons] at h
    rw [List.foldl_cons]
    cases h with
    | inl h =>
      subst h
      apply anchorFold_preserves
      exact addAll_adds G bottom (some "Paragraph") (intentTargets G trc) acc tgt htgt
    | inr h => exact ih _ trc h tgt htgt

theorem anchorFold_keys (G : Graph) (bottom : String) : ∀ (trcs : List String)
    (acc : List IntentBucket) (b : IntentBucket),
    b ∈ trcs.foldl (fun acc trc =>
      addAll G bottom (some "Paragraph") (intentTargets G trc) acc) acc →
    b.uuid_node = bottom ∨ ∃ b0, b0 ∈ acc ∧ b.uuid_node = b0.uuid_node := by
  intro trcs
  induction trcs with
  | nil => intro acc b h; exact Or.inr ⟨b, h, rfl⟩
  | cons a rest ih =>
    intro acc b h
    rw [List.foldl_cons] at h
    rcases ih _ b h with h1 | ⟨b0, hb0, heq⟩
    · exact Or.inl h1
    · rcases addAll_keys G bottom (some "Paragraph") (intentTargets G a) acc b0 hb0 with
        h1 | ⟨b1, hb1, heq2⟩
      · exact Or.inl (heq.trans h1)
      · exact Or.inr ⟨b1, hb1, heq.trans heq2⟩

/-- C9.  CollectIntents: the node-key set of the merged result is a subset
of the trace node ids together with the leaf id, and no intent reachable
via either provenance path is dropped: every HAS_INTENT edge from a trace
node with an Intent target lands in that node's bucket, and every intent
of a Trace anchored to the leaf lands in the leaf's bucket. -/
theorem C9_collect_intents (G : Graph) (trace : List TraceRec) (bottom : String) :
    (∀ b, b ∈ _collect_intents G trace bottom →
      b.uuid_node ∈ trace.map (fun r => r.uuid) ∨ b.uuid_node = bottom) ∧
    (∀ rec, rec ∈ trace → rec.uuid ≠ "" → ∀ tgt, tgt ∈ intentTargets G rec.uuid →
      hasIntentUnder (_collect_intents G trace bottom) rec.uuid (mkIntentRec G tgt)) ∧
    (∀ trc, trc ∈ anchorTraces G bottom → ∀ tgt, tgt ∈ intentTargets G trc →
      hasIntentUnder (_collect_intents G trace bottom) bottom (mkIntentRec G tgt)) := by
  refine ⟨?_, ?_, ?_⟩
  · intro b hb
    unfold _collect_intents at hb
    rcases anchorFold_keys G bottom (anchorTraces G bottom) _ b hb with h1 | ⟨b0, hb0, heq⟩
    · exact Or.inr h1
    · unfold collectTraceIntents at hb0
      rcases traceFold_keys G trace [] b0 hb0 with ⟨rec, hrec, heq2⟩ | ⟨b1, hb1, -⟩
      · left
        rw [heq, heq2]
        exact List.mem_map_of_mem (fun r => r.uuid) hrec
      · cases hb1
  · intro rec hrec hne tgt htgt
    unfold _collect_intents
    apply anchorFold_preserves
    unfold collectTraceIntents
    exact traceFold_adds G trace [] rec hrec hne tgt htgt
  · intro trc htrc tgt htgt
    unfold _collect_intents
    exact anchorFold_adds G bottom (anchorTraces G bottom) _ trc htrc tgt htgt

/-- C9 witness: on the concrete corpus gIntents with the trace of p1, the
Section-level intent i1 is kept under s1 and the anchored Trace intent i2
is kept under p1. -/
theorem C9_collect_intents_witness :
    hasIntentUnder (_collect_intents gIntents (_build_trace gIntents "p1") "p1")
      "s1" (mkIntentRec gIntents "i1") ∧
    hasIntentUnder (_collect_intents gIntents (_build_trace gIntents "p1") "p1")
      "p1" (mkIntentRec gIntents "i2") := by
  obtain ⟨-, h2, h3⟩ := C9_collect_intents gIntents (_build_trace gIntents "p1") "p1"
  constructor
  · have := h2 (mkTraceRec gIntents "s1") (by decide) (by decide) "i1" (by decide)
    simpa using this
  · exact h3 "t1" (by decide) "i2" (by decide)

/- Helper lemmas for the integrity verifier. -/

theorem partitionCharsColon_split (l2 : List Char) : ∀ (l1 : List Char), (':' ∉ l1) →
    partitionCharsColon (l1 ++ ':' :: l2) = some (l1, l2) := by
  intro l1
  induction l1 with
  | nil => intro h; simp [partitionCharsColon]
  | cons c t ih =>
    intro h
    rw [List.mem_cons] at h
    push_neg at h
    obtain ⟨hc, ht⟩ := h
    show partitionCharsColon (c :: (t ++ ':' :: l2)) = some (c :: t, l2)
    unfold partitionCharsColon
    rw [if_neg (fun he => hc he.symm), ih ht]
    rfl

theorem partitionColon_sha (h : String) :
    partitionColon ("sha256:" ++ h) = ("sha256", h) := by
  unfold partitionColon
  have hd : ("sha256:" ++ h).data = ['s', 'h', 'a', '2', '5', '6'] ++ ':' :: h.data := by
    rw [String.data_append]
    rfl
  rw [hd, partitionCharsColon_split h.data ['s', 'h', 'a', '2', '5', '6'] (by decide)]

theorem sha_append_ne_empty (h : String) : "sha256:" ++ h ≠ "" := by
  intro he
  have : ("sha256:" ++ h).data = [] := by rw [he]
  rw [String.data_append] at this
  cases this

theorem readAll_congr (fs fs2 : Fsys) : ∀ (paths : List String),
    (∀ p, p ∈ paths → readFile fs2 p = readFile fs p) →
    readAll fs2 paths = readAll fs paths := by
  intro paths
  induction paths with
  | nil => intro h; rfl
  | cons p ps ih =>
    intro h
    unfold readAll
    rw [h p (List.mem_cons_self p ps), ih (fun q hq => h q (List.mem_cons_of_mem p hq))]

theorem readAll_total (fs : Fsys) : ∀ (paths : List String),
    (∀ p, p ∈ paths → (readFile fs p).isSome) →
    ∃ bs, readAll fs paths = some bs := by
  intro paths
  induction paths with
  | nil => intro h; exact ⟨[], rfl⟩
  | cons p ps ih =>
    intro h
    obtain ⟨b, hb⟩ := Option.isSome_iff_exists.mp (h p (List.mem_cons_self p ps))
    obtain ⟨bs, hbs⟩ := ih (fun q hq => h q (List.mem_cons_of_mem p hq))
    refine ⟨b :: bs, ?_⟩
    unfold readAll
    rw [hb, hbs]
    rfl

theorem findWriteMap (p : String) (b : List Nat) (q : String) (h : q ≠ p) :
    ∀ (t : List (String × List Nat)),
    List.find? (fun e => decide (e.1 = q)) (t.map (fun e => if e.1 = p then (p, b) else e)) =
      List.find? (fun e => decide (e.1 = q)) t := by
  intro t
  induction t with
  | nil => rfl
  | cons e t ih =>
    rw [List.map_cons]
    by_cases hep : e.1 = p
    · rw [if_pos hep]
      rw [List.find?_cons_of_neg _ (by simpa using fun he => h he.symm),
        List.find?_cons_of_neg _ (by rw [hep]; simpa using fun he => h he.symm)]
      exact ih
    · rw [if_neg hep]
      by_cases hq : e.1 = q
      · rw [List.find?_cons_of_pos _ (by simpa using hq),
          List.find?_cons_of_pos _ (by simpa using hq)]
      · rw [List.find?_cons_of_neg _ (by simpa using hq),
          List.find?_cons_of_neg _ (by simpa using hq)]
        exact ih

theorem findWriteAppend (p : String) (b : List Nat) (q : String) (h : q ≠ p) :
    ∀ (t : List (String × List Nat)),
    List.find? (fun e => decide (e.1 = q)) (t ++ [(p, b)]) =
      List.find? (fun e => decide (e.1 = q)) t := by
  intro t
  induction t with
  | nil =>
    rw [List.nil_append]
    rw [List.find?_cons_of_neg _ (by simpa using fun he => h he.symm)]
  | cons e t ih =>
    rw [List.cons_append]
    by_cases hq : e.1 = q
    · rw [List.find?_cons_of_pos _ (by simpa using hq),
        List.find?_cons_of_pos _ (by simpa using hq)]
    · rw [List.find?_cons_of_neg _ (by simpa using hq),
        List.find?_cons_of_neg _ (by simpa using hq)]
      exact ih

theorem readFile_writeFile_ne (fs : Fsys) (p : String) (b : List Nat) (q : String)
    (h : q ≠ p) : readFile (writeFile fs p b) q = readFile fs q := by
  unfold writeFile
  split
  · unfold readFile
    rw [findWriteMap p b q h fs]
  · unfold readFile
    rw [findWriteAppend p b q h fs]

theorem checksum_status_eq (sha : List Nat → String) (fs : Fsys) (mg : MGState)
    (ib : IntegrityBlock) (declHex computed : String)
    (hib : mg.manifest.integrity = some ib)
    (hchk : ib.checksum = some ("sha256:" ++ declHex))
    (hne : declHex ≠ "")
    (hhash : _hash_files sha fs (_bundle_files mg) = some computed) :
    checksum_status sha fs mg = some
      (if computed ≠ declHex then
        { status := "invalid", checksum_passed := false,
          declared := some declHex, computed := some computed }
      else
        { status := "valid", checksum_passed := true,
          checksum := some ("sha256:" ++ declHex), content_rev := ib.content_rev }) := by
  unfold checksum_status
  rw [hib]
  simp only [Option.getD_some]
  rw [hchk]
  simp only
  rw [if_neg (sha_append_ne_empty declHex), partitionColon_sha]
  rw [if_neg (by
    intro hcon
    cases hcon with
    | inl h1 => exact h1 (by decide : strLower "sha256" = "sha256")
    | inr h2 => exact hne h2)]
  rw [hhash]
  rfl

/-- C8.  When the manifest declares a supported sha256 checksum whose hex
differs from the digest computed over the bundle files, the integrity
check reports status invalid with both declared and computed hex
populated, while the load itself still succeeds with the parsed node and
edge counts: load success is independent of integrity status. -/
theorem C8_integrity_decoupled (sha : List Nat → String)
    (nodeDecode : List Nat → Option (List GNode))
    (edgeDecode : List Nat → Option (List GEdge)) (fs : Fsys) (mg : MGState)
    (ib : IntegrityBlock) (declHex computed : String)
    (nodeRecs : List GNode) (edgeRecs : List GEdge)
    (hib : mg.manifest.integrity = some ib)
    (hchk : ib.checksum = some ("sha256:" ++ declHex))
    (hne : declHex ≠ "")
    (hhash : _hash_files sha fs (_bundle_files mg) = some computed)
    (hdiff : computed ≠ declHex)
    (hnodes : loadJsonl nodeDecode fs mg.nodes_files = some nodeRecs)
    (hedges : loadJsonl edgeDecode fs mg.edges_files = some edgeRecs) :
    mgLoad sha nodeDecode edgeDecode fs mg = some
      { graph_loaded := true, checksum_passed := false,
        integrity := { status := "invalid", checksum_passed := false, declared := some declHex, computed := some computed },
        nodes := (addedNodeIds nodeRecs).length,
        edges := (keptEdges nodeRecs edgeRecs).length, errors := [] } := by
  unfold mgLoad
  rw [checksum_status_eq sha fs mg ib declHex computed hib hchk hne hhash]
  rw [if_pos hdiff]
  rw [Option.map_some']
  rw [hnodes, hedges]

/-- C8 witness: the theorem applied to the concrete corpus c8MG whose
manifest declares sha256:deadbeef while the digest computes to aaaa. -/
theorem C8_integrity_decoupled_witness :
    mgLoad c8Sha c8NodeDecode c8EdgeDecode c8Fs c8MG = some
      { graph_loaded := true, checksum_passed := false,
        integrity := { status := "invalid", checksum_passed := false, declared := some "deadbeef", computed := some "aaaa" },
        nodes := 2, edges := 1, errors := [] } := by
  have h := C8_integrity_decoupled c8Sha c8NodeDecode c8EdgeDecode c8Fs c8MG
    { checksum := some "sha256:deadbeef" } "deadbeef" "aaaa"
    [{ uuid := "n1", ntype := some "Document" }, { uuid := "n2", ntype := some "Section" }]
    [{ source := "n1", target := "n2", relation := some "CONTAINS" }, { source := "n1", target := "zz", relation := some "CITES" }]
    (by decide) rfl (by decide) (by decide) (by decide) (by decide) (by decide)
  exact h

/- Order and permutation lemmas for the stable sort. -/

theorem insertS_perm {α : Type} (le : α → α → Bool) (a : α) :
    ∀ (l : List α), (insertS le a l).Perm (a :: l) := by
  intro l
  induction l with
  | nil => exact List.Perm.refl [a]
  | cons b t ih =>
    unfold insertS
    split
    · exact (List.Perm.cons b ih).trans (List.Perm.swap a b t)
    · exact List.Perm.refl _

theorem pySort_foldl_perm {α : Type} (le : α → α → Bool) :
    ∀ (l acc : List α), (l.foldl (fun acc x => insertS le x acc) acc).Perm (acc ++ l) := by
  intro l
  induction l with
  | nil =>
    intro acc
    rw [List.append_nil]
    exact List.Perm.refl acc
  | cons x t ih =>
    intro acc
    rw [List.foldl_cons]
    exact (ih (insertS le x acc)).trans
      ((List.Perm.append_right t (insertS_perm le x acc)).trans (List.perm_middle).symm)

theorem pySort_perm {α : Type} (le : α → α → Bool) (l : List α) :
    (pySort le l).Perm l := by
  have := pySort_foldl_perm le l []
  rwa [List.nil_append] at this

theorem insertS_mem {α : Type} (le : α → α → Bool) (a : α) (l : List α) (x : α)
    (hx : x ∈ insertS le a l) : x = a ∨ x ∈ l :=
  List.mem_cons.mp ((insertS_perm le a l).mem_iff.mp hx)

theorem insertS_sorted {α : Type} (le : α → α → Bool)
    (htrans : ∀ a b c, le a b = true → le b c = true → le a c = true)
    (htot : ∀ a b, le a b = true ∨ le b a = true) (a : α) :
    ∀ (l : List α), l.Pairwise (fun x y => le x y = true) →
    (insertS le a l).Pairwise (fun x y => le x y = true) := by
  intro l
  induction l with
  | nil => intro h; exact List.pairwise_singleton _ a
  | cons b t ih =>
    intro h
    rw [List.pairwise_cons] at h
    obtain ⟨hb, ht⟩ := h
    unfold insertS
    split
    · next hba =>
      rw [List.pairwise_cons]
      refine ⟨?_, ih ht⟩
      intro x hx
      rcases insertS_mem le a t x hx with rfl | hxt
      · exact hba
      · exact hb x hxt
    · next hba =>
      have hab : le a b = true := by
        rcases htot a b with h1 | h1
        · exact h1
        · rw [h1] at hba; exact absurd rfl hba
      rw [List.pairwise_cons]
      constructor
      · intro x hx
        rcases List.mem_cons.mp hx with rfl | hxt
        · exact hab
        · exact htrans a b x hab (hb x hxt)
      · rw [List.pairwise_cons]
        exact ⟨hb, ht⟩

theorem pySort_sorted {α : Type} (le : α → α → Bool)
    (htrans : ∀ a b c, le a b = true → le b c = true → le a c = true)
    (htot : ∀ a b, le a b = true ∨ le b a = true) :
    ∀ (l acc : List α), acc.Pairwise (fun x y => le x y = true) →
    (l.foldl (fun acc x => insertS le x acc) acc).Pairwise (fun x y => le x y = true) := by
  intro l
  induction l with
  | nil => intro acc h; exact h
  | cons x t ih =>
    intro acc h
    rw [List.foldl_cons]
    exact ih (insertS le x acc) (insertS_sorted le htrans htot x acc h)

theorem charListLt_asymm : ∀ (a b : List Char),
    charListLt a b = true → charListLt b a = false := by
  intro a
  induction a with
  | nil =>
    intro b h
    cases b with
    | nil => exact absurd h (by decide)
    | cons c t => rfl
  | cons x as ih =>
    intro b h
    cases b with
    | nil => exact absurd h (by simp [charListLt])
    | cons y bs =>
      unfold charListLt at h ⊢
      by_cases hxy : x < y
      · rw [if_neg (lt_asymm hxy), if_pos hxy]
      · rw [if_neg hxy] at h
        by_cases hyx : y < x
        · rw [if_pos hyx] at h
          cases h
        · rw [if_neg hyx] at h
          rw [if_neg hyx, if_neg hxy]
          exact ih bs h

theorem strLe_total (a b : String) : strLe a b = true ∨ strLe b a = true := by
  unfold strLe strLt
  by_cases h : charListLt b.data a.data = true
  · right
    rw [charListLt_asymm b.data a.data h]
    rfl
  · left
    rw [Bool.not_eq_true] at h
    rw [h]
    rfl

theorem charListLt_trans : ∀ (a b c : List Char),
    charListLt a b = true → charListLt b c = true → charListLt a c = true := by
  intro a
  induction a with
  | nil =>
    intro b c hab hbc
    cases c with
    | nil =>
      cases b with
      | nil => exact hab
      | cons y bs => exact absurd hbc (by simp [charListLt])
    | cons z cs => rfl
  | cons x as ih =>
    intro b c hab hbc
    cases b with
    | nil => exact absurd hab (by simp [charListLt])
    | cons y bs =>
      cases c with
      | nil => exact absurd hbc (by simp [charListLt])
      | cons z cs =>
        unfold charListLt at hab hbc ⊢
        by_cases hxy : x < y
        · by_cases hyz : y < z
          · rw [if_pos (lt_trans hxy hyz)]
          · rw [if_neg hyz] at hbc
            by_cases hzy : z < y
            · rw [if_pos hzy] at hbc; cases hbc
            · have hyzeq : y = z := le_antisymm (not_lt.mp hzy) (not_lt.mp hyz)
              rw [if_pos (hyzeq ▸ hxy)]
        · rw [if_neg hxy] at hab
          by_cases hyx : y < x
          · rw [if_pos hyx] at hab; cases hab
          · rw [if_neg hyx] at hab
            have hxyeq : x = y := le_antisymm (not_lt.mp hyx) (not_lt.mp hxy)
            subst hxyeq
            by_cases hxz : x < z
            · rw [if_pos hxz]
            · rw [if_neg hxz] at hbc ⊢
              by_cases hzx : z < x
              · rw [if_pos hzx] at hbc; cases hbc
              · rw [if_neg hzx] at hbc ⊢
                exact ih bs cs hab hbc

theorem charListLt_conn : ∀ (a b : List Char),
    charListLt a b = false → charListLt b a = false → a = b := by
  intro a
  induction a with
  | nil =>
    intro b hab hba
    cases b with
    | nil => rfl
    | cons y bs => exact absurd hab (by simp [charListLt])
  | cons x as ih =>
    intro b hab hba
    cases b with
    | nil => exact absurd hba (by simp [charListLt])
    | cons y bs =>
      unfold charListLt at hab hba
      by_cases hxy : x < y
      · rw [if_pos hxy] at hab; cases hab
      · by_cases hyx : y < x
        · rw [if_pos hyx] at hba; cases hba
        · rw [if_neg hxy, if_neg hyx] at hab
          rw [if_neg hyx, if_neg hxy] at hba
          have hxyeq : x = y := le_antisymm (not_lt.mp hyx) (not_lt.mp hxy)
          rw [hxyeq, ih bs hab hba]

theorem strLe_trans (a b c : String) (hab : strLe a b = true) (hbc : strLe b c = true) :
    strLe a c = true := by
  unfold strLe strLt at hab hbc ⊢
  rw [Bool.not_eq_true'] at hab hbc ⊢
  by_cases hca : charListLt c.data a.data = true
  · by_cases hbc2 : charListLt b.data c.data = true
    · have := charListLt_trans b.data c.data a.data hbc2 hca
      rw [this] at hab
      cases hab
    · rw [Bool.not_eq_true] at hbc2
      have heq : b.data = c.data := charListLt_conn b.data c.data hbc2 hbc
      rw [← heq] at hca
      rw [hca] at hab
      cases hab
  · rw [Bool.not_eq_true] at hca
    exact hca

/-- C10.  The bundle digest covers exactly the declared node files, edge
files and optional index file in path-sorted order and excludes the
manifest file (hypothesis hman states the manifest is not among the
declared bundle files): (a) the hashed file list is a path-sorted
permutation of the declared files; (b) the digest depends only on the
bundle files' contents; (c) rewriting the manifest leaves the digest
unchanged; (d) update_manifest followed by the integrity check on the new
state reports valid (write-then-verify round trip). -/
theorem C10_digest_roundtrip (sha : List Nat → String) (encode : Manifest → List Nat)
    (now : String) (bump : Bool) (fs : Fsys) (mg : MGState)
    (hsha : ∀ bytes, sha bytes ≠ "")
    (hman : manifestPath mg ∉ _bundle_files mg)
    (hfiles : ∀ p, p ∈ _bundle_files mg → (readFile fs p).isSome) :
    ((_bundle_files mg).Perm (mg.nodes_files ++ mg.edges_files ++
        (match mg.index_path with | some i => [i] | none => [])) ∧
      List.Pairwise (fun a b => strLe a b = true) (_bundle_files mg)) ∧
    (∀ fs2, (∀ p, p ∈ _bundle_files mg → readFile fs2 p = readFile fs p) →
      compute_checksum sha fs2 mg = compute_checksum sha fs mg) ∧
    (∀ bytes, compute_checksum sha (writeFile fs (manifestPath mg) bytes) mg =
      compute_checksum sha fs mg) ∧
    (∃ mg2 fs2 st, update_manifest sha encode now bump fs mg = some (mg2, fs2, some st) ∧
      st.status = "valid" ∧ st.checksum_passed = true) := by
  have hcongr : ∀ fs2, (∀ p, p ∈ _bundle_files mg → readFile fs2 p = readFile fs p) →
      compute_checksum sha fs2 mg = compute_checksum sha fs mg := by
    intro fs2 h
    unfold compute_checksum _hash_files
    rw [readAll_congr fs fs2 (_bundle_files mg) h]
  have hwrite : ∀ bytes p, p ∈ _bundle_files mg →
      readFile (writeFile fs (manifestPath mg) bytes) p = readFile fs p := by
    intro bytes p hp
    exact readFile_writeFile_ne fs (manifestPath mg) bytes p
      (fun he => hman (he ▸ hp))
  refine ⟨⟨pySort_perm strLe _, pySort_sorted strLe strLe_trans strLe_total _ []
      (List.Pairwise.nil)⟩, hcongr, ?_, ?_⟩
  · intro bytes
    exact hcongr (writeFile fs (manifestPath mg) bytes) (hwrite bytes)
  · obtain ⟨bs, hbs⟩ := readAll_total fs (_bundle_files mg) hfiles
    have hcc : compute_checksum sha fs mg = some ("sha256:" ++ sha bs.flatten) := by
      unfold compute_checksum _hash_files
      rw [hbs]
      rfl
    let ib2 : IntegrityBlock :=
      { checksum := some ("sha256:" ++ sha bs.flatten),
        content_rev := if bump then some now
          else (mg.manifest.integrity.getD { checksum := none, content_rev := none }).content_rev }
    let m2 : Manifest := { bundle := mg.manifest.bundle, integrity := some ib2 }
    let mg2v : MGState :=
      { corpus_dir := mg.corpus_dir, manifest := m2,
        nodes_files := mg.nodes_files, edges_files := mg.edges_files,
        index_path := mg.index_path }
    let fs2v : Fsys := writeFile fs (manifestPath mg) (encode m2)
    have hupd : update_manifest sha encode now bump fs mg =
        some (mg2v, fs2v, checksum_status sha fs2v mg2v) := by
      unfold update_manifest
      rw [hcc, Option.map_some']
      rfl
    have hhash2 : _hash_files sha fs2v (_bundle_files mg) = some (sha bs.flatten) := by
      unfold _hash_files
      rw [readAll_congr fs fs2v (_bundle_files mg) (hwrite (encode m2)), hbs]
      rfl
    have hst : checksum_status sha fs2v mg2v = some
        { status := "valid", checksum_passed := true,
          checksum := some ("sha256:" ++ sha bs.flatten), content_rev := ib2.content_rev } := by
      have := checksum_status_eq sha fs2v mg2v ib2 (sha bs.flatten) (sha bs.flatten)
        rfl rfl (hsha bs.flatten) hhash2
      rw [if_neg (fun hne => hne rfl)] at this
      exact this
    refine ⟨mg2v, fs2v, { status := "valid", checksum_passed := true, checksum := some ("sha256:" ++ sha bs.flatten), content_rev := ib2.content_rev }, ?_, rfl, rfl⟩
    rw [hupd, hst]

/-- C10 witness: the theorem applied to the concrete corpus c8MG with the
constant toy digest (nonempty on every input, manifest outside the bundle,
all bundle files present). -/
theorem C10_digest_roundtrip_witness :
    (∃ mg2 fs2 st, update_manifest c8Sha c8Encode "2025-01-01T00:00:00Z" true c8Fs c8MG =
        some (mg2, fs2, some st) ∧ st.status = "valid" ∧ st.checksum_passed = true) ∧
    (∀ bytes, compute_checksum c8Sha (writeFile c8Fs (manifestPath c8MG) bytes) c8MG =
      compute_checksum c8Sha c8Fs c8MG) := by
  obtain ⟨-, -, h3, h4⟩ := C10_digest_roundtrip c8Sha c8Encode "2025-01-01T00:00:00Z"
    true c8Fs c8MG (fun _ => (by decide : ("aaaa" : String) ≠ "")) (by decide) (by decide)
  exact ⟨h4, h3⟩

/- Helper lemmas for the event stream. -/

theorem itemPayloads_append (a b : List Event) :
    itemPayloads (a ++ b) = itemPayloads a ++ itemPayloads b := by
  unfold itemPayloads
  rw [List.filterMap_append]

theorem countEvents_append (p : Event → Bool) (a b : List Event) :
    countEvents p (a ++ b) = countEvents p a + countEvents p b := by
  unfold countEvents
  rw [List.filter_append, List.length_append]

theorem itemPayloads_cons_item (d t : Nat) (it : ItemObj) (l : List Event) :
    itemPayloads (Event.item_done d t it :: l) = it :: itemPayloads l := by
  unfold itemPayloads
  rw [List.filterMap_cons]

theorem itemPayloads_cons_skip (e : Event) (l : List Event) (he : isItemDone e = false) :
    itemPayloads (e :: l) = itemPayloads l := by
  cases e <;> simp [itemPayloads, List.filterMap_cons, isItemDone] at he ⊢

theorem batchLoop_payloads (total : Nat) (pin pout : ℚ) :
    ∀ (objs : List ItemObj) (done tin tout : Nat),
    itemPayloads (batchLoop total pin pout objs done tin tout).1 = objs := by
  intro objs
  induction objs with
  | nil => intro done tin tout; rfl
  | cons it rest ih =>
    intro done tin tout
    simp only [batchLoop]
    rw [itemPayloads_cons_item]
    rw [itemPayloads_cons_skip]
    · rw [ih (done + 1) (tin + it.usage.input_tokens) (tout + it.usage.output_tokens)]
    · rfl

theorem batchLoop_noheader (total : Nat) (pin pout : ℚ) :
    ∀ (objs : List ItemObj) (done tin tout : Nat) (e : Event),
    e ∈ (batchLoop total pin pout objs done tin tout).1 → isHeader e = false := by
  intro objs
  induction objs with
  | nil => intro done tin tout e he; cases he
  | cons it rest ih =>
    intro done tin tout e he
    rcases List.mem_cons.mp he with rfl | he2
    · rfl
    · rcases List.mem_cons.mp he2 with rfl | he3
      · rfl
      · exact ih (done + 1) (tin + it.usage.input_tokens)
          (tout + it.usage.output_tokens) e he3

theorem batchLoop_protocol (total : Nat) (pin pout : ℚ) :
    ∀ (objs : List ItemObj) (done tin tout : Nat) (X : List Event),
    eventsOkAux ((batchLoop total pin pout objs done tin tout).1 ++ X) 2 =
      eventsOkAux X 2 := by
  intro objs
  induction objs with
  | nil => intro done tin tout X; rfl
  | cons it rest ih =>
    intro done tin tout X
    exact ih (done + 1) (tin + it.usage.input_tokens) (tout + it.usage.output_tokens) X

theorem batchLoop_count (total : Nat) (pin pout : ℚ) (p : Event → Bool)
    (hitem : ∀ d t it, p (Event.item_done d t it) = true)
    (hprog : ∀ d t a b c, p (Event.batch_progress d t a b c) = false) :
    ∀ (objs : List ItemObj) (done tin tout : Nat),
    countEvents p (batchLoop total pin pout objs done tin tout).1 = objs.length := by
  intro objs
  induction objs with
  | nil => intro done tin tout; rfl
  | cons it rest ih =>
    intro done tin tout
    have hstep := ih (done + 1) (tin + it.usage.input_tokens) (tout + it.usage.output_tokens)
    simp only [batchLoop]
    unfold countEvents at hstep ⊢
    rw [List.filter_cons, List.filter_cons, hitem, hprog]
    simp only [if_true, Bool.false_eq_true, if_false, List.length_cons]
    rw [hstep]

theorem batchLoop_nocount (total : Nat) (pin pout : ℚ) (p : Event → Bool)
    (hitem : ∀ d t it, p (Event.item_done d t it) = false)
    (hprog : ∀ d t a b c, p (Event.batch_progress d t a b c) = false) :
    ∀ (objs : List ItemObj) (done tin tout : Nat),
    countEvents p (batchLoop total pin pout objs done tin tout).1 = 0 := by
  intro objs
  induction objs with
  | nil => intro done tin tout; rfl
  | cons it rest ih =>
    intro done tin tout
    have hstep := ih (done + 1) (tin + it.usage.input_tokens) (tout + it.usage.output_tokens)
    simp only [batchLoop]
    unfold countEvents at hstep ⊢
    rw [List.filter_cons, List.filter_cons, hitem, hprog]
    simp only [Bool.false_eq_true, if_false]
    rw [hstep]

theorem countEvents_cons (p : Event → Bool) (e : Event) (l : List Event) :
    countEvents p (e :: l) = (if p e then 1 else 0) + countEvents p l := by
  unfold countEvents
  rw [List.filter_cons]
  split <;> simp [Nat.add_comm]

theorem sbp_payloads (capability : TraceItem → Envelope) (errId : TraceItem → String)
    (pin pout : ℚ) (b comp : List TraceItem) :
    itemPayloads (_stream_batch_parallel capability errId pin pout b comp) =
      comp.map (oneItem capability errId pin pout) := by
  simp only [_stream_batch_parallel]
  rw [itemPayloads_cons_skip]
  · rw [itemPayloads_append, batchLoop_payloads, itemPayloads_cons_skip]
    · show comp.map (oneItem capability errId pin pout) ++ ([] : List ItemObj) = _
      rw [List.append_nil]
    · rfl
  · rfl

theorem sbp_noheader (capability : TraceItem → Envelope) (errId : TraceItem → String)
    (pin pout : ℚ) (b comp : List TraceItem) (e : Event)
    (he : e ∈ _stream_batch_parallel capability errId pin pout b comp) :
    isHeader e = false := by
  simp only [_stream_batch_parallel] at he
  rcases List.mem_cons.mp he with rfl | he2
  · rfl
  · rcases List.mem_append.mp he2 with he3 | he4
    · exact batchLoop_noheader b.length pin pout _ 0 0 0 e he3
    · rcases List.mem_singleton.mp he4 with rfl
      rfl

theorem sbp_protocol (capability : TraceItem → Envelope) (errId : TraceItem → String)
    (pin pout : ℚ) (b comp : List TraceItem) (X : List Event) :
    eventsOkAux (_stream_batch_parallel capability errId pin pout b comp ++ X) 1 =
      eventsOkAux X 0 := by
  simp only [_stream_batch_parallel, List.cons_append]
  show eventsOkAux (((batchLoop b.length pin pout
    (comp.map (oneItem capability errId pin pout)) 0 0 0).1 ++ [Event.batch_end _ _ _ _]) ++ X) 2 =
    eventsOkAux X 0
  rw [List.append_assoc]
  rw [batchLoop_protocol]
  rfl

theorem sbp_count_header (capability : TraceItem → Envelope) (errId : TraceItem → String)
    (pin pout : ℚ) (b comp : List TraceItem) :
    countEvents isHeader (_stream_batch_parallel capability errId pin pout b comp) = 0 := by
  simp only [_stream_batch_parallel]
  rw [countEvents_cons, countEvents_append, countEvents_cons]
  rw [batchLoop_nocount b.length pin pout isHeader (fun d t it => rfl)
    (fun d t a b c => rfl)]
  rfl

theorem sbp_count_item (capability : TraceItem → Envelope) (errId : TraceItem → String)
    (pin pout : ℚ) (b comp : List TraceItem) :
    countEvents isItemDone (_stream_batch_parallel capability errId pin pout b comp) =
      comp.length := by
  simp only [_stream_batch_parallel]
  rw [countEvents_cons, countEvents_append, countEvents_cons]
  rw [batchLoop_count b.length pin pout isItemDone (fun d t it => rfl)
    (fun d t a b c => rfl)]
  show 0 + (comp.map (oneItem capability errId pin pout)).length + (0 + 0) = comp.length
  rw [List.length_map]
  omega

theorem sbp_count_runend (capability : TraceItem → Envelope) (errId : TraceItem → String)
    (pin pout : ℚ) (b comp : List TraceItem) :
    countEvents isRunEnd (_stream_batch_parallel capability errId pin pout b comp) = 0 := by
  simp only [_stream_batch_parallel]
  rw [countEvents_cons, countEvents_append, countEvents_cons]
  rw [batchLoop_nocount b.length pin pout isRunEnd (fun d t it => rfl)
    (fun d t a b c => rfl)]
  rfl

theorem splitAux_absorb : ∀ (L : List Event), (∀ e, e ∈ L → isHeader e = false) →
    ∀ (rest : List Event) (s : List Event),
    splitAux (L ++ rest) (some s) = splitAux rest (some (L.reverse ++ s)) := by
  intro L
  induction L with
  | nil => intro h rest s; rw [List.nil_append, List.reverse_nil, List.nil_append]
  | cons e t ih =>
    intro h rest s
    rw [List.cons_append]
    simp only [splitAux]
    rw [if_neg (by rw [h e (List.mem_cons_self e t)]; exact Bool.false_ne_true)]
    rw [ih (fun x hx => h x (List.mem_cons_of_mem e hx)) rest (e :: s)]
    rw [List.reverse_cons, List.append_assoc, List.singleton_append]

theorem splitAux_skip : ∀ (L : List Event), (∀ e, e ∈ L → isHeader e = false) →
    ∀ (rest : List Event),
    splitAux (L ++ rest) none = splitAux rest none := by
  intro L
  induction L with
  | nil => intro h rest; rw [List.nil_append]
  | cons e t ih =>
    intro h rest
    rw [List.cons_append]
    simp only [splitAux]
    rw [if_neg (by rw [h e (List.mem_cons_self e t)]; exact Bool.false_ne_true)]
    exact ih (fun x hx => h x (List.mem_cons_of_mem e hx)) rest

theorem splitAux_header_some (e : Event) (he : isHeader e = true) (rest : List Event)
    (s : List Event) :
    splitAux (e :: rest) (some s) = s.reverse :: splitAux rest (some [e]) := by
  simp only [splitAux]
  rw [if_pos he]
  rfl

theorem splitAux_header_none (e : Event) (he : isHeader e = true) (rest : List Event) :
    splitAux (e :: rest) none = splitAux rest (some [e]) := by
  simp only [splitAux]
  rw [if_pos he]
  rfl

theorem rb_protocol (capability : TraceItem → Envelope) (errId : TraceItem → String)
    (pin pout : ℚ) (nb : Nat) (sched : Nat → List TraceItem → List TraceItem) :
    ∀ (bs : List (List TraceItem)) (i : Nat) (a b c d e : Nat) (f : ℚ),
    eventsOkAux ((runBatches capability errId pin pout nb sched i bs).1 ++
      [Event.run_end a b c d e f]) 0 = true := by
  intro bs
  induction bs with
  | nil => intro i a b c d e f; rfl
  | cons b0 rest ih =>
    intro i a b c d e f
    simp only [runBatches, List.cons_append]
    show eventsOkAux ((_stream_batch_parallel capability errId pin pout b0 (sched i b0) ++
      (runBatches capability errId pin pout nb sched (i + 1) rest).1) ++
      [Event.run_end a b c d e f]) 1 = true
    rw [List.append_assoc, sbp_protocol]
    exact ih (i + 1) a b c d e f

theorem rb_segments (capability : TraceItem → Envelope) (errId : TraceItem → String)
    (pin pout : ℚ) (nb : Nat) (sched : Nat → List TraceItem → List TraceItem)
    (re : Event) (hre1 : isHeader re = false) (hre2 : isItemDone re = false) :
    ∀ (bs : List (List TraceItem)) (i : Nat),
    (splitAux ((runBatches capability errId pin pout nb sched i bs).1 ++ [re]) none).map
      itemPayloads = compObjs capability errId pin pout sched i bs := by
  intro bs
  induction bs with
  | nil =>
    intro i
    show (splitAux ([] ++ [re]) none).map itemPayloads = []
    rw [List.nil_append]
    rw [show ([re] : List Event) = [re] ++ [] from (List.append_nil [re]).symm,
      splitAux_skip [re] (by intro x hx; rcases List.mem_singleton.mp hx with rfl; exact hre1) []]
    rfl
  | cons b0 rest ih =>
    intro i
    simp only [runBatches, List.cons_append]
    rw [splitAux_header_none (Event.batch_header i nb b0.length) rfl]
    rw [List.append_assoc]
    rw [splitAux_absorb (_stream_batch_parallel capability errId pin pout b0 (sched i b0))
      (fun e he => sbp_noheader capability errId pin pout b0 (sched i b0) e he)]
    cases rest with
    | nil =>
      show (splitAux ([] ++ [re]) (some _)).map itemPayloads = _
      rw [List.nil_append]
      rw [show ([re] : List Event) = [re] ++ [] from (List.append_nil [re]).symm,
        splitAux_absorb [re] (by intro x hx; rcases List.mem_singleton.mp hx with rfl; exact hre1)]
      show ([((re :: ((_stream_batch_parallel capability errId pin pout b0
        (sched i b0)).reverse ++ [Event.batch_header i nb b0.length]))).reverse]).map
        itemPayloads = _
      rw [List.map_singleton, List.reverse_cons, List.reverse_append,
        List.reverse_reverse]
      rw [itemPayloads_append, itemPayloads_append]
      rw [show itemPayloads [Event.batch_header i nb b0.length].reverse = [] from rfl]
      rw [sbp_payloads]
      rw [show itemPayloads [re] = [] from by
        rw [show ([re] : List Event) = re :: [] from rfl, itemPayloads_cons_skip re [] hre2]
        rfl]
      rw [List.nil_append, List.append_nil]
      rfl
    | cons b1 rest2 =>
      have hih := ih (i + 1)
      simp only [runBatches, List.cons_append] at hih ⊢
      rw [splitAux_header_some (Event.batch_header (i + 1) nb b1.length) rfl]
      rw [splitAux_header_none (Event.batch_header (i + 1) nb b1.length) rfl] at hih
      rw [List.map_cons]
      rw [hih]
      congr 1
      rw [List.reverse_append, List.reverse_reverse]
      rw [show List.reverse [Event.batch_header i nb b0.length] =
        [Event.batch_header i nb b0.length] from rfl]
      rw [show ([Event.batch_header i nb b0.length] : List Event) ++
        _stream_batch_parallel capability errId pin pout b0 (sched i b0) =
        Event.batch_header i nb b0.length ::
          _stream_batch_parallel capability errId pin pout b0 (sched i b0) from rfl]
      rw [itemPayloads_cons_skip (Event.batch_header i nb b0.length) _ rfl, sbp_payloads]

theorem rb_count_header (capability : TraceItem → Envelope) (errId : TraceItem → String)
    (pin pout : ℚ) (nb : Nat) (sched : Nat → List TraceItem → List TraceItem) :
    ∀ (bs : List (List TraceItem)) (i : Nat),
    countEvents isHeader (runBatches capability errId pin pout nb sched i bs).1 =
      bs.length := by
  intro bs
  induction bs with
  | nil => intro i; rfl
  | cons b0 rest ih =>
    intro i
    simp only [runBatches]
    rw [countEvents_cons, countEvents_append, sbp_count_header, ih (i + 1)]
    simp only [isHeader, if_true, List.length_cons]
    omega

theorem rb_count_item_sum (capability : TraceItem → Envelope) (errId : TraceItem → String)
    (pin pout : ℚ) (nb : Nat) (sched : Nat → List TraceItem → List TraceItem)
    (hsched : ∀ i b, (sched i b).Perm b) :
    ∀ (bs : List (List TraceItem)) (i : Nat),
    countEvents isItemDone (runBatches capability errId pin pout nb sched i bs).1 =
      (bs.map (fun b => b.length)).sum := by
  intro bs
  induction bs with
  | nil => intro i; rfl
  | cons b0 rest ih =>
    intro i
    simp only [runBatches]
    rw [countEvents_cons, countEvents_append, sbp_count_item, ih (i + 1)]
    rw [(hsched i b0).length_eq]
    simp only [isItemDone, Bool.false_eq_true, if_false, List.map_cons, List.sum_cons]
    omega

theorem rb_count_runend (capability : TraceItem → Envelope) (errId : TraceItem → String)
    (pin pout : ℚ) (nb : Nat) (sched : Nat → List TraceItem → List TraceItem) :
    ∀ (bs : List (List TraceItem)) (i : Nat),
    countEvents isRunEnd (runBatches capability errId pin pout nb sched i bs).1 = 0 := by
  intro bs
  induction bs with
  | nil => intro i; rfl
  | cons b0 rest ih =>
    intro i
    simp only [runBatches]
    rw [countEvents_cons, countEvents_append, sbp_count_runend, ih (i + 1)]
    rfl

theorem rb_totals (capability : TraceItem → Envelope) (errId : TraceItem → String)
    (pin pout : ℚ) (nb : Nat) (sched : Nat → List TraceItem → List TraceItem)
    (hsched : ∀ i b, (sched i b).Perm b) :
    ∀ (bs : List (List TraceItem)) (i : Nat),
    (runBatches capability errId pin pout nb sched i bs).2.1 =
      sumIn (bs.flatten.map (oneItem capability errId pin pout)) ∧
    (runBatches capability errId pin pout nb sched i bs).2.2 =
      sumOut (bs.flatten.map (oneItem capability errId pin pout)) := by
  intro bs
  induction bs with
  | nil => intro i; exact ⟨rfl, rfl⟩
  | cons b0 rest ih =>
    intro i
    obtain ⟨ih1, ih2⟩ := ih (i + 1)
    constructor
    · show sumIn ((sched i b0).map (oneItem capability errId pin pout)) +
        (runBatches capability errId pin pout nb sched (i + 1) rest).2.1 = _
      rw [ih1]
      unfold sumIn
      rw [List.flatten_cons, List.map_append, List.map_append, List.sum_append]
      congr 1
      rw [List.map_map, List.map_map]
      exact ((hsched i b0).map _).sum_eq
    · show sumOut ((sched i b0).map (oneItem capability errId pin pout)) +
        (runBatches capability errId pin pout nb sched (i + 1) rest).2.2 = _
      rw [ih2]
      unfold sumOut
      rw [List.flatten_cons, List.map_append, List.map_append, List.sum_append]
      congr 1
      rw [List.map_map, List.map_map]
      exact ((hsched i b0).map _).sum_eq

theorem chunked_length {α : Type} (size : Nat) (hs : size ≠ 0) :
    ∀ (n : Nat) (l : List α), l.length ≤ n →
    (chunked l size).length = (l.length + size - 1) / size := by
  intro n
  induction n with
  | zero =>
    intro l hl
    have hnil : l = [] := List.eq_nil_of_length_eq_zero (by omega)
    subst hnil
    simp only [chunked, List.length_nil]
    rw [Nat.zero_add, Nat.div_eq_of_lt (by omega)]
  | succ m ih =>
    intro l hl
    cases l with
    | nil =>
      simp only [chunked, List.length_nil]
      rw [Nat.zero_add, Nat.div_eq_of_lt (by omega)]
    | cons x xs =>
      rw [List.length_cons] at hl
      simp only [chunked]
      rw [if_neg hs]
      rw [List.length_cons]
      have hdrop := ih ((x :: xs).drop size) (by
        rw [List.length_drop, List.length_cons]
        omega)
      rw [hdrop, List.length_drop, List.length_cons]
      rcases Nat.le_total (xs.length + 1) size with hle | hge
      · have h1 : xs.length + 1 - size = 0 := by omega
        rw [h1, Nat.zero_add]
        rw [Nat.div_eq_of_lt (by omega : size - 1 < size)]
        have h2 : xs.length + 1 + size - 1 = xs.length + size := by omega
        rw [h2, Nat.add_div_right xs.length (by omega : 0 < size)]
        rw [Nat.div_eq_of_lt (by omega : xs.length < size)]
      · have h1 : xs.length + 1 - size + size - 1 = xs.length := by omega
        rw [h1]
        have h2 : xs.length + 1 + size - 1 = xs.length + size := by omega
        rw [h2, Nat.add_div_right xs.length (by omega : 0 < size)]

theorem chunked_flatten {α : Type} (size : Nat) (hs : size ≠ 0) :
    ∀ (n : Nat) (l : List α), l.length ≤ n → (chunked l size).flatten = l := by
  intro n
  induction n with
  | zero =>
    intro l hl
    have hnil : l = [] := List.eq_nil_of_length_eq_zero (by omega)
    subst hnil
    simp only [chunked, List.flatten_nil]
  | succ m ih =>
    intro l hl
    cases l with
    | nil => simp only [chunked, List.flatten_nil]
    | cons x xs =>
      rw [List.length_cons] at hl
      simp only [chunked]
      rw [if_neg hs]
      rw [List.flatten_cons]
      rw [ih ((x :: xs).drop size) (by rw [List.length_drop, List.length_cons]; omega)]
      exact List.take_append_drop size (x :: xs)

theorem splitAux_cons_nonheader (e : Event) (he : isHeader e = false) (rest : List Event) :
    splitAux (e :: rest) none = splitAux rest none :=
  splitAux_skip [e]
    (fun x hx => by rcases List.mem_singleton.mp hx with rfl; exact he) rest

theorem compObjs_perm (capability : TraceItem → Envelope) (errId : TraceItem → String)
    (pin pout : ℚ) (sched : Nat → List TraceItem → List TraceItem)
    (hsched : ∀ i b, (sched i b).Perm b) :
    ∀ (bs : List (List TraceItem)) (i : Nat),
    List.Forall₂ (fun objs b => objs.Perm (b.map (oneItem capability errId pin pout)))
      (compObjs capability errId pin pout sched i bs) bs := by
  intro bs
  induction bs with
  | nil => intro i; exact List.Forall₂.nil
  | cons b0 rest ih =>
    intro i
    exact List.Forall₂.cons ((hsched i b0).map _) (ih (i + 1))

/-- C2: every run of stream_all_traces follows the ordered protocol
run_start, then per batch in submission order batch_header, batch_start,
interleaved item_done/batch_progress, batch_end, then a single final
run_end (protocolOk); the item payloads of the i-th batch segment are
exactly batch i's items in completion order of the concurrent calls
(segment payload map equals compObjs); and since each completion order is a
permutation of the submitted batch, batch boundaries are respected: every
item of batch i is emitted inside segment i, before anything of
batch i+1. -/
theorem C2_event_protocol (G : Graph) (capability : TraceItem → Envelope)
    (errId : TraceItem → String) (query model : String) (batch_size : Nat)
    (limit : Option Nat) (pin pout : ℚ) (selected : Option (List String))
    (sched : Nat → List TraceItem → List TraceItem)
    (hsched : ∀ i b, (sched i b).Perm b) :
    protocolOk (stream_all_traces G capability errId query model batch_size limit
      pin pout selected sched) = true ∧
    (splitAtHeaders (stream_all_traces G capability errId query model batch_size limit
      pin pout selected sched)).map itemPayloads =
      compObjs capability errId pin pout sched 1
        (chunked (selectTraces G selected limit) batch_size) ∧
    List.Forall₂ (fun objs b => objs.Perm (b.map (oneItem capability errId pin pout)))
      (compObjs capability errId pin pout sched 1
        (chunked (selectTraces G selected limit) batch_size))
      (chunked (selectTraces G selected limit) batch_size) := by
  refine ⟨?_, ?_, ?_⟩
  · simp only [stream_all_traces, protocolOk]
    exact rb_protocol capability errId pin pout _ sched _ 1 _ _ _ _ _ _
  · simp only [stream_all_traces, splitAtHeaders]
    rw [splitAux_cons_nonheader (Event.run_start model query
      (selectTraces G selected limit).length batch_size
      (chunked (selectTraces G selected limit) batch_size).length pin pout) rfl]
    refine rb_segments capability errId pin pout _ sched _ ?_ ?_ _ 1
    · rfl
    · rfl
  · exact compObjs_perm capability errId pin pout sched hsched _ 1

/-- C2 witness: the seven-leaf corpus with batch size 3 and submission-order
completion satisfies all three parts of the protocol claim. -/
theorem C2_event_protocol_witness :
    protocolOk (stream_all_traces c23Graph c23Cap c23ErrId "q" "m" 3 none 2 1 none
      c23Sched) = true ∧
    (splitAtHeaders (stream_all_traces c23Graph c23Cap c23ErrId "q" "m" 3 none 2 1 none
      c23Sched)).map itemPayloads =
      compObjs c23Cap c23ErrId 2 1 c23Sched 1
        (chunked (selectTraces c23Graph none none) 3) ∧
    List.Forall₂ (fun objs b => objs.Perm (b.map (oneItem c23Cap c23ErrId 2 1)))
      (compObjs c23Cap c23ErrId 2 1 c23Sched 1
        (chunked (selectTraces c23Graph none none) 3))
      (chunked (selectTraces c23Graph none none) 3) :=
  C2_event_protocol c23Graph c23Cap c23ErrId "q" "m" 3 none 2 1 none c23Sched
    (fun _ b => List.Perm.refl b)

/-- C3: a run over the N selected items with batch size B > 0 emits exactly
ceil(N/B) batch_header events and exactly N item_done events, and its last
event is the single run_end carrying the accumulated token totals (the sums
over every item object, failures included) and the cost computed from them;
this holds for every capability, in particular one on which every item
evaluation fails with the uniform error envelope, so the run always reaches
run_end. -/
theorem C3_run_counts (G : Graph) (capability : TraceItem → Envelope)
    (errId : TraceItem → String) (query model : String) (batch_size : Nat)
    (limit : Option Nat) (pin pout : ℚ) (selected : Option (List String))
    (sched : Nat → List TraceItem → List TraceItem)
    (hB : batch_size ≠ 0) (hsched : ∀ i b, (sched i b).Perm b) :
    countEvents isHeader (stream_all_traces G capability errId query model batch_size
      limit pin pout selected sched) =
      ((selectTraces G selected limit).length + batch_size - 1) / batch_size ∧
    countEvents isItemDone (stream_all_traces G capability errId query model batch_size
      limit pin pout selected sched) = (selectTraces G selected limit).length ∧
    countEvents isRunEnd (stream_all_traces G capability errId query model batch_size
      limit pin pout selected sched) = 1 ∧
    (stream_all_traces G capability errId query model batch_size
      limit pin pout selected sched).getLast? = some (Event.run_end
      (selectTraces G selected limit).length batch_size
      (((selectTraces G selected limit).length + batch_size - 1) / batch_size)
      (sumIn ((selectTraces G selected limit).map (oneItem capability errId pin pout)))
      (sumOut ((selectTraces G selected limit).map (oneItem capability errId pin pout)))
      (((sumIn ((selectTraces G selected limit).map
          (oneItem capability errId pin pout)) : ℚ) / 1000000 * pin +
        (sumOut ((selectTraces G selected limit).map
          (oneItem capability errId pin pout)) : ℚ) / 1000000 * pout))) := by
  have hall : (chunked (selectTraces G selected limit) batch_size).flatten =
      selectTraces G selected limit :=
    chunked_flatten batch_size hB (selectTraces G selected limit).length _ (le_refl _)
  have hlen : (chunked (selectTraces G selected limit) batch_size).length =
      ((selectTraces G selected limit).length + batch_size - 1) / batch_size :=
    chunked_length batch_size hB (selectTraces G selected limit).length _ (le_refl _)
  refine ⟨?_, ?_, ?_, ?_⟩
  · simp only [stream_all_traces]
    rw [countEvents_cons, countEvents_append,
      rb_count_header capability errId pin pout _ sched _ 1, hlen]
    simp [countEvents, isHeader]
  · simp only [stream_all_traces]
    rw [countEvents_cons, countEvents_append,
      rb_count_item_sum capability errId pin pout _ sched hsched _ 1]
    have hsum : ((chunked (selectTraces G selected limit) batch_size).map
        (fun b => b.length)).sum = (selectTraces G selected limit).length := by
      rw [← List.length_flatten, hall]
    rw [hsum]
    simp [countEvents, isItemDone]
  · simp only [stream_all_traces]
    rw [countEvents_cons, countEvents_append,
      rb_count_runend capability errId pin pout _ sched _ 1]
    simp [countEvents, isRunEnd]
  · simp only [stream_all_traces]
    rw [← List.cons_append, List.getLast?_concat]
    obtain ⟨h1, h2⟩ := rb_totals capability errId pin pout
      (chunked (selectTraces G selected limit) batch_size).length sched hsched
      (chunked (selectTraces G selected limit) batch_size) 1
    rw [h1, h2, hall, hlen]

/-- C3 witness: seven leaves, batch size 3, every item evaluation failing
with the uniform error envelope — the run still emits ceil(7/3) = 3
batch_header events, 7 item_done events, and ends in the one run_end with
the (here zero) accumulated totals. -/
theorem C3_run_counts_witness :
    ((3 : Nat) ≠ 0 ∧ (selectTraces c23Graph none none).length = 7) ∧
    countEvents isHeader (stream_all_traces c23Graph c3FailCap c23ErrId "q" "m" 3
      none 2 1 none c23Sched) = 3 ∧
    countEvents isItemDone (stream_all_traces c23Graph c3FailCap c23ErrId "q" "m" 3
      none 2 1 none c23Sched) = 7 ∧
    countEvents isRunEnd (stream_all_traces c23Graph c3FailCap c23ErrId "q" "m" 3
      none 2 1 none c23Sched) = 1 ∧
    (stream_all_traces c23Graph c3FailCap c23ErrId "q" "m" 3
      none 2 1 none c23Sched).getLast? = some (Event.run_end 7 3 3
      (sumIn ((selectTraces c23Graph none none).map (oneItem c3FailCap c23ErrId 2 1)))
      (sumOut ((selectTraces c23Graph none none).map (oneItem c3FailCap c23ErrId 2 1)))
      (((sumIn ((selectTraces c23Graph none none).map
          (oneItem c3FailCap c23ErrId 2 1)) : ℚ) / 1000000 * 2 +
        (sumOut ((selectTraces c23Graph none none).map
          (oneItem c3FailCap c23ErrId 2 1)) : ℚ) / 1000000 * 1))) := by
  have h := C3_run_counts c23Graph c3FailCap c23ErrId "q" "m" 3 none 2 1 none c23Sched
    (by decide) (fun _ b => List.Perm.refl b)
  obtain ⟨h1, h2, h3, h4⟩ := h
  have hN : (selectTraces c23Graph none none).length = 7 := by decide
  rw [hN] at h1 h2 h4
  exact ⟨⟨by decide, hN⟩, h1, h2, h3, h4⟩

/- Order kit for the outline comparators. -/

theorem natLtB_asymm : IsLtAsymm natLtB := by
  intro a b h
  simp only [natLtB, decide_eq_true_eq] at h
  simp only [natLtB, decide_eq_false_iff_not]
  omega

theorem natLtB_trans : IsLtTrans natLtB := by
  intro a b c h1 h2
  simp only [natLtB, decide_eq_true_eq] at h1 h2 ⊢
  omega

theorem natLtB_eqv : IsLtEqv natLtB := by
  intro a b h1 h2
  simp only [natLtB, decide_eq_false_iff_not] at h1 h2
  omega

theorem strLt_asymm : IsLtAsymm strLt := by
  intro a b h
  exact charListLt_asymm a.data b.data h

theorem strLt_trans : IsLtTrans strLt := by
  intro a b c h1 h2
  exact charListLt_trans a.data b.data c.data h1 h2

theorem strLt_eqv : IsLtEqv strLt := by
  intro a b h1 h2
  have hd := charListLt_conn a.data b.data h1 h2
  cases a with
  | mk da =>
    cases b with
    | mk db => exact congrArg String.mk hd

theorem lexLt_asymm {α β : Type} (la : α → α → Bool) (lb : β → β → Bool)
    (ha : IsLtAsymm la) (hb : IsLtAsymm lb) : IsLtAsymm (lexLt la lb) := by
  intro x y h
  unfold lexLt at h ⊢
  by_cases h1 : la x.1 y.1 = true
  · rw [ha x.1 y.1 h1]
    rw [if_neg (by simp : ¬ false = true), if_pos h1]
  · rw [if_neg h1] at h
    by_cases h2 : la y.1 x.1 = true
    · rw [if_pos h2] at h; cases h
    · rw [if_neg h2] at h
      rw [if_neg h2, if_neg h1]
      exact hb x.2 y.2 h

theorem lexLt_trans {α β : Type} (la : α → α → Bool) (lb : β → β → Bool)
    (haa : IsLtAsymm la) (hat : IsLtTrans la) (hae : IsLtEqv la)
    (hbt : IsLtTrans lb) : IsLtTrans (lexLt la lb) := by
  intro x y z h1 h2
  unfold lexLt at h1 h2 ⊢
  by_cases hxy : la x.1 y.1 = true
  · by_cases hyz : la y.1 z.1 = true
    · rw [if_pos (hat _ _ _ hxy hyz)]
    · rw [if_neg hyz] at h2
      by_cases hzy : la z.1 y.1 = true
      · rw [if_pos hzy] at h2; cases h2
      · rw [if_neg hzy] at h2
        have : y.1 = z.1 := hae _ _ (by simpa using hyz) (by simpa using hzy)
        rw [if_pos (this ▸ hxy)]
  · rw [if_neg hxy] at h1
    by_cases hyx : la y.1 x.1 = true
    · rw [if_pos hyx] at h1; cases h1
    · rw [if_neg hyx] at h1
      have hxy1 : x.1 = y.1 := hae _ _ (by simpa using hxy) (by simpa using hyx)
      by_cases hyz : la y.1 z.1 = true
      · rw [if_pos (hxy1 ▸ hyz)]
      · rw [if_neg hyz] at h2
        by_cases hzy : la z.1 y.1 = true
        · rw [if_pos hzy] at h2; cases h2
        · rw [if_neg hzy] at h2
          rw [if_neg (hxy1 ▸ hyz), if_neg (hxy1 ▸ hzy : ¬ la z.1 x.1 = true)]
          exact hbt _ _ _ h1 h2

theorem lexLt_eqv {α β : Type} (la : α → α → Bool) (lb : β → β → Bool)
    (hae : IsLtEqv la) (hbe : IsLtEqv lb) : IsLtEqv (lexLt la lb) := by
  intro x y h1 h2
  unfold lexLt at h1 h2
  by_cases hxy : la x.1 y.1 = true
  · rw [if_pos hxy] at h1; cases h1
  · rw [if_neg hxy] at h1
    by_cases hyx : la y.1 x.1 = true
    · rw [if_pos hyx] at h2; cases h2
    · rw [if_neg hyx] at h1
      rw [if_neg hyx, if_neg hxy] at h2
      have he1 : x.1 = y.1 := hae _ _ (by simpa using hxy) (by simpa using hyx)
      have he2 : x.2 = y.2 := hbe _ _ h1 h2
      exact Prod.ext he1 he2

theorem listLt_asymm {α : Type} (la : α → α → Bool) (haa : IsLtAsymm la) :
    ∀ x y, listLt la x y = true → listLt la y x = false := by
  intro x
  induction x with
  | nil =>
    intro y h
    cases y with
    | nil => cases h
    | cons b bs => rfl
  | cons a as ih =>
    intro y h
    cases y with
    | nil => cases h
    | cons b bs =>
      unfold listLt at h ⊢
      by_cases hab : la a b = true
      · rw [haa _ _ hab]
        rw [if_neg (by simp : ¬ false = true), if_pos hab]
      · rw [if_neg hab] at h
        by_cases hba : la b a = true
        · rw [if_pos hba] at h; cases h
        · rw [if_neg hba] at h
          rw [if_neg hba, if_neg hab]
          exact ih bs h

theorem listLt_trans {α : Type} (la : α → α → Bool)
    (haa : IsLtAsymm la) (hat : IsLtTrans la) (hae : IsLtEqv la) :
    ∀ x y z, listLt la x y = true → listLt la y z = true → listLt la x z = true := by
  intro x
  induction x with
  | nil =>
    intro y z hxy hyz
    cases y with
    | nil => cases hxy
    | cons b bs =>
      cases z with
      | nil => cases hyz
      | cons c cs => rfl
  | cons a as ih =>
    intro y z hxy hyz
    cases y with
    | nil => cases hxy
    | cons b bs =>
      cases z with
      | nil => cases hyz
      | cons c cs =>
        unfold listLt at hxy hyz ⊢
        by_cases hab : la a b = true
        · by_cases hbc : la b c = true
          · rw [if_pos (hat _ _ _ hab hbc)]
          · rw [if_neg hbc] at hyz
            by_cases hcb : la c b = true
            · rw [if_pos hcb] at hyz; cases hyz
            · have : b = c := hae _ _ (by simpa using hbc) (by simpa using hcb)
              rw [if_pos (this ▸ hab)]
        · rw [if_neg hab] at hxy
          by_cases hba : la b a = true
          · rw [if_pos hba] at hxy; cases hxy
          · rw [if_neg hba] at hxy
            have heq : a = b := hae _ _ (by simpa using hab) (by simpa using hba)
            by_cases hbc : la b c = true
            · rw [if_pos (heq ▸ hbc)]
            · rw [if_neg hbc] at hyz
              by_cases hcb : la c b = true
              · rw [if_pos hcb] at hyz; cases hyz
              · rw [if_neg hcb] at hyz
                rw [if_neg (heq ▸ hbc), if_neg (heq ▸ hcb : ¬ la c a = true)]
                exact ih bs cs hxy hyz

theorem listLt_eqv {α : Type} (la : α → α → Bool) (hae : IsLtEqv la) :
    ∀ x y, listLt la x y = false → listLt la y x = false → x = y := by
  intro x
  induction x with
  | nil =>
    intro y h1 h2
    cases y with
    | nil => rfl
    | cons b bs => cases h1
  | cons a as ih =>
    intro y h1 h2
    cases y with
    | nil => cases h2
    | cons b bs =>
      unfold listLt at h1 h2
      by_cases hab : la a b = true
      · rw [if_pos hab] at h1; cases h1
      · by_cases hba : la b a = true
        · rw [if_pos hba] at h2; cases h2
        · rw [if_neg hab, if_neg hba] at h1
          rw [if_neg hba, if_neg hab] at h2
          have he : a = b := hae _ _ (by simpa using hab) (by simpa using hba)
          rw [he, ih bs h1 h2]

theorem leOf_total {α : Type} (lt : α → α → Bool) (haa : IsLtAsymm lt) (a b : α) :
    leOf lt a b = true ∨ leOf lt b a = true := by
  by_cases h : lt b a = true
  · right
    unfold leOf
    rw [haa _ _ h]
    rfl
  · left
    unfold leOf
    rw [Bool.not_eq_true] at h
    rw [h]
    rfl

theorem leOf_trans {α : Type} (lt : α → α → Bool) (hat : IsLtTrans lt) (hae : IsLtEqv lt)
    (a b c : α) (h1 : leOf lt a b = true) (h2 : leOf lt b c = true) :
    leOf lt a c = true := by
  unfold leOf at h1 h2 ⊢
  rw [Bool.not_eq_true'] at h1 h2 ⊢
  by_cases hca : lt c a = true
  · by_cases hab : lt a b = true
    · rw [hat _ _ _ hca hab] at h2; cases h2
    · have heq : a = b := hae _ _ (by simpa using hab) h1
      rw [heq] at hca
      rw [hca] at h2
      cases h2
  · simpa using hca

theorem pairLt_asymm : IsLtAsymm pairLt :=
  lexLt_asymm natLtB natLtB natLtB_asymm natLtB_asymm

theorem pairLt_trans : IsLtTrans pairLt :=
  lexLt_trans natLtB natLtB natLtB_asymm natLtB_trans natLtB_eqv natLtB_trans

theorem pairLt_eqv : IsLtEqv pairLt :=
  lexLt_eqv natLtB natLtB natLtB_eqv natLtB_eqv

theorem pssLt_asymm : IsLtAsymm pssLt :=
  lexLt_asymm _ _ pairLt_asymm (lexLt_asymm _ _ strLt_asymm strLt_asymm)

theorem pssLt_trans : IsLtTrans pssLt :=
  lexLt_trans _ _ pairLt_asymm pairLt_trans pairLt_eqv
    (lexLt_trans _ _ strLt_asymm strLt_trans strLt_eqv strLt_trans)

theorem pssLt_eqv : IsLtEqv pssLt :=
  lexLt_eqv _ _ pairLt_eqv (lexLt_eqv _ _ strLt_eqv strLt_eqv)

theorem psLt_asymm : IsLtAsymm psLt :=
  lexLt_asymm _ _ pairLt_asymm strLt_asymm

theorem psLt_trans : IsLtTrans psLt :=
  lexLt_trans _ _ pairLt_asymm pairLt_trans pairLt_eqv strLt_trans

theorem psLt_eqv : IsLtEqv psLt :=
  lexLt_eqv _ _ pairLt_eqv strLt_eqv

theorem tokKeyLt_asymm : IsLtAsymm tokKeyLt :=
  lexLt_asymm _ _ natLtB_asymm (lexLt_asymm _ _ natLtB_asymm strLt_asymm)

theorem tokKeyLt_trans : IsLtTrans tokKeyLt :=
  lexLt_trans _ _ natLtB_asymm natLtB_trans natLtB_eqv
    (lexLt_trans _ _ natLtB_asymm natLtB_trans natLtB_eqv strLt_trans)

theorem tokKeyLt_eqv : IsLtEqv tokKeyLt :=
  lexLt_eqv _ _ natLtB_eqv (lexLt_eqv _ _ natLtB_eqv strLt_eqv)

theorem parKeyLt_asymm : IsLtAsymm parKeyLt :=
  lexLt_asymm _ _ pairLt_asymm (listLt_asymm tokKeyLt tokKeyLt_asymm)

theorem parKeyLt_trans : IsLtTrans parKeyLt :=
  lexLt_trans _ _ pairLt_asymm pairLt_trans pairLt_eqv
    (listLt_trans tokKeyLt tokKeyLt_asymm tokKeyLt_trans tokKeyLt_eqv)

theorem parKeyLt_eqv : IsLtEqv parKeyLt :=
  lexLt_eqv _ _ pairLt_eqv (listLt_eqv tokKeyLt tokKeyLt_eqv)

theorem childKeyLt_asymm : IsLtAsymm childKeyLt :=
  lexLt_asymm _ _ natLtB_asymm
    (lexLt_asymm _ _ strLt_asymm (lexLt_asymm _ _ strLt_asymm strLt_asymm))

theorem childKeyLt_trans : IsLtTrans childKeyLt :=
  lexLt_trans _ _ natLtB_asymm natLtB_trans natLtB_eqv
    (lexLt_trans _ _ strLt_asymm strLt_trans strLt_eqv
      (lexLt_trans _ _ strLt_asymm strLt_trans strLt_eqv strLt_trans))

theorem childKeyLt_eqv : IsLtEqv childKeyLt :=
  lexLt_eqv _ _ natLtB_eqv (lexLt_eqv _ _ strLt_eqv (lexLt_eqv _ _ strLt_eqv strLt_eqv))

theorem rankLt_asymm : IsLtAsymm rankLt := listLt_asymm natLtB natLtB_asymm

theorem rankLt_trans : IsLtTrans rankLt :=
  listLt_trans natLtB natLtB_asymm natLtB_trans natLtB_eqv

theorem rankLt_eqv : IsLtEqv rankLt := listLt_eqv natLtB natLtB_eqv

/-- A sorted list is determined by its multiset when the comparator is
antisymmetric on its members. -/
theorem sortedPermEq {α : Type} (le : α → α → Bool) :
    ∀ (l1 l2 : List α), l1.Perm l2 →
    (∀ a, a ∈ l1 → ∀ b, b ∈ l1 → le a b = true → le b a = true → a = b) →
    l1.Pairwise (fun x y => le x y = true) → l2.Pairwise (fun x y => le x y = true) →
    l1 = l2 := by
  intro l1
  induction l1 with
  | nil =>
    intro l2 hp _ _ _
    exact (List.Perm.eq_nil hp.symm).symm
  | cons a t1 ih =>
    intro l2 hp hanti hp1 hp2
    cases l2 with
    | nil => exact absurd hp.eq_nil (by simp)
    | cons b t2 =>
      rw [List.pairwise_cons] at hp1 hp2
      obtain ⟨h1a, h1t⟩ := hp1
      obtain ⟨h2b, h2t⟩ := hp2
      have hab : a = b := by
        have hbmem : b ∈ a :: t1 := hp.symm.subset (List.mem_cons_self b t2)
        have hamem : a ∈ b :: t2 := hp.subset (List.mem_cons_self a t1)
        rcases List.mem_cons.mp hbmem with hba | hbt1
        · exact hba.symm
        · rcases List.mem_cons.mp hamem with hab2 | hat2
          · exact hab2
          · exact hanti a (List.mem_cons_self a t1) b hbmem (h1a b hbt1) (h2b a hat2)
      subst hab
      have hpt : t1.Perm t2 := hp.cons_inv
      rw [ih t2 hpt
        (fun x hx y hy => hanti x (List.mem_cons_of_mem a hx) y (List.mem_cons_of_mem a hy))
        h1t h2t]

/-- Two stable sorts agree whenever the inputs are permutations, the
comparators agree on the elements, and the order has no distinct ties
among them. -/
theorem pySortEqOfPerm {α : Type} (le1 le2 : α → α → Bool)
    (htot1 : ∀ a b, le1 a b = true ∨ le1 b a = true)
    (htr1 : ∀ a b c, le1 a b = true → le1 b c = true → le1 a c = true)
    (htot2 : ∀ a b, le2 a b = true ∨ le2 b a = true)
    (htr2 : ∀ a b c, le2 a b = true → le2 b c = true → le2 a c = true)
    (l1 l2 : List α) (hperm : l2.Perm l1)
    (hle : ∀ a, a ∈ l1 → ∀ b, b ∈ l1 → le2 a b = le1 a b)
    (hanti : ∀ a, a ∈ l1 → ∀ b, b ∈ l1 → le1 a b = true → le1 b a = true → a = b) :
    pySort le2 l2 = pySort le1 l1 := by
  have hs2 : (pySort le2 l2).Pairwise (fun x y => le2 x y = true) :=
    pySort_sorted le2 htr2 htot2 l2 [] List.Pairwise.nil
  have hp2 : (pySort le2 l2).Perm l1 := (pySort_perm le2 l2).trans hperm
  have hs2b : (pySort le2 l2).Pairwise (fun x y => le1 x y = true) := by
    refine hs2.imp_of_mem ?_
    intro a b ha hb hr
    rw [← hle a (hp2.subset ha) b (hp2.subset hb)]
    exact hr
  have hs1 : (pySort le1 l1).Pairwise (fun x y => le1 x y = true) :=
    pySort_sorted le1 htr1 htot1 l1 [] List.Pairwise.nil
  exact sortedPermEq le1 _ _ (hp2.trans (pySort_perm le1 l1).symm)
    (fun x hx y hy => hanti x (hp2.subset hx) y (hp2.subset hy)) hs2b hs1

/-- Count of an element in a tag-filtered list. -/
theorem countFilterEq (f : String → String) (T x : String) :
    ∀ l : List String, (l.filter (fun k => f k = T)).count x =
      if f x = T then l.count x else 0 := by
  intro l
  induction l with
  | nil => by_cases h : f x = T <;> simp [h]
  | cons k t ih =>
    rw [List.filter_cons]
    by_cases hk : f k = T
    · rw [if_pos (by simpa using hk), List.count_cons, List.count_cons, ih]
      by_cases hx : f x = T
      · rw [if_pos hx, if_pos hx]
      · have hne : ¬ (x = k) := fun he => hx (he ▸ hk)
        have hkx : (k == x) = false := by
          simp only [beq_eq_false_iff_ne, ne_eq]
          exact fun he => hne he.symm
        rw [if_neg hx, if_neg hx, hkx]
        simp
    · rw [if_neg (by simpa using hk), ih, List.count_cons]
      by_cases hx : f x = T
      · have hne : ¬ (x = k) := fun he => hk (he ▸ hx)
        have hkx : (k == x) = false := by
          simp only [beq_eq_false_iff_ne, ne_eq]
          exact fun he => hne he.symm
        rw [if_pos hx, if_pos hx, hkx]
        simp
      · rw [if_neg hx, if_neg hx]

/-- The five known-type filters partition a child list whose tags are all
known. -/
theorem fiveFilterPerm (G : Graph) (l : List String)
    (hknown : ∀ c, c ∈ l → bucketTag G c ∈ knownTypes) :
    (l.filter (fun k => bucketTag G k = "Subpart") ++
     (l.filter (fun k => bucketTag G k = "Heading") ++
      (l.filter (fun k => bucketTag G k = "Section") ++
       (l.filter (fun k => bucketTag G k = "Guidance") ++
        l.filter (fun k => bucketTag G k = "Paragraph"))))).Perm l := by
  apply List.perm_iff_count.mpr
  intro x
  rw [List.count_append, List.count_append, List.count_append, List.count_append]
  rw [countFilterEq (fun k => bucketTag G k) "Subpart" x l,
    countFilterEq (fun k => bucketTag G k) "Heading" x l,
    countFilterEq (fun k => bucketTag G k) "Section" x l,
    countFilterEq (fun k => bucketTag G k) "Guidance" x l,
    countFilterEq (fun k => bucketTag G k) "Paragraph" x l]
  by_cases hx : x ∈ l
  · have htag := hknown x hx
    simp only [knownTypes, List.mem_cons, List.not_mem_nil, or_false] at htag
    rcases htag with h | h | h | h | h
    · rw [if_pos h, if_neg (by simp [h]), if_neg (by simp [h]), if_neg (by simp [h]),
        if_neg (by simp [h])]
      omega
    · rw [if_neg (by simp [h]), if_pos h, if_neg (by simp [h]), if_neg (by simp [h]),
        if_neg (by simp [h])]
      omega
    · rw [if_neg (by simp [h]), if_neg (by simp [h]), if_pos h, if_neg (by simp [h]),
        if_neg (by simp [h])]
      omega
    · rw [if_neg (by simp [h]), if_neg (by simp [h]), if_neg (by simp [h]), if_pos h,
        if_neg (by simp [h])]
      omega
    · rw [if_neg (by simp [h]), if_neg (by simp [h]), if_neg (by simp [h]),
        if_neg (by simp [h]), if_pos h]
      omega
  · have hc : l.count x = 0 := List.count_eq_zero.mpr hx
    rw [hc]
    simp [ite_self]

theorem rowLe_total : ∀ a b : TraceRow, rowLe a b = true ∨ rowLe b a = true :=
  fun a b => leOf_total rankLt rankLt_asymm a.rank b.rank

theorem rowLe_trans : ∀ a b c : TraceRow,
    rowLe a b = true → rowLe b c = true → rowLe a c = true :=
  fun a b c h1 h2 => leOf_trans rankLt rankLt_trans rankLt_eqv a.rank b.rank c.rank h1 h2

/-- C4: the rows build_section_traces_for_frontend emits for a Section
are exactly the Section's bucketed trace rows stably sorted by the
positional rank tuple that _rank_tuple_along_path computes against the
_child_sort_key sibling order (type rank plus RAW attribute strings) -
and only by that: the output rows are cleaned in rank order (pairwise
nondecreasing rank), which is a different order from the outline's
natural-token sibling order, as the counterexample shows. -/
theorem C4_rank_order (G : Graph) (fuel : Nat) (sid : String) :
    build_section_traces_for_frontend G fuel sid = (sortedRowsFor G fuel sid).map cleanRow ∧
    (sortedRowsFor G fuel sid).Perm
      ((allTraceRows G fuel).filter (fun r => r.section_uuid = sid)) ∧
    ((sortedRowsFor G fuel sid).map (fun r => r.rank)).Pairwise
      (fun a b => leOf rankLt a b = true) := by
  refine ⟨rfl, pySort_perm _ _, ?_⟩
  have hs : (sortedRowsFor G fuel sid).Pairwise (fun x y => rowLe x y = true) :=
    pySort_sorted rowLe rowLe_trans rowLe_total
      ((allTraceRows G fuel).filter (fun r => r.section_uuid = sid)) [] List.Pairwise.nil
  exact hs.map (fun r : TraceRow => r.rank) (fun a b h => h)

/-- C4 counterexample: under Section 25.20 the trace rows for paragraphs
(b)(2) and (b)(10) come out in RAW-string order (b)(10) before (b)(2),
while the outline sibling order of the same paragraphs is the
natural-token order (b)(2) before (b)(10): the section-trace row order
contradicts the outline order. -/
theorem C4_counterexample :
    (build_section_traces_for_frontend gC4 10 "S").map (fun r => r.bottom_uuid) =
      ["P10", "P2"] ∧
    orderedChildren gC4 10 "S" = ["P2", "P10"] ∧
    (build_section_traces_for_frontend gC4 10 "S").map (fun r => r.bottom_uuid) ≠
      (orderedChildren gC4 10 "S").filter
        (fun c => c ∈ (build_section_traces_for_frontend gC4 10 "S").map
          (fun r => r.bottom_uuid)) := by
  refine ⟨by decide, by decide, by decide⟩

theorem outlineKeyOf_subpart (G : Graph) (fuel : Nat) (id : String)
    (h : bucketTag G id = "Subpart") :
    outlineKeyOf G fuel id =
      { pair := (subpartSortKey G fuel id).1, s1 := (subpartSortKey G fuel id).2.1,
        s2 := (subpartSortKey G fuel id).2.2, toks := [] } := by
  unfold outlineKeyOf
  rw [h]
  rfl

theorem outlineKeyOf_heading (G : Graph) (fuel : Nat) (id : String)
    (h : bucketTag G id = "Heading") :
    outlineKeyOf G fuel id =
      { pair := (headingSortKey G fuel id).1, s1 := (headingSortKey G fuel id).2,
        s2 := "", toks := [] } := by
  unfold outlineKeyOf
  rw [h]
  rfl

theorem outlineKeyOf_section (G : Graph) (fuel : Nat) (id : String)
    (h : bucketTag G id = "Section") :
    outlineKeyOf G fuel id =
      { pair := (sectionSortKey G id).1, s1 := (sectionSortKey G id).2.1,
        s2 := (sectionSortKey G id).2.2, toks := [] } := by
  unfold outlineKeyOf
  rw [h]
  rfl

theorem outlineKeyOf_paragraph (G : Graph) (fuel : Nat) (id : String)
    (h : bucketTag G id = "Paragraph") :
    outlineKeyOf G fuel id =
      { pair := (paragraphSortKey G id).1, s1 := "", s2 := "",
        toks := (paragraphSortKey G id).2 } := by
  unfold outlineKeyOf
  rw [h]
  rfl

theorem subKeyTransfer (G G2 : Graph) (fuel : Nat) (c : String)
    (ht : bucketTag G c = "Subpart") (hbt : bucketTag G2 c = bucketTag G c)
    (hkey : outlineKeyOf G2 fuel c = outlineKeyOf G fuel c) :
    subpartSortKey G2 fuel c = subpartSortKey G fuel c := by
  rw [outlineKeyOf_subpart G fuel c ht, outlineKeyOf_subpart G2 fuel c (hbt.trans ht)] at hkey
  have h1 : (subpartSortKey G2 fuel c).1 = (subpartSortKey G fuel c).1 :=
    congrArg (fun x => x.pair) hkey
  have h2 : (subpartSortKey G2 fuel c).2.1 = (subpartSortKey G fuel c).2.1 :=
    congrArg (fun x => x.s1) hkey
  have h3 : (subpartSortKey G2 fuel c).2.2 = (subpartSortKey G fuel c).2.2 :=
    congrArg (fun x => x.s2) hkey
  exact Prod.ext h1 (Prod.ext h2 h3)

theorem headKeyTransfer (G G2 : Graph) (fuel : Nat) (c : String)
    (ht : bucketTag G c = "Heading") (hbt : bucketTag G2 c = bucketTag G c)
    (hkey : outlineKeyOf G2 fuel c = outlineKeyOf G fuel c) :
    headingSortKey G2 fuel c = headingSortKey G fuel c := by
  rw [outlineKeyOf_heading G fuel c ht, outlineKeyOf_heading G2 fuel c (hbt.trans ht)] at hkey
  have h1 : (headingSortKey G2 fuel c).1 = (headingSortKey G fuel c).1 :=
    congrArg (fun x => x.pair) hkey
  have h2 : (headingSortKey G2 fuel c).2 = (headingSortKey G fuel c).2 :=
    congrArg (fun x => x.s1) hkey
  exact Prod.ext h1 h2

theorem secKeyTransfer (G G2 : Graph) (fuel : Nat) (c : String)
    (ht : bucketTag G c = "Section") (hbt : bucketTag G2 c = bucketTag G c)
    (hkey : outlineKeyOf G2 fuel c = outlineKeyOf G fuel c) :
    sectionSortKey G2 c = sectionSortKey G c := by
  rw [outlineKeyOf_section G fuel c ht, outlineKeyOf_section G2 fuel c (hbt.trans ht)] at hkey
  have h1 : (sectionSortKey G2 c).1 = (sectionSortKey G c).1 :=
    congrArg (fun x => x.pair) hkey
  have h2 : (sectionSortKey G2 c).2.1 = (sectionSortKey G c).2.1 :=
    congrArg (fun x => x.s1) hkey
  have h3 : (sectionSortKey G2 c).2.2 = (sectionSortKey G c).2.2 :=
    congrArg (fun x => x.s2) hkey
  exact Prod.ext h1 (Prod.ext h2 h3)

theorem parKeyTransfer (G G2 : Graph) (fuel : Nat) (c : String)
    (ht : bucketTag G c = "Paragraph") (hbt : bucketTag G2 c = bucketTag G c)
    (hkey : outlineKeyOf G2 fuel c = outlineKeyOf G fuel c) :
    paragraphSortKey G2 c = paragraphSortKey G c := by
  rw [outlineKeyOf_paragraph G fuel c ht, outlineKeyOf_paragraph G2 fuel c (hbt.trans ht)]
    at hkey
  have h1 : (paragraphSortKey G2 c).1 = (paragraphSortKey G c).1 :=
    congrArg (fun x => x.pair) hkey
  have h2 : (paragraphSortKey G2 c).2 = (paragraphSortKey G c).2 :=
    congrArg (fun x => x.toks) hkey
  exact Prod.ext h1 h2

/-- One type bucket of two graphs agreeing on tags and keys sorts to the
same list when the children are a permutation and the keys have no
distinct ties. -/
theorem bucketSortEq {κ : Type} (lt : κ → κ → Bool)
    (hasym : IsLtAsymm lt) (htr : IsLtTrans lt) (heqv : IsLtEqv lt)
    (key1 key2 : String → κ)
    (kids1 kids2 : List String) (tag1 tag2 : String → String) (T : String)
    (hbt : ∀ c, c ∈ kids1 → tag2 c = tag1 c)
    (hperm : kids2.Perm kids1)
    (hkeyT : ∀ c, c ∈ kids1 → tag1 c = T → key2 c = key1 c)
    (hinjT : ∀ c1, c1 ∈ kids1 → ∀ c2, c2 ∈ kids1 → tag1 c1 = T → tag1 c2 = T →
      key1 c1 = key1 c2 → c1 = c2) :
    pySort (fun a b => leOf lt (key2 a) (key2 b)) (kids2.filter (fun k => tag2 k = T)) =
    pySort (fun a b => leOf lt (key1 a) (key1 b)) (kids1.filter (fun k => tag1 k = T)) := by
  have hfc : kids2.filter (fun k => tag2 k = T) = kids2.filter (fun k => tag1 k = T) :=
    List.filter_congr (fun x hx => by rw [hbt x (hperm.subset hx)])
  rw [hfc]
  refine pySortEqOfPerm (fun a b => leOf lt (key1 a) (key1 b))
    (fun a b => leOf lt (key2 a) (key2 b))
    (fun a b => leOf_total lt hasym (key1 a) (key1 b))
    (fun a b c h1 h2 => leOf_trans lt htr heqv (key1 a) (key1 b) (key1 c) h1 h2)
    (fun a b => leOf_total lt hasym (key2 a) (key2 b))
    (fun a b c h1 h2 => leOf_trans lt htr heqv (key2 a) (key2 b) (key2 c) h1 h2)
    _ _ (hperm.filter _) ?_ ?_
  · intro a ha b hb
    obtain ⟨ha1, ha2⟩ := List.mem_filter.mp ha
    obtain ⟨hb1, hb2⟩ := List.mem_filter.mp hb
    show leOf lt (key2 a) (key2 b) = leOf lt (key1 a) (key1 b)
    rw [hkeyT a ha1 (by simpa using ha2), hkeyT b hb1 (by simpa using hb2)]
  · intro a ha b hb h1 h2
    obtain ⟨ha1, ha2⟩ := List.mem_filter.mp ha
    obtain ⟨hb1, hb2⟩ := List.mem_filter.mp hb
    have h1b : leOf lt (key1 a) (key1 b) = true := h1
    have h2b : leOf lt (key1 b) (key1 a) = true := h2
    have hlt1 : lt (key1 b) (key1 a) = false := by
      unfold leOf at h1b
      rwa [Bool.not_eq_true'] at h1b
    have hlt2 : lt (key1 a) (key1 b) = false := by
      unfold leOf at h2b
      rwa [Bool.not_eq_true'] at h2b
    exact hinjT a ha1 b hb1 (by simpa using ha2) (by simpa using hb2)
      (heqv _ _ hlt2 hlt1)

/-- C5: under any parent, _ordered_children emits the Subpart bucket, the
Heading bucket, the Section bucket, the Guidance bucket and the Paragraph
bucket in that fixed order (no other types present), each a permutation
of the respective children and each stably sorted by its key - Subparts
and Headings by the memoized minSectionKey, which is the minimum over the
subtree TRUNCATED at the topmost Sections (a Section contributes its own
key and the walk does not look below it - not the minimum found anywhere,
see the counterexample), Sections by their own parsed (major, minor) key
with label/title tie-breakers, Guidance by node id, Paragraphs by the
tokenized identifier key; and the result is independent of the edge-file
order: a second graph with the same tags and keys whose child list is any
permutation produces the identical ordered list, provided no two distinct
same-bucket children tie on their full key. -/
theorem C5_sibling_order (G G2 : Graph) (fuel : Nat) (p : String)
    (hknown : ∀ c, c ∈ containsChildren G p → bucketTag G c ∈ knownTypes)
    (hbt : ∀ c, c ∈ containsChildren G p → bucketTag G2 c = bucketTag G c)
    (hkey : ∀ c, c ∈ containsChildren G p →
      outlineKeyOf G2 fuel c = outlineKeyOf G fuel c)
    (hperm : (containsChildren G2 p).Perm (containsChildren G p))
    (hinj : ∀ c1, c1 ∈ containsChildren G p → ∀ c2, c2 ∈ containsChildren G p →
      bucketTag G c1 = bucketTag G c2 →
      outlineKeyOf G fuel c1 = outlineKeyOf G fuel c2 → c1 = c2) :
    orderedChildren G fuel p =
      pySort (subLe G fuel)
        ((containsChildren G p).filter (fun k => bucketTag G k = "Subpart")) ++
      (pySort (headLe G fuel)
        ((containsChildren G p).filter (fun k => bucketTag G k = "Heading")) ++
       (pySort (secLe G)
        ((containsChildren G p).filter (fun k => bucketTag G k = "Section")) ++
        (pySort strLe
          ((containsChildren G p).filter (fun k => bucketTag G k = "Guidance")) ++
         pySort (parLe G)
          ((containsChildren G p).filter (fun k => bucketTag G k = "Paragraph"))))) ∧
    (orderedChildren G fuel p).Perm (containsChildren G p) ∧
    (pySort (subLe G fuel)
      ((containsChildren G p).filter (fun k => bucketTag G k = "Subpart"))).Pairwise
      (fun a b => subLe G fuel a b = true) ∧
    (pySort (headLe G fuel)
      ((containsChildren G p).filter (fun k => bucketTag G k = "Heading"))).Pairwise
      (fun a b => headLe G fuel a b = true) ∧
    (pySort (secLe G)
      ((containsChildren G p).filter (fun k => bucketTag G k = "Section"))).Pairwise
      (fun a b => secLe G a b = true) ∧
    (pySort strLe
      ((containsChildren G p).filter (fun k => bucketTag G k = "Guidance"))).Pairwise
      (fun a b => strLe a b = true) ∧
    (pySort (parLe G)
      ((containsChildren G p).filter (fun k => bucketTag G k = "Paragraph"))).Pairwise
      (fun a b => parLe G a b = true) ∧
    orderedChildren G2 fuel p = orderedChildren G fuel p := by
  have hother1 : otherTags G (containsChildren G p) = [] := by
    unfold otherTags
    have hfil : (((containsChildren G p).map (fun k => bucketTag G k)).filter
        (fun t => t ∉ knownTypes)) = [] := by
      rw [List.filter_eq_nil_iff]
      intro t ht
      obtain ⟨k, hk, rfl⟩ := List.mem_map.mp ht
      simpa using hknown k hk
    rw [hfil]
    rfl
  have hother2 : otherTags G2 (containsChildren G2 p) = [] := by
    unfold otherTags
    have hfil : (((containsChildren G2 p).map (fun k => bucketTag G2 k)).filter
        (fun t => t ∉ knownTypes)) = [] := by
      rw [List.filter_eq_nil_iff]
      intro t ht
      obtain ⟨k, hk, rfl⟩ := List.mem_map.mp ht
      have hk1 : k ∈ containsChildren G p := hperm.subset hk
      rw [hbt k hk1]
      simpa using hknown k hk1
    rw [hfil]
    rfl
  have heq0 : orderedChildren G fuel p =
      pySort (subLe G fuel)
        ((containsChildren G p).filter (fun k => bucketTag G k = "Subpart")) ++
      (pySort (headLe G fuel)
        ((containsChildren G p).filter (fun k => bucketTag G k = "Heading")) ++
       (pySort (secLe G)
        ((containsChildren G p).filter (fun k => bucketTag G k = "Section")) ++
        (pySort strLe
          ((containsChildren G p).filter (fun k => bucketTag G k = "Guidance")) ++
         pySort (parLe G)
          ((containsChildren G p).filter (fun k => bucketTag G k = "Paragraph"))))) := by
    simp only [orderedChildren]
    rw [hother1]
    simp only [List.flatMap_nil, List.append_nil, List.append_assoc]
  have heq0b : orderedChildren G2 fuel p =
      pySort (subLe G2 fuel)
        ((containsChildren G2 p).filter (fun k => bucketTag G2 k = "Subpart")) ++
      (pySort (headLe G2 fuel)
        ((containsChildren G2 p).filter (fun k => bucketTag G2 k = "Heading")) ++
       (pySort (secLe G2)
        ((containsChildren G2 p).filter (fun k => bucketTag G2 k = "Section")) ++
        (pySort strLe
          ((containsChildren G2 p).filter (fun k => bucketTag G2 k = "Guidance")) ++
         pySort (parLe G2)
          ((containsChildren G2 p).filter (fun k => bucketTag G2 k = "Paragraph"))))) := by
    simp only [orderedChildren]
    rw [hother2]
    simp only [List.flatMap_nil, List.append_nil, List.append_assoc]
  have hsub : pySort (subLe G2 fuel)
      ((containsChildren G2 p).filter (fun k => bucketTag G2 k = "Subpart")) =
      pySort (subLe G fuel)
      ((containsChildren G p).filter (fun k => bucketTag G k = "Subpart")) :=
    bucketSortEq pssLt pssLt_asymm pssLt_trans pssLt_eqv
      (fun c => subpartSortKey G fuel c) (fun c => subpartSortKey G2 fuel c)
      (containsChildren G p) (containsChildren G2 p)
      (fun c => bucketTag G c) (fun c => bucketTag G2 c) "Subpart"
      hbt hperm
      (fun c hc ht => subKeyTransfer G G2 fuel c ht (hbt c hc) (hkey c hc))
      (fun c1 h1 c2 h2 ht1 ht2 hk => hinj c1 h1 c2 h2 (ht1.trans ht2.symm)
        (by
          have hk2 : subpartSortKey G fuel c1 = subpartSortKey G fuel c2 := hk
          rw [outlineKeyOf_subpart G fuel c1 ht1, outlineKeyOf_subpart G fuel c2 ht2, hk2]))
  have hhead : pySort (headLe G2 fuel)
      ((containsChildren G2 p).filter (fun k => bucketTag G2 k = "Heading")) =
      pySort (headLe G fuel)
      ((containsChildren G p).filter (fun k => bucketTag G k = "Heading")) :=
    bucketSortEq psLt psLt_asymm psLt_trans psLt_eqv
      (fun c => headingSortKey G fuel c) (fun c => headingSortKey G2 fuel c)
      (containsChildren G p) (containsChildren G2 p)
      (fun c => bucketTag G c) (fun c => bucketTag G2 c) "Heading"
      hbt hperm
      (fun c hc ht => headKeyTransfer G G2 fuel c ht (hbt c hc) (hkey c hc))
      (fun c1 h1 c2 h2 ht1 ht2 hk => hinj c1 h1 c2 h2 (ht1.trans ht2.symm)
        (by
          have hk2 : headingSortKey G fuel c1 = headingSortKey G fuel c2 := hk
          rw [outlineKeyOf_heading G fuel c1 ht1, outlineKeyOf_heading G fuel c2 ht2, hk2]))
  have hsec : pySort (secLe G2)
      ((containsChildren G2 p).filter (fun k => bucketTag G2 k = "Section")) =
      pySort (secLe G)
      ((containsChildren G p).filter (fun k => bucketTag G k = "Section")) :=
    bucketSortEq pssLt pssLt_asymm pssLt_trans pssLt_eqv
      (fun c => sectionSortKey G c) (fun c => sectionSortKey G2 c)
      (containsChildren G p) (containsChildren G2 p)
      (fun c => bucketTag G c) (fun c => bucketTag G2 c) "Section"
      hbt hperm
      (fun c hc ht => secKeyTransfer G G2 fuel c ht (hbt c hc) (hkey c hc))
      (fun c1 h1 c2 h2 ht1 ht2 hk => hinj c1 h1 c2 h2 (ht1.trans ht2.symm)
        (by
          have hk2 : sectionSortKey G c1 = sectionSortKey G c2 := hk
          rw [outlineKeyOf_section G fuel c1 ht1, outlineKeyOf_section G fuel c2 ht2, hk2]))
  have hgui : pySort strLe
      ((containsChildren G2 p).filter (fun k => bucketTag G2 k = "Guidance")) =
      pySort strLe
      ((containsChildren G p).filter (fun k => bucketTag G k = "Guidance")) :=
    bucketSortEq strLt strLt_asymm strLt_trans strLt_eqv
      (fun c => c) (fun c => c)
      (containsChildren G p) (containsChildren G2 p)
      (fun c => bucketTag G c) (fun c => bucketTag G2 c) "Guidance"
      hbt hperm
      (fun _ _ _ => rfl)
      (fun c1 _ c2 _ _ _ hk => hk)
  have hpar : pySort (parLe G2)
      ((containsChildren G2 p).filter (fun k => bucketTag G2 k = "Paragraph")) =
      pySort (parLe G)
      ((containsChildren G p).filter (fun k => bucketTag G k = "Paragraph")) :=
    bucketSortEq parKeyLt parKeyLt_asymm parKeyLt_trans parKeyLt_eqv
      (fun c => paragraphSortKey G c) (fun c => paragraphSortKey G2 c)
      (containsChildren G p) (containsChildren G2 p)
      (fun c => bucketTag G c) (fun c => bucketTag G2 c) "Paragraph"
      hbt hperm
      (fun c hc ht => parKeyTransfer G G2 fuel c ht (hbt c hc) (hkey c hc))
      (fun c1 h1 c2 h2 ht1 ht2 hk => hinj c1 h1 c2 h2 (ht1.trans ht2.symm)
        (by
          have hk2 : paragraphSortKey G c1 = paragraphSortKey G c2 := hk
          rw [outlineKeyOf_paragraph G fuel c1 ht1, outlineKeyOf_paragraph G fuel c2 ht2,
            hk2]))
  refine ⟨heq0, ?_, ?_, ?_, ?_, ?_, ?_, ?_⟩
  · rw [heq0]
    exact ((pySort_perm (subLe G fuel) _).append
      ((pySort_perm (headLe G fuel) _).append
        ((pySort_perm (secLe G) _).append
          ((pySort_perm strLe _).append (pySort_perm (parLe G) _))))).trans
      (fiveFilterPerm G (containsChildren G p) hknown)
  · exact pySort_sorted (subLe G fuel)
      (fun a b c h1 h2 => leOf_trans pssLt pssLt_trans pssLt_eqv _ _ _ h1 h2)
      (fun a b => leOf_total pssLt pssLt_asymm _ _) _ [] List.Pairwise.nil
  · exact pySort_sorted (headLe G fuel)
      (fun a b c h1 h2 => leOf_trans psLt psLt_trans psLt_eqv _ _ _ h1 h2)
      (fun a b => leOf_total psLt psLt_asymm _ _) _ [] List.Pairwise.nil
  · exact pySort_sorted (secLe G)
      (fun a b c h1 h2 => leOf_trans pssLt pssLt_trans pssLt_eqv _ _ _ h1 h2)
      (fun a b => leOf_total pssLt pssLt_asymm _ _) _ [] List.Pairwise.nil
  · exact pySort_sorted strLe strLe_trans strLe_total _ [] List.Pairwise.nil
  · exact pySort_sorted (parLe G)
      (fun a b c h1 h2 => leOf_trans parKeyLt parKeyLt_trans parKeyLt_eqv _ _ _ h1 h2)
      (fun a b => leOf_total parKeyLt parKeyLt_asymm _ _) _ [] List.Pairwise.nil
  · rw [heq0b, heq0, hsub, hhead, hsec, hgui, hpar]

/-- C5 counterexample: the code orders Headings by minSectionKey, which
stops at the topmost Section, NOT by the minimum section-key found
anywhere in the subtree as the claim states.  In gC5 the subtree of H1
contains section number 25.5 nested inside section 25.50, so the
claim's anywhere-minimum makes H1 (25, 5) strictly earlier than
H2 (25, 10) - yet the code keys H1 at (25, 50) and emits H2 first.  The
unparsable Section S3 gets the sentinel key (INF, INF) and sorts after
the parsable S4. -/
theorem C5_counterexample :
    orderedChildren gC5 6 "D" = ["H2", "H1", "S4", "S3"] ∧
    specMinSectionKeyAnywhere gC5 6 "H1" = (25, 5) ∧
    specMinSectionKeyAnywhere gC5 6 "H2" = (25, 10) ∧
    minSectionKey gC5 6 "H1" = (25, 50) ∧
    minSectionKey gC5 6 "H2" = (25, 10) ∧
    pairLt (specMinSectionKeyAnywhere gC5 6 "H1")
      (specMinSectionKeyAnywhere gC5 6 "H2") = true ∧
    sectionKeyOf gC5 "S3" = (INF, INF) ∧
    sectionKeyOf gC5 "S4" = (25, 7) := by
  refine ⟨by decide, by decide, by decide, by decide, by decide, by decide, by decide,
    by decide⟩

/-- C5 witness: the amended sibling-order theorem applied to the concrete
corpus gC5 and its edge-reversed twin gC5b at the Document root. -/
theorem C5_sibling_order_witness :
    orderedChildren gC5 6 "D" =
      pySort (subLe gC5 6)
        ((containsChildren gC5 "D").filter (fun k => bucketTag gC5 k = "Subpart")) ++
      (pySort (headLe gC5 6)
        ((containsChildren gC5 "D").filter (fun k => bucketTag gC5 k = "Heading")) ++
       (pySort (secLe gC5)
        ((containsChildren gC5 "D").filter (fun k => bucketTag gC5 k = "Section")) ++
        (pySort strLe
          ((containsChildren gC5 "D").filter (fun k => bucketTag gC5 k = "Guidance")) ++
         pySort (parLe gC5)
          ((containsChildren gC5 "D").filter (fun k => bucketTag gC5 k = "Paragraph"))))) ∧
    (orderedChildren gC5 6 "D").Perm (containsChildren gC5 "D") ∧
    (pySort (subLe gC5 6)
      ((containsChildren gC5 "D").filter (fun k => bucketTag gC5 k = "Subpart"))).Pairwise
      (fun a b => subLe gC5 6 a b = true) ∧
    (pySort (headLe gC5 6)
      ((containsChildren gC5 "D").filter (fun k => bucketTag gC5 k = "Heading"))).Pairwise
      (fun a b => headLe gC5 6 a b = true) ∧
    (pySort (secLe gC5)
      ((containsChildren gC5 "D").filter (fun k => bucketTag gC5 k = "Section"))).Pairwise
      (fun a b => secLe gC5 a b = true) ∧
    (pySort strLe
      ((containsChildren gC5 "D").filter (fun k => bucketTag gC5 k = "Guidance"))).Pairwise
      (fun a b => strLe a b = true) ∧
    (pySort (parLe gC5)
      ((containsChildren gC5 "D").filter (fun k => bucketTag gC5 k = "Paragraph"))).Pairwise
      (fun a b => parLe gC5 a b = true) ∧
    orderedChildren gC5b 6 "D" = orderedChildren gC5 6 "D" :=
  C5_sibling_order gC5 gC5b 6 "D" (by decide) (by decide) (by decide) (by decide)
    (by decide)
